import Mathlib

/-!
Verification of the malbrecht/chess library core against its specification.

The Go sources are shallowly embedded: Go `int8` squares become `Int`
(`NoSquare = -1`), Go `Piece` (a `uint8` with the color in the low bit)
becomes `Nat`, Go arrays become `List`s accessed through guarded lookups,
and Go slices built by `append` become functional list concatenation.
Loops with data-dependent exits carry an explicit fuel argument that is
always large enough for the loop's actual bound.
-/

namespace Chess

/-! Piece encoding (board.go): color in bit 0, type in the remaining bits. -/

abbrev Piece := Nat

def White : Nat := 0
def Black : Nat := 1

def NoPiece : Piece := 0
def Pawn : Piece := 2
def Knight : Piece := 4
def Bishop : Piece := 6
def Rook : Piece := 8
def Queen : Piece := 10
def King : Piece := 12

/-- Color of a piece (board.go `Piece.Color`): the low bit. -/
def pieceColor (p : Piece) : Nat := p % 2

/-- Type of a piece (board.go `Piece.Type`): the value with the low bit cleared. -/
def pieceType (p : Piece) : Piece := p - p % 2

def PieceLetters : List Char :=
  ['.', ',', 'P', 'p', 'N', 'n', 'B', 'b', 'R', 'r', 'Q', 'q', 'K', 'k']

def pieceFromCharLoop (c : Char) : Nat → List Char → Piece
  | _, [] => NoPiece
  | i, l :: ls => if l = c then i else pieceFromCharLoop c (i + 1) ls

/-- board.go `pieceFromChar`: scan `PieceLetters` from index `WP = 2`. -/
def pieceFromChar (c : Char) : Piece := pieceFromCharLoop c 2 (PieceLetters.drop 2)

/-! Squares (board.go): `rank*8 + file`, `NoSquare = -1`. -/

def noSquare : Int := -1
def A1 : Int := 0
def B1 : Int := 1
def C1 : Int := 2
def D1 : Int := 3
def E1 : Int := 4
def F1 : Int := 5
def G1 : Int := 6
def H1 : Int := 7
def A8 : Int := 56
def C8 : Int := 58
def D8 : Int := 59
def E8 : Int := 60
def F8 : Int := 61
def G8 : Int := 62
def H8 : Int := 63

/-- board.go `Square(file, rank)`. -/
def squareAt (file rank : Int) : Int := rank * 8 + file

/-- board.go `Int.File`. Only applied to squares in 0..63, where Go's
truncated `%` agrees with `Int.emod`. -/
def sqFile (sq : Int) : Int := sq % 8

/-- board.go `Int.Rank`. -/
def sqRank (sq : Int) : Int := sq / 8

/-- board.go `Int.RelativeRank`. -/
def relativeRank (sq : Int) (color : Nat) : Int :=
  if color = White then sqRank sq else 7 - sqRank sq

/-- board.go `squareFromString`. -/
def squareFromString (s : List Char) : Int :=
  match s with
  | [c1, c2] =>
      if 'a' ≤ c1 ∧ c1 ≤ 'h' ∧ '1' ≤ c2 ∧ c2 ≤ '8' then
        squareAt (Int.ofNat (c1.toNat - 'a'.toNat)) (Int.ofNat (c2.toNat - '1'.toNat))
      else noSquare
  | _ => noSquare

/-! Castling wings (board.go): `queenSide = 0`, `kingSide = 2`,
indices into `CastleSq` are `color | wing`. -/

def queenSide : Nat := 0
def kingSide : Nat := 2

/-! The board (board.go `Board`). `piece` is the 64-entry placement list. -/

structure Board where
  piece : List Piece
  sideToMove : Nat
  moveNr : Int
  rule50 : Int
  epSquare : Int
  castleSq : List Int
  checkFrom : Int
  checkTo : Int
deriving DecidableEq

/-- Guarded read of `Board.Piece[sq]` (Go would panic out of range;
out-of-range reads never happen on the boards our theorems quantify over). -/
def pieceAt (b : Board) (sq : Int) : Piece :=
  if 0 ≤ sq ∧ sq < 64 then b.piece.getD sq.toNat NoPiece else NoPiece

/-- Guarded write of `Board.Piece[sq]`. -/
def setPieceAt (b : Board) (sq : Int) (p : Piece) : Board :=
  if 0 ≤ sq ∧ sq < 64 then { b with piece := b.piece.set sq.toNat p } else b

def castleSqAt (b : Board) (i : Nat) : Int := b.castleSq.getD i noSquare

def setCastleSqAt (b : Board) (i : Nat) (sq : Int) : Board :=
  { b with castleSq := b.castleSq.set i sq }

/-- board.go `Board.my`. -/
def Board.my (b : Board) (p : Piece) : Piece := b.sideToMove ||| p

/-- board.go `Board.opp`. -/
def Board.opp (b : Board) (p : Piece) : Piece := (b.sideToMove ^^^ 1) ||| p

/-- board.go `Board.find`: locate a piece scanning from `sq0` to `sq1`
inclusive (in either direction). Fuel 65 covers the longest range (64
squares) plus the exit check. -/
def findLoop (b : Board) (p : Piece) : Int → Int → Int → Nat → Int
  | _, _, _, 0 => noSquare
  | sq, sq1, dir, fuel + 1 =>
      if sq = sq1 + dir then noSquare
      else if pieceAt b sq = p then sq
      else findLoop b p (sq + dir) sq1 dir fuel

def find (b : Board) (p : Piece) (sq0 sq1 : Int) : Int :=
  findLoop b p sq0 sq1 (if sq0 > sq1 then -1 else 1) 65

/-! Moves (move.go `Move`). Castling is king-captures-own-rook. -/

structure Move where
  fromSq : Int
  toSq : Int
  promotion : Piece
deriving DecidableEq

def NullMove : Move := ⟨0, 0, 0⟩

/-- movegen.go `castleSquares`: rook move rf→rt, king move kf→kt and the
inclusive span of all four. Mirrors Go's zero-valued named returns when the
right is absent. -/
def castleSquares (b : Board) (wing : Nat) : Int × Int × Int × Int × Int × Int :=
  let rf := castleSqAt b (b.sideToMove ||| wing)
  if rf = noSquare then (noSquare, 0, 0, 0, 0, 0)
  else
    let kf := find b (b.my King) A1 H8
    let rt := ([D1, D8, F1, F8] : List Int).getD (b.sideToMove ||| wing) 0
    let kt := ([C1, C8, G1, G8] : List Int).getD (b.sideToMove ||| wing) 0
    let mn := min (min (min kf rf) kt) rt
    let mx := max (max (max kf rf) kt) rt
    (rf, kf, rt, kt, mn, mx)

/-- List of squares from `mn` to `mx` inclusive (empty when `mx < mn`). -/
def sqRange (mn mx : Int) : List Int :=
  (List.range (mx + 1 - mn).toNat).map (fun k => mn + Int.ofNat k)

/-- movegen.go `canCastle`: the right is recorded and the span contains no
piece other than the castling king and rook. -/
def canCastle (b : Board) (wing : Nat) : Bool :=
  let cs := castleSquares b wing
  let rf := cs.1
  let kf := cs.2.1
  let mn := cs.2.2.2.2.1
  let mx := cs.2.2.2.2.2
  if rf = noSquare then false
  else (sqRange mn mx).all (fun sq => pieceAt b sq = NoPiece ∨ sq = kf ∨ sq = rf)

/-! Move generation (movegen.go). The Go code appends to `gen.moves`; we
return the generated sublists and concatenate in the same order. -/

/-- movegen.go `Int.step`: one offset step, `noSquare` when falling off the
board or wrapping more than two files. -/
def step (fromSq : Int) (offset : Int) : Int :=
  let t := fromSq + offset
  if t < A1 ∨ H8 < t then noSquare
  else if sqFile t - sqFile fromSq < -2 ∨ 2 < sqFile t - sqFile fromSq then noSquare
  else t

/-- movegen.go `addMove`: the emitted moves (0 or 1) and whether a slider
may continue (destination empty). -/
def addMove (b : Board) (f t : Int) (promo : Piece) : List Move × Bool :=
  if t = noSquare then ([], false)
  else
    let blocker := pieceAt b t
    ((if blocker = NoPiece ∨ pieceColor blocker ≠ b.sideToMove then [⟨f, t, promo⟩] else []),
     blocker = NoPiece)

/-- movegen.go `addPawnMove`: expand to the four promotions on the relative
8th rank. -/
def addPawnMove (b : Board) (f t : Int) : List Move × Bool :=
  if relativeRank t b.sideToMove = 7 then
    ((addMove b f t (b.my Knight)).1 ++ (addMove b f t (b.my Bishop)).1 ++
      (addMove b f t (b.my Rook)).1 ++ (addMove b f t (b.my Queen)).1, false)
  else addMove b f t NoPiece

/-- movegen.go `pawnPush`. -/
def pawnPush (b : Board) (f t : Int) : List Move × Bool :=
  if t ≠ noSquare ∧ pieceAt b t = NoPiece then addPawnMove b f t else ([], false)

/-- movegen.go `pawnCapture`. -/
def pawnCapture (b : Board) (f t : Int) : List Move :=
  if t ≠ noSquare ∧ (pieceAt b t ≠ NoPiece ∨ t = b.epSquare) then (addPawnMove b f t).1 else []

/-- movegen.go `pawn`. -/
def pawnMoves (b : Board) (sq : Int) : List Move :=
  let offset : Int := if b.sideToMove = White then 8 else -8
  let p1 := pawnPush b sq (step sq offset)
  let p2 :=
    if p1.2 ∧ relativeRank sq b.sideToMove = 1 then (pawnPush b sq (step sq (2 * offset))).1
    else []
  p1.1 ++ p2 ++ pawnCapture b sq (step sq (offset + 1)) ++ pawnCapture b sq (step sq (offset - 1))

/-- movegen.go `knight`. -/
def knightMoves (b : Board) (sq : Int) : List Move :=
  ((([-17, -15, -10, -6, 6, 10, 15, 17] : List Int)).map
    (fun o => (addMove b sq (step sq o) NoPiece).1)).flatten

/-- movegen.go `slider`, with fuel 8 (a slide is at most 7 squares plus the
final blocked or off-board probe). -/
def sliderLoop (b : Board) (f : Int) (offset : Int) : Int → Nat → List Move
  | _, 0 => []
  | t, fuel + 1 =>
      let r := addMove b f t NoPiece
      if r.2 then r.1 ++ sliderLoop b f offset (step t offset) fuel else r.1

def slider (b : Board) (f : Int) (offset : Int) : List Move :=
  sliderLoop b f offset (step f offset) 8

/-- movegen.go `bishop`. -/
def bishopMoves (b : Board) (sq : Int) : List Move :=
  ((([-9, -7, 7, 9] : List Int)).map (fun o => slider b sq o)).flatten

/-- movegen.go `rook`. -/
def rookMoves (b : Board) (sq : Int) : List Move :=
  ((([-8, -1, 1, 8] : List Int)).map (fun o => slider b sq o)).flatten

/-- movegen.go `king`: single steps plus the two castle moves encoded as
king-to-own-rook-square. -/
def kingMoves (b : Board) (sq : Int) : List Move :=
  ((([-9, -8, -7, -1, 1, 7, 8, 9] : List Int)).map
      (fun o => (addMove b sq (step sq o) NoPiece).1)).flatten ++
    (if canCastle b kingSide then [⟨sq, castleSqAt b (b.sideToMove ||| kingSide), NoPiece⟩] else []) ++
    (if canCastle b queenSide then [⟨sq, castleSqAt b (b.sideToMove ||| queenSide), NoPiece⟩] else [])

/-- One square's contribution to `pseudoLegalMoves` (the body of the Go
generation loop). -/
def genSquare (b : Board) (sq : Int) : List Move :=
  let p := pieceAt b sq
  if p = NoPiece ∨ pieceColor p ≠ b.sideToMove then []
  else if pieceType p = Pawn then pawnMoves b sq
  else if pieceType p = Knight then knightMoves b sq
  else if pieceType p = Bishop then bishopMoves b sq
  else if pieceType p = Rook then rookMoves b sq
  else if pieceType p = Queen then bishopMoves b sq ++ rookMoves b sq
  else if pieceType p = King then kingMoves b sq
  else []

def genMoves (b : Board) : List Move :=
  ((List.range 64).map (fun i => genSquare b (Int.ofNat i))).flatten

/-- movegen.go `pseudoLegalMoves`: all piecewise moves, and the illegality
flag (some generated move lands in the opponent-king range). -/
def pseudoLegalMoves (b : Board) : List Move × Bool :=
  let moves := genMoves b
  let cf0 := if b.checkFrom = A1 ∧ b.checkTo = A1 then find b (b.opp King) A1 H8 else b.checkFrom
  let ct0 := if b.checkFrom = A1 ∧ b.checkTo = A1 then cf0 else b.checkTo
  if moves.any (fun m => cf0 ≤ m.toSq ∧ m.toSq ≤ ct0) then ([], true) else (moves, false)

/-! Move application (board.go `MakeMove`). -/

/-- The castling-rights clearing loop of `MakeMove`: any move whose `from`
or `to` is a stored rook square clears that right. -/
def updateCastleRights (b : Board) (m : Move) : Board :=
  (List.range 4).foldl
    (fun b i =>
      if castleSqAt b i = m.fromSq ∨ castleSqAt b i = m.toSq then setCastleSqAt b i noSquare
      else b)
    b

/-- The reset `MakeMove` performs up front: clear the en-passant square and
the castle check range. -/
def mmReset (b : Board) : Board :=
  { b with epSquare := noSquare, checkFrom := A1, checkTo := A1 }

/-- The castling branch of `MakeMove` (acting on the reset board). -/
def mmCastle (b : Board) (m : Move) : Board :=
  let wing := if m.toSq < m.fromSq then queenSide else kingSide
  let cs := castleSquares b wing
  let rf := cs.1
  let kf := cs.2.1
  let rt := cs.2.2.1
  let kt := cs.2.2.2.1
  let b := setPieceAt b rf NoPiece
  let b := setPieceAt b kf NoPiece
  let b := setPieceAt b rt (b.my Rook)
  let b := setPieceAt b kt (b.my King)
  let b :=
    if kf < kt then { b with checkFrom := kf, checkTo := kt }
    else { b with checkFrom := kt, checkTo := kf }
  let b := setCastleSqAt b (b.sideToMove ||| kingSide) noSquare
  let b := setCastleSqAt b (b.sideToMove ||| queenSide) noSquare
  { b with rule50 := b.rule50 + 1 }

/-- The default branch of `MakeMove` (acting on the reset board;
`epSquare` is the pre-reset en-passant square). -/
def mmRegular (b : Board) (m : Move) (epSquare : Int) : Board :=
  let piece := pieceAt b m.fromSq
  let b :=
    if pieceType piece = Pawn then
      let dy := sqRank m.toSq - sqRank m.fromSq
      if dy = 2 ∨ dy = -2 then
        { b with epSquare := squareAt (sqFile m.fromSq) (sqRank m.fromSq + dy / 2) }
      else if m.toSq = epSquare then
        let b := setPieceAt b (squareAt (sqFile m.toSq) (sqRank m.fromSq)) NoPiece
        setPieceAt b epSquare (b.opp Pawn)
      else if relativeRank m.toSq b.sideToMove = 7 then
        setPieceAt b m.fromSq m.promotion
      else b
    else b
  let b := updateCastleRights b m
  let b :=
    if pieceType piece = King then
      setCastleSqAt (setCastleSqAt b (b.sideToMove ||| kingSide) noSquare)
        (b.sideToMove ||| queenSide) noSquare
    else b
  let b :=
    if pieceType piece = Pawn ∨ pieceAt b m.toSq ≠ NoPiece then { b with rule50 := 0 }
    else { b with rule50 := b.rule50 + 1 }
  let b := setPieceAt b m.toSq (pieceAt b m.fromSq)
  setPieceAt b m.fromSq NoPiece

/-- The side-to-move flip and fullmove increment closing `MakeMove`. -/
def mmFinish (b : Board) : Board :=
  let b := { b with sideToMove := b.sideToMove ^^^ 1 }
  if b.sideToMove = White then { b with moveNr := b.moveNr + 1 } else b

/-- board.go `MakeMove`: returns the position after `m`. -/
def makeMove (b0 : Board) (m : Move) : Board :=
  let epSquare := b0.epSquare
  let b := mmReset b0
  mmFinish
    (if m = NullMove then b
     else if pieceAt b m.fromSq = b.my King ∧ pieceAt b m.toSq = b.my Rook then mmCastle b m
     else mmRegular b m epSquare)

/-! Legality and status (move.go `isLegal`, movegen.go `LegalMoves`,
`IsCheckOrMate`). -/

/-- move.go `isLegal`: apply the move; legal iff the resulting position's
illegality flag is off. -/
def isLegal (m : Move) (b : Board) : Bool := !(pseudoLegalMoves (makeMove b m)).2

/-- The in-place filtering loop of movegen.go `LegalMoves`, verbatim
including its `moves[i] = moves[j]` write. Fuel is the list length. -/
def lmLoop (b : Board) : List Move → Nat → Nat → Nat → List Move × Nat
  | arr, _, j, 0 => (arr, j)
  | arr, i, j, fuel + 1 =>
      if i < arr.length then
        if isLegal (arr.getD i NullMove) b then
          lmLoop b (arr.set i (arr.getD j NullMove)) (i + 1) (j + 1) fuel
        else lmLoop b arr (i + 1) j fuel
      else (arr, j)

/-- movegen.go `LegalMoves`. -/
def legalMoves (b : Board) : List Move :=
  let moves := (pseudoLegalMoves b).1
  let r := lmLoop b moves 0 0 moves.length
  r.1.take r.2

/-- movegen.go `IsCheckOrMate`: check from the null-move probe, mate iff no
pseudo-legal move is legal. -/
def isCheckOrMate (b : Board) : Bool × Bool :=
  let check := (pseudoLegalMoves (makeMove b NullMove)).2
  let mate := !((pseudoLegalMoves b).1.any (fun m => isLegal m b))
  (check, mate)

/-! FEN parsing (board.go `ParseFen`). Strings are `List Char` (FEN is
ASCII, so Go's byte indexing coincides with character indexing). -/

/-- board.go `ParseFen`'s `isSpace`. -/
def isSpaceFen (c : Char) : Bool := c = ' ' ∨ c = '\t'

/-- Length of the prefix of a list satisfying `p`. -/
def skipCount (p : Char → Bool) : List Char → Nat
  | [] => 0
  | c :: cs => if p c then skipCount p cs + 1 else 0

/-- First index `≥ i` in `s` whose character fails `p` (or `s.length`). -/
def scanFrom (s : List Char) (i : Nat) (p : Char → Bool) : Nat :=
  i + skipCount p (s.drop i)

/-- board.go `ParseFen`'s `nextField`: skip spaces from `j`, take the run of
non-spaces; an empty field switches to the default string. -/
def nextField (s : List Char) (j : Nat) (dflt : List Char) : List Char × Nat × Nat :=
  let i := scanFrom s j (fun c => isSpaceFen c)
  let j2 := scanFrom s i (fun c => !isSpaceFen c)
  if i = j2 then (dflt, 0, dflt.length) else (s, i, j2)

/-- The slice `s[i:j]`. -/
def slice (s : List Char) (i j : Nat) : List Char := (s.drop i).take (j - i)

/-- The piece-placement loop of `ParseFen` (field 1). -/
def parsePieces : List Char → Board → Int → Int → Option Board
  | [], b, _, _ => some b
  | c :: cs, b, file, rank =>
      if c = '/' then
        if rank - 1 < 0 then none else parsePieces cs b 0 (rank - 1)
      else if '1' ≤ c ∧ c ≤ '8' then
        parsePieces cs b (file + (Int.ofNat c.toNat - Int.ofNat '0'.toNat)) rank
      else if file > 7 then none
      else
        let p := pieceFromChar c
        if p = NoPiece then none
        else parsePieces cs (setPieceAt b (squareAt file rank) p) (file + 1) rank

/-- board.go `setCanCastle` (with `can = true` as `ParseFen` uses it; the
`can` flag is kept for fidelity). -/
def setCanCastle (b : Board) (c : Char) (can : Bool) : Board :=
  let color : Nat :=
    if c = 'K' ∨ c = 'Q' ∨ ('A' ≤ c ∧ c ≤ 'H') then White
    else if c = 'k' ∨ c = 'q' ∨ ('a' ≤ c ∧ c ≤ 'h') then Black
    else 2
  if color = 2 then b
  else
    let kingSq := find b (color ||| King) A1 H8
    if kingSq = noSquare ∨ relativeRank kingSq color ≠ 0 then b
    else
      let sq01 : Int × Int :=
        if c = 'Q' ∨ c = 'q' then (squareAt 0 (sqRank kingSq), kingSq)
        else if c = 'K' ∨ c = 'k' then (squareAt 7 (sqRank kingSq), kingSq)
        else if 'A' ≤ c ∧ c ≤ 'H' then
          (squareAt (Int.ofNat (c.toNat - 'A'.toNat)) (sqRank kingSq),
           squareAt (Int.ofNat (c.toNat - 'A'.toNat)) (sqRank kingSq))
        else
          (squareAt (Int.ofNat (c.toNat - 'a'.toNat)) (sqRank kingSq),
           squareAt (Int.ofNat (c.toNat - 'a'.toNat)) (sqRank kingSq))
      let rookSq := find b (color ||| Rook) sq01.1 sq01.2
      if rookSq = noSquare then b
      else
        let wing := if rookSq < kingSq then queenSide else kingSide
        setCastleSqAt b (color ||| wing) (if can then rookSq else noSquare)

/-- Decimal digit run to a number (`none` if empty or non-digit). -/
def parseDigits (cs : List Char) : Option Nat :=
  if cs = [] then none
  else if cs.all (fun c => '0' ≤ c ∧ c ≤ '9') then
    some (cs.foldl (fun a c => a * 10 + (c.toNat - '0'.toNat)) 0)
  else none

/-- Go `strconv.Atoi`: optional sign, then a nonempty digit run. Overflow is
not modelled (the counters fit easily in `int`). -/
def atoi : List Char → Option Int
  | [] => none
  | c :: cs =>
      if c = '+' then (parseDigits cs).map Int.ofNat
      else if c = '-' then (parseDigits cs).map (fun n => -(Int.ofNat n))
      else (parseDigits (c :: cs)).map Int.ofNat

def startFenPieces : List Char :=
  "rnbqkbnr/pppppppp/8/8/8/8/PPPPPPPP/RNBQKBNR".toList

/-- board.go `ParseFen`: six whitespace-separated fields, empty fields take
the starting position's value. Errors are `none`. -/
def parseFen (fenStr : List Char) : Option Board :=
  let b0 : Board :=
    { piece := List.replicate 64 NoPiece, sideToMove := White, moveNr := 0, rule50 := 0,
      epSquare := 0, castleSq := [0, 0, 0, 0], checkFrom := 0, checkTo := 0 }
  let r1 := nextField fenStr 0 startFenPieces
  match parsePieces (slice r1.1 r1.2.1 r1.2.2) b0 0 7 with
  | none => none
  | some b =>
    let r2 := nextField r1.1 r1.2.2 ['w']
    let f2 := slice r2.1 r2.2.1 r2.2.2
    if f2 = ['w'] ∨ f2 = ['b'] then
      let b := { b with sideToMove := if f2 = ['w'] then White else Black }
      let b := { b with castleSq := [noSquare, noSquare, noSquare, noSquare] }
      let r3 := nextField r2.1 r2.2.2 ['K', 'Q', 'k', 'q']
      let f3 := slice r3.1 r3.2.1 r3.2.2
      let b := if f3 = ['-'] then b else f3.foldl (fun b c => setCanCastle b c true) b
      let r4 := nextField r3.1 r3.2.2 ['-']
      let f4 := slice r4.1 r4.2.1 r4.2.2
      let bOpt :=
        if f4 = ['-'] then some { b with epSquare := noSquare }
        else
          let ep := squareFromString f4
          if ep = noSquare then none else some { b with epSquare := ep }
      match bOpt with
      | none => none
      | some b =>
        let r5 := nextField r4.1 r4.2.2 ['0']
        match atoi (slice r5.1 r5.2.1 r5.2.2) with
        | none => none
        | some r50 =>
          let r6 := nextField r5.1 r5.2.2 ['1']
          match atoi (slice r6.1 r6.2.1 r6.2.2) with
          | none => none
          | some mn => some { b with rule50 := r50, moveNr := mn }
    else none

/-! FEN rendering (board.go `Fen`). -/

/-- PieceLetters lookup used by `Fen` (Go would panic past the table; only
valid piece codes reach it). -/
def pieceLetter (p : Piece) : Char := PieceLetters.getD p ' '

/-- Number of consecutive empty squares on `rank` starting at `file`
(bounded by the rank's end), as counted by `Fen`'s inner loop. -/
def emptyRun (b : Board) (rank : Int) : Nat → Nat → Nat
  | _, 0 => 0
  | file, fuel + 1 =>
      if file < 8 ∧ pieceAt b (squareAt (Int.ofNat file) rank) = NoPiece then
        1 + emptyRun b rank (file + 1) fuel
      else 0

/-- One rank of `Fen` field 1: runs of empties become digits, pieces their
letters (the `file ≤ 8` outer loop of the Go source). -/
def fenRankGo (b : Board) (rank : Int) : Nat → Nat → List Char
  | _, 0 => []
  | file, fuel + 1 =>
      if 8 < file then []
      else
        let e := emptyRun b rank file (8 - file)
        let f2 := file + e
        (if 0 < e then [Char.ofNat ('0'.toNat + e)] else []) ++
          (if f2 < 8 then
            pieceLetter (pieceAt b (squareAt (Int.ofNat f2) rank)) :: fenRankGo b rank (f2 + 1) fuel
          else [])

def fenRank (b : Board) (rank : Int) : List Char := fenRankGo b rank 0 9

/-- Ranks 8 down to 1 joined with a slash. -/
def fenRanks (b : Board) : Nat → List Char
  | 0 => fenRank b 0
  | r + 1 => fenRank b (Int.ofNat (r + 1)) ++ '/' :: fenRanks b r

/-- Fen field 3: `K`/`Q` for corner rooks, file letters otherwise, in the
order WhiteOO, WhiteOOO, BlackOO, BlackOOO; `-` when empty. -/
def fenCastles (b : Board) : List Char :=
  let w1 :=
    if castleSqAt b (White ||| kingSide) ≠ noSquare then
      (if castleSqAt b (White ||| kingSide) = H1 then ['K']
       else [Char.ofNat ('A'.toNat + (sqFile (castleSqAt b (White ||| kingSide))).toNat)])
    else []
  let w2 :=
    if castleSqAt b (White ||| queenSide) ≠ noSquare then
      (if castleSqAt b (White ||| queenSide) = A1 then ['Q']
       else [Char.ofNat ('A'.toNat + (sqFile (castleSqAt b (White ||| queenSide))).toNat)])
    else []
  let b1 :=
    if castleSqAt b (Black ||| kingSide) ≠ noSquare then
      (if castleSqAt b (Black ||| kingSide) = H8 then ['k']
       else [Char.ofNat ('a'.toNat + (sqFile (castleSqAt b (Black ||| kingSide))).toNat)])
    else []
  let b2 :=
    if castleSqAt b (Black ||| queenSide) ≠ noSquare then
      (if castleSqAt b (Black ||| queenSide) = A8 then ['q']
       else [Char.ofNat ('a'.toNat + (sqFile (castleSqAt b (Black ||| queenSide))).toNat)])
    else []
  let all := w1 ++ w2 ++ b1 ++ b2
  if all = [] then ['-'] else all

/-- board.go `Int.String`: `-` for `NoSquare`, else file letter and rank
digit (the `squareNames` table). -/
def sqName (sq : Int) : List Char :=
  if sq = noSquare then ['-']
  else [Char.ofNat ('a'.toNat + (sqFile sq).toNat), Char.ofNat ('1'.toNat + (sqRank sq).toNat)]

/-- Decimal digits of a natural number (the `%d` verb). -/
def natChars (n : Nat) : List Char :=
  if h : n < 10 then [Char.ofNat ('0'.toNat + n)]
  else
    have : n / 10 < n := Nat.div_lt_self (by omega) (by omega)
    natChars (n / 10) ++ [Char.ofNat ('0'.toNat + n % 10)]

/-- Decimal rendering of an integer (the `%d` verb). -/
def intChars (n : Int) : List Char :=
  if n < 0 then '-' :: natChars (-n).toNat else natChars n.toNat

/-- board.go `Fen`: the canonical six-field FEN string of the position. -/
def fen (b : Board) : List Char :=
  fenRanks b 7 ++ [' '] ++ [if b.sideToMove = White then 'w' else 'b'] ++ [' '] ++
    fenCastles b ++ [' '] ++ sqName b.epSquare ++ [' '] ++
    intChars b.rule50 ++ [' '] ++ intChars b.moveNr

/-! SAN rendering (move.go `algebraicNotation`, used by `Move.San`). -/

/-- The disambiguation scan of `algebraicNotation`: whether another legal
move of the same piece (same color and type) reaches the same target from a
different file, resp. the same file. -/
def sanDisambig (b : Board) (m : Move) : Bool × Bool :=
  (pseudoLegalMoves b).1.foldl
    (fun acc n =>
      if n.toSq = m.toSq ∧ n.fromSq ≠ m.fromSq ∧
          pieceAt b n.fromSq = pieceAt b m.fromSq ∧ isLegal n b then
        (if sqFile n.fromSq ≠ sqFile m.fromSq then (true, acc.2) else (acc.1, true))
      else acc)
    (false, false)

def fileChar (sq : Int) : Char := Char.ofNat ('a'.toNat + (sqFile sq).toNat)

def rankChar (sq : Int) : Char := Char.ofNat ('1'.toNat + (sqRank sq).toNat)

/-- move.go `Move.San` (`algebraicNotation` with `PieceLetters`). -/
def san (m : Move) (b : Board) : List Char :=
  if m = NullMove then ['-', '-']
  else
    let piece := pieceType (pieceAt b m.fromSq)
    let core :=
      if piece = King ∧ pieceAt b m.toSq = b.my Rook then
        (if m.fromSq < m.toSq then ['O', '-', 'O'] else ['O', '-', 'O', '-', 'O'])
      else
        let dis : Bool × Bool :=
          if piece = Pawn then (decide (sqFile m.fromSq ≠ sqFile m.toSq), false)
          else if piece = Knight ∨ piece = Bishop ∨ piece = Rook ∨ piece = Queen then
            sanDisambig b m
          else (false, false)
        let isCapture :=
          if piece = Pawn then sqFile m.fromSq ≠ sqFile m.toSq
          else pieceAt b m.toSq ≠ NoPiece
        (if piece ≠ Pawn then [pieceLetter piece] else []) ++
          (if dis.1 then [fileChar m.fromSq] else []) ++
          (if dis.2 then [rankChar m.fromSq] else []) ++
          (if isCapture then ['x'] else []) ++
          [fileChar m.toSq, rankChar m.toSq] ++
          (if m.promotion ≠ NoPiece then ['=', pieceLetter (pieceType m.promotion)] else [])
    let cm := isCheckOrMate (makeMove b m)
    core ++ (if cm.1 then (if cm.2 then ['#'] else ['+']) else [])

/-! SAN/UCI parsing (move.go `ParseMove`). Errors are `none`. -/

def startsWith (pre s : List Char) : Bool := pre.isPrefixOf s

/-- The character scan of `ParseMove`: track the two most recent files and
ranks and a pending promotion piece; a pending bishop promotion is
reinterpreted as the b-file when more coordinate characters follow. -/
def parseScan : List Char → Int × Int × Int × Int × Piece → Int × Int × Int × Int × Piece
  | [], st => st
  | c :: cs, (f0, r0, f1, r1, promo) =>
      let st1 : Int × Int × Piece :=
        if promo = Bishop ∧ (('a' ≤ c ∧ c ≤ 'h') ∨ ('1' ≤ c ∧ c ≤ '8')) then (f1, 1, NoPiece)
        else (f0, f1, promo)
      let f0 := st1.1
      let f1 := st1.2.1
      let promo := st1.2.2
      if c = 'b' ∨ c = 'n' ∨ c = 'r' ∨ c = 'q' ∨ c = 'B' ∨ c = 'N' ∨ c = 'R' ∨ c = 'Q' then
        parseScan cs (f0, r0, f1, r1, pieceType (pieceFromChar c))
      else if c = 'a' ∨ c = 'c' ∨ c = 'd' ∨ c = 'e' ∨ c = 'f' ∨ c = 'g' ∨ c = 'h' then
        parseScan cs (f1, r0, Int.ofNat (c.toNat - 'a'.toNat), r1, promo)
      else if '1' ≤ c ∧ c ≤ '8' then
        parseScan cs (f0, r1, f1, Int.ofNat (c.toNat - '1'.toNat), promo)
      else parseScan cs (f0, r0, f1, r1, promo)

/-- The resolution loop of `ParseMove`: find the unique pseudo-legal, legal
move matching all specified components (`NullMove` is the not-yet-found
sentinel, as in the source). -/
def matchLoop (b : Board) (piece promo : Piece) (f0 r0 f1 r1 : Int) :
    List Move → Move → Option Move
  | [], acc => if acc = NullMove then none else some acc
  | m :: ms, acc =>
      if (piece = NoPiece ∨ pieceType (pieceAt b m.fromSq) = piece) ∧
          (f0 = -1 ∨ f0 = sqFile m.fromSq) ∧ (r0 = -1 ∨ r0 = sqRank m.fromSq) ∧
          (f1 = -1 ∨ f1 = sqFile m.toSq) ∧ (r1 = -1 ∨ r1 = sqRank m.toSq) ∧
          pieceType m.promotion = promo ∧ isLegal m b then
        (if acc ≠ NullMove then none else matchLoop b piece promo f0 r0 f1 r1 ms m)
      else matchLoop b piece promo f0 r0 f1 r1 ms acc

/-- move.go `ParseMove`: the forgiving SAN/UCI/long-algebraic parser. -/
def parseMove (b : Board) (s : List Char) : Option Move :=
  if s = ['-', '-'] then some NullMove
  else if s.length < 2 then none
  else
    let castle0 : Int :=
      if startsWith "O-O-O".toList s ∨ startsWith "0-0-0".toList s then Int.ofNat queenSide
      else if startsWith "O-O".toList s ∨ startsWith "0-0".toList s then Int.ofNat kingSide
      else -1
    let st : Piece × Piece × Int × Int × Int × Int × Int :=
      if castle0 = -1 then
        let c0 := s.getD 0 ' '
        let headPiece := pieceFromChar c0
        let trim := headPiece ≠ NoPiece ∧
          (c0 ≠ 'b' ∨ (s.length > 2 ∧ 'a' ≤ s.getD 1 ' ' ∧ s.getD 1 ' ' ≤ 'h'))
        let piece := if trim then pieceType headPiece else NoPiece
        let rest := if trim then s.drop 1 else s
        let sc := parseScan rest (-1, -1, -1, -1, NoPiece)
        let f0 := sc.1
        let r0 := sc.2.1
        let f1 := sc.2.2.1
        let r1 := sc.2.2.2.1
        let promo := sc.2.2.2.2
        let piece := if piece = NoPiece ∧ (f0 = -1 ∨ r0 = -1) then Pawn else piece
        let castle : Int :=
          if f0 ≠ -1 ∧ f1 ≠ -1 ∧ r0 ≠ -1 ∧ r1 ≠ -1 then
            let fromS := squareAt f0 r0
            let toS := squareAt f1 r1
            if pieceAt b fromS = b.my King ∧
                (pieceAt b toS = b.my Rook ∨ toS = fromS + 2 ∨ toS = fromS - 2) then
              (if toS < fromS then Int.ofNat queenSide else Int.ofNat kingSide)
            else -1
          else -1
        (piece, promo, f0, r0, f1, r1, castle)
      else (NoPiece, NoPiece, -1, -1, -1, -1, castle0)
    let piece := st.1
    let promo := st.2.1
    let castle := st.2.2.2.2.2.2
    let coords : Option (Int × Int × Int × Int) :=
      if castle ≠ -1 then
        let cs := castleSquares b castle.toNat
        let rook := cs.1
        let king := cs.2.1
        if rook = noSquare ∨ king = noSquare then none
        else some (sqFile king, sqRank king, sqFile rook, sqRank rook)
      else some (st.2.2.1, st.2.2.2.1, st.2.2.2.2.1, st.2.2.2.2.2.1)
    match coords with
    | none => none
    | some (f0, r0, f1, r1) =>
        matchLoop b piece promo f0 r0 f1 r1 (pseudoLegalMoves b).1 NullMove

/-! Auxiliary definitions used only to state and prove the theorems below. -/

/-- Count of the legal moves among the entries of `arr` from index `i` on
(the number of times the `LegalMoves` loop increments `j`). -/
def countLegalFrom (b : Board) (arr : List Move) : Nat → Nat → Nat
  | _, 0 => 0
  | i, fuel + 1 =>
      if i < arr.length then
        (if isLegal (arr.getD i NullMove) b then 1 else 0) + countLegalFrom b arr (i + 1) fuel
      else 0

/-- A default board for total lookups of concrete parses. -/
def emptyBoard : Board := ⟨[], 0, 0, 0, 0, [], 0, 0⟩

/-- The board of a FEN literal (used only on strings that parse). -/
def fenBoard (s : String) : Board := (parseFen s.toList).getD emptyBoard

/-- Concrete position used to exhibit the `LegalMoves` compaction slip:
black rook a1, white knight b1 (pinned), white king d1, black king h8,
white to move. -/
def pinBoard : Board := fenBoard "7k/8/8/8/8/8/8/rN1K4 w - - 0 1"

/-- Position reached after White castles kingside from a bare-rook
position; its `checkFrom`/`checkTo` range is E1..G1. -/
def castledBoard : Board := makeMove (fenBoard "4k3/8/8/8/8/8/8/4K2R w K - 0 1") ⟨E1, H1, NoPiece⟩

/-- Well-formedness of the `CastleSq` slots: each holds `NoSquare` or a real
square (Go's `Board` invariant; an out-of-range entry would make the Go
code panic on an array index). -/
def wfCastleSlots (b : Board) : Prop :=
  ∀ i, i < 4 → castleSqAt b i = noSquare ∨ (0 ≤ castleSqAt b i ∧ castleSqAt b i < 64)

/-- The destination is not occupied by a piece of the side to move (the
`addMove` guard). -/
def nonOwnDest (b : Board) (t : Int) : Prop :=
  pieceAt b t = NoPiece ∨ pieceColor (pieceAt b t) ≠ b.sideToMove

/-- The back rank of a color (rank 1 for White, rank 8 for Black). -/
def backRank (color : Nat) : Int := if color = White then 0 else 7

/-- Consistency of one castling-rights slot with the position (the §3 data
model: the slot holds `NoSquare`, or the rook square of a rook of that
color on the back rank, with the color's king - as located by `find`, the
scan the parser itself uses - on the same rank and on the matching side). -/
def WfCastleRight (b : Board) (color wing : Nat) : Prop :=
  castleSqAt b (color ||| wing) = noSquare ∨
  (0 ≤ castleSqAt b (color ||| wing) ∧ castleSqAt b (color ||| wing) < 64 ∧
   pieceAt b (castleSqAt b (color ||| wing)) = (color ||| Rook) ∧
   find b (color ||| King) A1 H8 ≠ noSquare ∧
   sqRank (find b (color ||| King) A1 H8) = backRank color ∧
   sqRank (castleSqAt b (color ||| wing)) = backRank color ∧
   (wing = kingSide → find b (color ||| King) A1 H8 < castleSqAt b (color ||| wing)) ∧
   (wing = queenSide → castleSqAt b (color ||| wing) < find b (color ||| King) A1 H8))

/-- The data-model invariants of a legal board (§3 of the specification):
64 piece entries with valid encodings, a real side to move, four castling
slots consistent with the position, and a real-or-absent en-passant
square. Every position reachable in a legal game satisfies this. -/
def WfBoard (b : Board) : Prop :=
  b.piece.length = 64 ∧
  b.castleSq.length = 4 ∧
  (∀ p ∈ b.piece, p = NoPiece ∨ (2 ≤ p ∧ p ≤ 13)) ∧
  (b.sideToMove = White ∨ b.sideToMove = Black) ∧
  (b.epSquare = noSquare ∨ (0 ≤ b.epSquare ∧ b.epSquare < 64)) ∧
  WfCastleRight b White kingSide ∧ WfCastleRight b White queenSide ∧
  WfCastleRight b Black kingSide ∧ WfCastleRight b Black queenSide

end Chess

/-! PGN tag-string handling (pgn package, parser file `unquote`/`unescape`). -/

namespace Pgn

/-- Go `unicode.IsSpace`: the white-space code points trimmed by
`strings.TrimSpace`. -/
def isGoSpace (c : Char) : Bool :=
  c.toNat = 9 ∨ c.toNat = 10 ∨ c.toNat = 11 ∨ c.toNat = 12 ∨ c.toNat = 13 ∨
  c.toNat = 32 ∨ c.toNat = 133 ∨ c.toNat = 160 ∨ c.toNat = 0x1680 ∨
  (0x2000 ≤ c.toNat ∧ c.toNat ≤ 0x200A) ∨ c.toNat = 0x2028 ∨ c.toNat = 0x2029 ∨
  c.toNat = 0x202F ∨ c.toNat = 0x205F ∨ c.toNat = 0x3000

/-- Go `strings.TrimSpace`. -/
def trimSpace (cs : List Char) : List Char :=
  ((cs.dropWhile isGoSpace).reverse.dropWhile isGoSpace).reverse

/-- pgn `unquote`: removes the first and last character from `s`, trimming
the result (`strings.TrimSpace(s[1 : len(s)-1])`); strings shorter than two
characters are returned unchanged. -/
def unquote (cs : List Char) : List Char :=
  if cs.length < 2 then cs
  else trimSpace ((cs.drop 1).take (cs.length - 2))

/-- pgn `unescape`: `strings.Replace(unquote(s), "\\", "", -1)` - the
unquoted string with every backslash deleted. -/
def unescape (cs : List Char) : List Char :=
  (unquote cs).filter (fun c => ¬(c = '\\'))

/-- Modelled from the spec: escape-aware replacement, each `\x` becomes
`x` (a trailing lone backslash is kept). This is the spec reading of
"replace `\x` with `x`", to be compared with the code `unescape`. -/
def specEscape : List Char → List Char
  | [] => []
  | c :: rest =>
      if c = '\\' then
        match rest with
        | [] => [c]
        | x :: rest2 => x :: specEscape rest2
      else c :: specEscape rest

/-- Modelled from the spec: "STRING is unescaped (remove surrounding
quotes, replace `\x` with `x`)" - quote removal without trimming, then
escape replacement. -/
def specUnescape (cs : List Char) : List Char :=
  specEscape ((cs.drop 1).take (cs.length - 2))

/-- Interiors in which every backslash starts a two-character escape whose
second character is not itself a backslash (so the code's
remove-every-backslash and the spec's escape replacement agree). -/
def escOk : List Char → Bool
  | [] => true
  | c :: rest =>
      if c = '\\' then
        match rest with
        | [] => false
        | x :: rest2 => !(x = '\\') && escOk rest2
      else escOk rest

end Pgn

/-! PGN movetext parsing (pgn package: lexer items, `Node`, `Game`,
`parser.variation`, `DB.ParseMoves`). Nodes live in an arena (`List
NodeRec`) with `Option Nat` pointers standing for the Go `*Node`
pointers; `none` is nil. The prepared `movelex` lexer of a game is
modelled by its item stream (the lexer is a deterministic scanner, so
pre-lexing commutes with the parser's on-demand `next()` calls) plus the
lexer error, if any, that ends the stream; positions are carried on each
item as the line/column coordinates that `parser.recover` would report
for an error at that item. -/

namespace Pgn

/-- part_000 `itemType`. `nag` is the `'!'`/`'$n'` item, `str` the quoted
string item. -/
inductive ItemType
  | none
  | eof
  | lbracket
  | rbracket
  | lparen
  | rparen
  | symbol
  | str
  | comment
  | nag
  | result
  | movenumber
  | dots
deriving DecidableEq

/-- part_000 `item`, with the absolute input position `pos0` at which the
parser's `p.pos` points for this item (just after the previous item, before
leading white space) and the line/column error coordinates `recover` would
report for that position. -/
structure Item where
  typ : ItemType
  val : List Char
  line : Nat
  col : Nat
  pos0 : Nat
deriving DecidableEq

/-- part_001 `ParseError` (message text abbreviated to the offending
token or a short tag; the claims concern the coordinates). -/
structure PErr where
  line : Nat
  col : Nat
  msg : List Char
deriving DecidableEq

/-- part_001 `Node`, as an arena record. -/
structure NodeRec where
  parent : Option Nat
  next : Option Nat
  variation : Option Nat
  move : Chess.Move
  board : Chess.Board
  comment : List (List Char)
  nags : List Int
deriving DecidableEq

/-- The zero `Node` (all pointers nil). -/
def dfltNode : NodeRec :=
  { parent := none, next := none, variation := none, move := Chess.NullMove,
    board := Chess.emptyBoard, comment := [], nags := [] }

/-- part_001 `Node.IsRoot`. -/
def isRootH (h : List NodeRec) (n : Nat) : Bool :=
  match (h.getD n dfltNode).parent with
  | Option.none => true
  | some p => ¬((h.getD p dfltNode).next = some n)

/-- part_001 `Node.Insert`: allocate the new child and point `n.Next` at
it; returns the new arena and the new node's index. -/
def insertH (h : List NodeRec) (n : Nat) (m : Chess.Move) : List NodeRec × Nat :=
  let b := Chess.makeMove (h.getD n dfltNode).board m
  let idx := h.length
  ((h.set n { h.getD n dfltNode with next := some idx }) ++
    [{ parent := some n, next := Option.none, variation := Option.none, move := m,
       board := b, comment := [], nags := [] }], idx)

/-- part_001 `variation`, comment case: `node.Comment = append(...)`. -/
def addCommentH (h : List NodeRec) (n : Nat) (c : List Char) : List NodeRec :=
  h.set n { h.getD n dfltNode with comment := (h.getD n dfltNode).comment ++ [c] }

/-- part_001 `Node.AddNag` (duplicates are dropped). -/
def addNagH (h : List NodeRec) (n : Nat) (g : Int) : List NodeRec :=
  let r := h.getD n dfltNode
  if g ∈ r.nags then h else h.set n { r with nags := r.nags ++ [g] }

/-- The search loop of part_001 `Node.NewVariation`: follow
`v.Variation.Next` until a node with no variation, or with an empty
variation, is found. -/
def varWalk (h : List NodeRec) : Nat → Nat → Nat
  | v, 0 => v
  | v, fuel + 1 =>
      match (h.getD v dfltNode).variation with
      | Option.none => v
      | some w =>
          match (h.getD w dfltNode).next with
          | Option.none => v
          | some v2 => varWalk h v2 fuel

/-- part_001 `Node.NewVariation`: hang a fresh variation root (parent and
board of `n`'s parent, null move) on the end of `n`'s variation chain. -/
def newVariationH (h : List NodeRec) (n : Nat) : List NodeRec × Nat :=
  let v := varWalk h n (h.length + 1)
  let pb :=
    match (h.getD n dfltNode).parent with
    | some p => (h.getD p dfltNode).board
    | Option.none => Chess.emptyBoard
  let idx := h.length
  ((h.set v { h.getD v dfltNode with variation := some idx }) ++
    [{ parent := (h.getD n dfltNode).parent, next := Option.none,
       variation := Option.none, move := Chess.NullMove, board := pb,
       comment := [], nags := [] }], idx)

/-- part_001 `parser.nag`: `$n` via `strconv.Atoi`, else the punctuation
table; `none` is the panic case. -/
def parseNag (s : List Char) : Option Int :=
  if s.length ≥ 2 ∧ s.getD 0 ' ' = '$' then Chess.atoi (s.drop 1)
  else if s = ['!'] then some 1
  else if s = ['?'] then some 2
  else if s = ['!', '!'] then some 3
  else if s = ['?', '?'] then some 4
  else if s = ['!', '?'] then some 5
  else if s = ['?', '!'] then some 6
  else Option.none

/-- part_001 `parser.variation`, fuelled. Returns the arena, the
remaining items (a closing parenthesis is left for the caller, as the Go
code leaves it as `p.item`), and the error produced by `recover`, if any.
An exhausted stream yields the pending lexer error. -/
def variationH : Nat → List NodeRec → List Item → Option PErr → Nat → Nat →
    List NodeRec × List Item × Option PErr
  | 0, h, items, _, _, _ => (h, items, some ⟨0, 0, ['*']⟩)
  | fuel + 1, h, items, lf, node, level =>
      match items with
      | [] =>
          match lf with
          | some e => (h, [], some e)
          | Option.none => (h, [], some ⟨0, 0, ['*']⟩)
      | it :: rest =>
          match it.typ with
          | ItemType.symbol =>
              match Chess.parseMove (h.getD node dfltNode).board it.val with
              | Option.none => (h, items, some ⟨it.line, it.col, it.val⟩)
              | some m =>
                  let r := insertH h node m
                  variationH fuel r.1 rest lf r.2 level
          | ItemType.comment =>
              variationH fuel (addCommentH h node (unquote it.val)) rest lf node level
          | ItemType.nag =>
              match parseNag it.val with
              | Option.none => (h, items, some ⟨it.line, it.col, it.val⟩)
              | some g => variationH fuel (addNagH h node g) rest lf node level
          | ItemType.lparen =>
              if isRootH h node then (h, items, some ⟨it.line, it.col, ['(']⟩)
              else
                let r := newVariationH h node
                match variationH fuel r.1 rest lf r.2 (level + 1) with
                | (h2, items2, some e) => (h2, items2, some e)
                | (h2, items2, Option.none) =>
                    match items2 with
                    | [] => (h2, [], some ⟨0, 0, ['*']⟩)
                    | _ :: rest2 => variationH fuel h2 rest2 lf node level
          | ItemType.rparen =>
              if level = 0 then (h, items, some ⟨it.line, it.col, [')']⟩)
              else (h, items, Option.none)
          | ItemType.eof =>
              if level ≠ 0 then (h, items, some ⟨it.line, it.col, ['e']⟩)
              else (h, items, Option.none)
          | ItemType.lbracket =>
              if level ≠ 0 then (h, items, some ⟨it.line, it.col, ['e']⟩)
              else (h, items, Option.none)
          | ItemType.movenumber => variationH fuel h rest lf node level
          | ItemType.dots => variationH fuel h rest lf node level
          | ItemType.result => variationH fuel h rest lf node level
          | _ => (h, items, some ⟨it.line, it.col, ['?']⟩)

/-- part_001 `Game`, pre-`ParseMoves`: the arena, the root index, and the
prepared movetext lexer (`none` once the movetext has been parsed). -/
structure Game1 where
  heap : List NodeRec
  root : Nat
  movelex : Option (List Item × Option PErr)
deriving DecidableEq

/-- part_001 `DB.ParseMoves`: copy `*game.Root`, parse, and on error point
`game.Root` at the saved copy (a fresh allocation) and keep `movelex`. -/
def dbParseMoves (g : Game1) : Game1 × Option PErr :=
  match g.movelex with
  | Option.none => (g, Option.none)
  | some (items, lf) =>
      match variationH (2 * items.length + 2) g.heap items lf g.root 0 with
      | (h, _, Option.none) =>
          ({ heap := h, root := g.root, movelex := Option.none }, Option.none)
      | (h, _, some e) =>
          ({ heap := h ++ [g.heap.getD g.root dfltNode], root := h.length,
             movelex := g.movelex }, some e)

/-- A one-node game whose movetext is the single unparseable move `e4`
(the root board is empty, so no pawn move exists): `ParseMoves` fails on
its first item. -/
def exGameItems : List Item :=
  [⟨ItemType.symbol, ['e', '4'], 3, 5, 24⟩, ⟨ItemType.eof, [], 3, 7, 26⟩]

def exGame : Game1 := ⟨[dfltNode], 0, some (exGameItems, Option.none)⟩

/-- Arena indices at or above `n0` (the fresh nodes) point, via `next` and
`variation`, only at fresh nodes. -/
def FreshClosed (n0 : Nat) (h : List NodeRec) : Prop :=
  ∀ j, n0 ≤ j → j < h.length →
    ((h.getD j dfltNode).next = Option.none ∨
      ∃ k, (h.getD j dfltNode).next = some k ∧ n0 ≤ k) ∧
    ((h.getD j dfltNode).variation = Option.none ∨
      ∃ k, (h.getD j dfltNode).variation = some k ∧ n0 ≤ k)

end Pgn

/-! PGN lexer and tag-section parser (part_000 `lexer`, part_001
`readGame`, `DB.Parse`). Strings are `List Char`, so positions, columns
and slice indices count runes rather than bytes (the two agree on ASCII
input). -/

namespace Pgn

/-- part_000 `lexer` state. -/
structure LexState where
  input : List Char
  pos : Nat
  line : Nat
  start : Nat
deriving DecidableEq

/-- part_000 `lexer.next` (also `peek` via the first component). -/
def lnext (l : LexState) : Option Char × LexState :=
  match l.input.getD l.pos '\x00', decide (l.pos < l.input.length) with
  | _, false => (Option.none, l)
  | c, true =>
      (some c,
       { l with
          pos := l.pos + 1
          line := if c = '\n' then l.line + 1 else l.line })

/-- part_000 `lexer.peek`. -/
def lpeek (l : LexState) : Option Char := (lnext l).1

/-- part_000 `lexer.acceptRun`. -/
def acceptRunL : LexState → List Char → Nat → LexState
  | l, _, 0 => l
  | l, rs, fuel + 1 =>
      match lpeek l with
      | some c => if c ∈ rs then acceptRunL (lnext l).2 rs fuel else l
      | Option.none => l

/-- part_000 `lexer.find`. -/
def findL : LexState → List Char → Nat → Bool × LexState
  | l, _, 0 => (false, l)
  | l, rs, fuel + 1 =>
      match lnext l with
      | (Option.none, l1) => (false, l1)
      | (some c, l1) => if c ∈ rs then (true, l1) else findL l1 rs fuel

/-- The column scan of part_000 `lexer.coords`: distance back to the
previous newline (or `pos + 1` when there is none). -/
def colAt (input : List Char) (pos : Nat) : Nat :=
  match (input.take pos).reverse.findIdx? (fun c => c = '\n') with
  | some k => k + 1
  | Option.none => pos + 1

/-- `lexer.coords(-1)` packaged as a `ParseError` (used for lex panics). -/
def lexErrAt (l : LexState) (m : List Char) : PErr :=
  ⟨l.line - ((l.input.take l.pos).drop (l.pos - 1)).count '\n',
   colAt l.input (l.pos - 1), m⟩

/-- part_000 `lexer.string` (scan a quoted string; `\` skips a char). -/
def stringL : LexState → Nat → Except (PErr × LexState) LexState
  | l, 0 => Except.error (lexErrAt l ['f'], l)
  | l, fuel + 1 =>
      match lnext l with
      | (some '\\', l1) => stringL (lnext l1).2 fuel
      | (Option.none, l1) => Except.error (lexErrAt l1 ['u', 's'], l1)
      | (some '\n', l1) => Except.error (lexErrAt l1 ['u', 's'], l1)
      | (some '"', l1) => Except.ok l1
      | (some _, l1) => stringL l1 fuel

/-- part_000 `lexer.emit`: the item text is `input[start:pos]`. -/
def emitI (l : LexState) (t : ItemType) (pos0 line0 : Nat) : Item × LexState :=
  (⟨t, (l.input.take l.pos).drop l.start, line0, colAt l.input pos0, pos0⟩,
   { l with start := l.pos })

def digitChars : List Char := "0123456789".toList

def symbolChars : List Char :=
  "abcdefghijklmnopqrstuvwxyzABCDEFGHIJKLMNOPQRSTUVWXYZ0123456789_+#=:-".toList

/-- part_000 `lexer.number`: a leading digit is a game result if the text
at `start` begins with one, else a move number. -/
def numberL (l : LexState) (pos0 line0 fuel : Nat) : Item × LexState :=
  let tl := l.input.drop l.start
  if List.isPrefixOf "1-0".toList tl then
    emitI { l with pos := l.start + 3 } ItemType.result pos0 line0
  else if List.isPrefixOf "0-1".toList tl then
    emitI { l with pos := l.start + 3 } ItemType.result pos0 line0
  else if List.isPrefixOf "1/2-1/2".toList tl then
    emitI { l with pos := l.start + 7 } ItemType.result pos0 line0
  else emitI (acceptRunL l digitChars fuel) ItemType.movenumber pos0 line0

/-- part_000 `lexer.item`, inner loop (`pos0`/`line0` fixed at entry so
the parser's `p.pos` coordinates are preserved across skipped white space
and comments). -/
def itemLoop : LexState → Nat → Nat → Nat → Except (PErr × LexState) (Item × LexState)
  | l, _, _, 0 => Except.error (lexErrAt l ['f'], l)
  | l, pos0, line0, fuel + 1 =>
      match lnext l with
      | (Option.none, l1) => Except.ok (emitI l1 ItemType.eof pos0 line0)
      | (some c, l1) =>
          if c = ' ' ∨ c = '\t' ∨ c = '\x0B' ∨ c = '\r' ∨ c = '\n' then
            let l2 := acceptRunL l1 [' ', '\t', '\x0B', '\r', '\n'] fuel
            itemLoop { l2 with start := l2.pos } pos0 line0 fuel
          else if c = ';' ∨ c = '%' then
            let r := findL l1 ['\n'] fuel
            itemLoop { r.2 with start := r.2.pos } pos0 line0 fuel
          else if c = '[' then Except.ok (emitI l1 ItemType.lbracket pos0 line0)
          else if c = ']' then Except.ok (emitI l1 ItemType.rbracket pos0 line0)
          else if c = '(' then Except.ok (emitI l1 ItemType.lparen pos0 line0)
          else if c = ')' then Except.ok (emitI l1 ItemType.rparen pos0 line0)
          else if c = '*' then Except.ok (emitI l1 ItemType.result pos0 line0)
          else if c = '{' then
            match findL l1 ['}'] fuel with
            | (false, l2) => Except.error (lexErrAt l2 ['u', 'c'], l2)
            | (true, l2) => Except.ok (emitI l2 ItemType.comment pos0 line0)
          else if c = '"' then
            match stringL l1 fuel with
            | Except.error e => Except.error e
            | Except.ok l2 => Except.ok (emitI l2 ItemType.str pos0 line0)
          else if c = '$' then
            let l2 := acceptRunL l1 digitChars fuel
            if l2.pos - l2.start < 2 then Except.error (lexErrAt l2 ['e', 'd'], l2)
            else Except.ok (emitI l2 ItemType.nag pos0 line0)
          else if c = '!' ∨ c = '?' then
            Except.ok (emitI (acceptRunL l1 ['!', '?'] fuel) ItemType.nag pos0 line0)
          else if c ∈ digitChars then Except.ok (numberL l1 pos0 line0 fuel)
          else if c = '.' then
            Except.ok (emitI (acceptRunL l1 ['.'] fuel) ItemType.dots pos0 line0)
          else if ('a' ≤ c ∧ c ≤ 'z') ∨ ('A' ≤ c ∧ c ≤ 'Z') then
            Except.ok (emitI (acceptRunL l1 symbolChars fuel) ItemType.symbol pos0 line0)
          else Except.error (lexErrAt l1 ['u', 'x'], l1)

/-- part_000 `lexer.item`. -/
def itemL (l : LexState) (fuel : Nat) : Except (PErr × LexState) (Item × LexState) :=
  itemLoop l l.pos l.line fuel

/-- Lex a whole input into its item stream: the items up to and including
the `eof` item, or the items before the first lexer error together with
that error. -/
def itemsOfL : LexState → Nat → List Item × Option PErr
  | l, 0 => ([], some (lexErrAt l ['f']))
  | l, fuel + 1 =>
      match itemL l (l.input.length + 2) with
      | Except.error (e, _) => ([], some e)
      | Except.ok (it, l2) =>
          if it.typ = ItemType.eof then ([it], Option.none)
          else
            let r := itemsOfL l2 fuel
            (it :: r.1, r.2)

def itemsOf (input : List Char) (lineoff : Nat) : List Item × Option PErr :=
  itemsOfL ⟨input, 0, lineoff, 0⟩ (input.length + 2)

/-- part_000 `lexer.recover`, main loop: scan for a newline, optional
run of `' '`/`'\t'`/`'\r'`, and a second newline, or the end of input. -/
def recoverLoop : LexState → Nat → LexState
  | l, 0 => l
  | l, fuel + 1 =>
      match lnext l with
      | (Option.none, l1) => l1
      | (some c, l1) =>
          if c = '\n' then
            let l2 := acceptRunL l1 [' ', '\t', '\r'] fuel
            match lnext l2 with
            | (some c2, l3) => if c2 = '\n' then l3 else recoverLoop l3 fuel
            | (Option.none, l3) => recoverLoop l3 fuel
          else recoverLoop l1 fuel

/-- part_000 `lexer.recover` (the trailing `l.ignore()` resets `start`). -/
def recoverH (l : LexState) : LexState :=
  let r := recoverLoop l (l.input.length + 2)
  { r with start := r.pos }

/-- part_001 `parser` state: the lexer plus the current item (`none` is
the zero `item{}`). -/
structure PS where
  lex : LexState
  cur : Option Item
deriving DecidableEq

def curI (ps : PS) : Item := ps.cur.getD ⟨ItemType.none, [], 0, 0, 0⟩

/-- part_001 `parser.next`. -/
def pnext (ps : PS) : Except (PErr × PS) PS :=
  match itemL ps.lex (ps.lex.input.length + 2) with
  | Except.error (e, l) => Except.error (e, ⟨l, Option.none⟩)
  | Except.ok (it, l) => Except.ok ⟨l, some it⟩

/-- The comment-skipping prefix of part_001 `parser.accept`. -/
def pskipC : PS → Nat → Except (PErr × PS) PS
  | ps, 0 => Except.ok ps
  | ps, fuel + 1 =>
      if (curI ps).typ = ItemType.comment then
        match pnext ps with
        | Except.error e => Except.error e
        | Except.ok ps2 => pskipC ps2 fuel
      else Except.ok ps

/-- part_001 `parser.accept`: on a match, returns the consumed item (the
Go `p.lastitem`). -/
def paccept (ps : PS) (t : ItemType) (fuel : Nat) :
    Except (PErr × PS) (Option Item × PS) :=
  match pskipC ps fuel with
  | Except.error e => Except.error e
  | Except.ok ps2 =>
      if (curI ps2).typ = t then
        match pnext ps2 with
        | Except.error e => Except.error e
        | Except.ok ps3 => Except.ok (some (curI ps2), ps3)
      else Except.ok (Option.none, ps2)

/-- `parser.panicf` coordinates: `coords(p.pos - p.lex.pos)`, the stored
coordinates of the current item. -/
def perrAt (ps : PS) (m : List Char) : PErr := ⟨(curI ps).line, (curI ps).col, m⟩

/-- part_001 `parser.expect`. -/
def pexpect (ps : PS) (t : ItemType) (fuel : Nat) : Except (PErr × PS) (Item × PS) :=
  match paccept ps t fuel with
  | Except.error e => Except.error e
  | Except.ok (some it, ps2) => Except.ok (it, ps2)
  | Except.ok (Option.none, ps2) => Except.error (perrAt ps2 ['e', 'x'], ps2)

/-- Go map update (last write wins). -/
def assocSet : List (List Char × List Char) → List Char → List Char →
    List (List Char × List Char)
  | [], k, v => [(k, v)]
  | (k0, v0) :: r, k, v => if k0 = k then (k, v) :: r else (k0, v0) :: assocSet r k v

def assocGet (ts : List (List Char × List Char)) (k : List Char) : Option (List Char) :=
  (ts.find? (fun p => p.1 = k)).map Prod.snd

/-- part_001 `Game` as read by `readGame`: the tag map, the counted
plies, and the game arena with its prepared movetext items. -/
structure GameFull where
  tags : List (List Char × List Char)
  plies : Nat
  game : Game1
deriving DecidableEq

/-- The tag-section loop of part_001 `readGame`, returning the updated
movetext start (`mtext0`, `mtextline`). -/
def tagLoop : PS → List (List Char × List Char) → Nat → Nat → Nat →
    Except (PErr × PS) (PS × List (List Char × List Char) × Nat × Nat)
  | ps, tags, m0, ml, 0 => Except.ok (ps, tags, m0, ml)
  | ps, tags, m0, ml, fuel + 1 =>
      match paccept ps ItemType.lbracket (ps.lex.input.length + 2) with
      | Except.error e => Except.error e
      | Except.ok (Option.none, ps2) => Except.ok (ps2, tags, m0, ml)
      | Except.ok (some _, ps2) =>
          match pexpect ps2 ItemType.symbol (ps2.lex.input.length + 2) with
          | Except.error e => Except.error e
          | Except.ok (tagIt, ps3) =>
              match pexpect ps3 ItemType.str (ps3.lex.input.length + 2) with
              | Except.error e => Except.error e
              | Except.ok (valIt, ps4) =>
                  match pexpect ps4 ItemType.rbracket (ps4.lex.input.length + 2) with
                  | Except.error e => Except.error e
                  | Except.ok (_, ps5) =>
                      tagLoop ps5 (assocSet tags tagIt.val (unescape valIt.val))
                        (curI ps5).pos0 ps5.lex.line fuel

/-- The movetext scan loop of part_001 `readGame` (counts main-line
plies, checks the game result against the `Result` tag, stops before a
`[` or EOF). -/
def scanLoop : PS → List (List Char × List Char) → Nat → Int → Nat →
    Except (PErr × PS) (PS × List (List Char × List Char) × Nat)
  | ps, tags, plies, _, 0 => Except.ok (ps, tags, plies)
  | ps, tags, plies, variant, fuel + 1 =>
      let it := curI ps
      if it.typ = ItemType.lbracket ∨ it.typ = ItemType.eof then
        Except.ok (ps, tags, plies)
      else if it.typ = ItemType.result then
        match assocGet tags "Result".toList with
        | Option.none =>
            match pnext ps with
            | Except.error e => Except.error e
            | Except.ok ps2 =>
                scanLoop ps2 (assocSet tags "Result".toList it.val) plies variant fuel
        | some r =>
            if r = it.val then
              match pnext ps with
              | Except.error e => Except.error e
              | Except.ok ps2 => scanLoop ps2 tags plies variant fuel
            else Except.error (perrAt ps ['r', 'm'], ps)
      else
        let plies2 := if it.typ = ItemType.symbol ∧ variant = 0 then plies + 1 else plies
        let variant2 :=
          if it.typ = ItemType.lparen then variant + 1
          else if it.typ = ItemType.rparen then variant - 1
          else variant
        match pnext ps with
        | Except.error e => Except.error e
        | Except.ok ps2 => scanLoop ps2 tags plies2 variant2 fuel

/-- Failure exit of part_001 `readGame`: `recover` produces the
`ParseError`, runs the lexer to the next blank line and clears the
current item. -/
def recFail (psE : PS) (e : PErr) : PS × Except PErr (Option GameFull) :=
  (⟨recoverH psE.lex, Option.none⟩, Except.error e)

/-- part_001 `readGame`. -/
def readGameH (ps0 : PS) : PS × Except PErr (Option GameFull) :=
  match (if ps0.cur = Option.none then pnext ps0 else Except.ok ps0) with
  | Except.error (e, psE) => recFail psE e
  | Except.ok ps1 =>
      match paccept ps1 ItemType.eof (ps1.lex.input.length + 2) with
      | Except.error (e, psE) => recFail psE e
      | Except.ok (some _, ps2) => (ps2, Except.ok Option.none)
      | Except.ok (Option.none, ps2) =>
          match tagLoop ps2 [] (curI ps2).pos0 ps2.lex.line
              (ps2.lex.input.length + 2) with
          | Except.error (e, psE) => recFail psE e
          | Except.ok (ps3, tags, m0, ml) =>
              if tags = [] then recFail ps3 (perrAt ps3 ['n', 't'])
              else
                match scanLoop ps3 tags 0 0 (ps3.lex.input.length + 2) with
                | Except.error (e, psE) => recFail psE e
                | Except.ok (ps4, tags2, plies) =>
                    let m1 := (curI ps4).pos0
                    let tags3 :=
                      if assocGet tags2 "Result".toList = Option.none ∨
                          assocGet tags2 "Result".toList = some [] then
                        assocSet tags2 "Result".toList ['*']
                      else tags2
                    match Chess.parseFen ((assocGet tags3 "FEN".toList).getD []) with
                    | Option.none => recFail ps4 (perrAt ps4 ['f', 'e'])
                    | some b =>
                        (ps4, Except.ok (some
                          ⟨tags3, plies,
                           ⟨[⟨Option.none, Option.none, Option.none, Chess.NullMove,
                              b, [], []⟩], 0,
                            some (itemsOf ((ps4.lex.input.take m1).drop m0) ml)⟩⟩))

/-- The loop of part_001 `DB.Parse`: an error appends one `ParseError`
and continues, a game is appended to the database, nil/nil ends. -/
def parseLoopH : Nat → PS → List GameFull → List PErr → List GameFull × List PErr
  | 0, _, gs, es => (gs, es)
  | fuel + 1, ps, gs, es =>
      match readGameH ps with
      | (ps2, Except.error e) => parseLoopH fuel ps2 gs (es ++ [e])
      | (_, Except.ok Option.none) => (gs, es)
      | (ps2, Except.ok (some g)) => parseLoopH fuel ps2 (gs ++ [g]) es

/-- part_001 `DB.Parse` on a fresh database (`newLexer(text, 1)`). -/
def dbParse (text : List Char) : List GameFull × List PErr :=
  parseLoopH (text.length + 2) ⟨⟨text, 0, 1, 0⟩, Option.none⟩ [] []

instance exceptDecEq {e a : Type} [DecidableEq e] [DecidableEq a] :
    DecidableEq (Except e a) := fun x y =>
  match x, y with
  | Except.ok v, Except.ok w =>
      if h : v = w then isTrue (by rw [h]) else isFalse (fun hh => h (Except.ok.inj hh))
  | Except.error v, Except.error w =>
      if h : v = w then isTrue (by rw [h])
      else isFalse (fun hh => h (Except.error.inj hh))
  | Except.ok _, Except.error _ => isFalse (fun hh => Except.noConfusion hh)
  | Except.error _, Except.ok _ => isFalse (fun hh => Except.noConfusion hh)

/-- The §8-style recovery example: a first game whose tag section is
malformed (`[bad [Result "*"]`), a blank line, a well-formed second game. -/
def c9Input : List Char := "[bad [Result \"*\"]\n\n[Event \"x\"]\n\n1. e4 *".toList

/-- The fresh parser state `DB.Parse` starts from on `c9Input`. -/
def c9psA : PS := ⟨⟨c9Input, 0, 1, 0⟩, Option.none⟩

/-- The parser state after the first `readGame` fails and recovers: the
lexer stands just past the blank line, at the second game. -/
def c9psA2 : PS := ⟨⟨c9Input, 19, 3, 19⟩, Option.none⟩

/-- Extract the game of a successful `readGame` result. -/
def someGameOf (r : PS × Except PErr (Option GameFull)) : GameFull :=
  match r with
  | (_, Except.ok (some g)) => g
  | _ => ⟨[], 0, ⟨[], 0, Option.none⟩⟩

end Pgn




namespace Chess

/-! Helper lemmas about the `LegalMoves` compaction loop. -/

theorem countLegalFrom_set (b : Board) (arr : List Move) (x : Move) :
    ∀ (fuel i k : Nat), k < i → countLegalFrom b (arr.set k x) i fuel = countLegalFrom b arr i fuel := by
  intro fuel
  induction fuel with
  | zero => intro i k _; rfl
  | succ n ih =>
      intro i k hk
      simp only [countLegalFrom, List.length_set]
      by_cases hi : i < arr.length
      · rw [if_pos hi, if_pos hi, ih (i + 1) k (by omega)]
        have : (arr.set k x).getD i NullMove = arr.getD i NullMove := by
          rw [List.getD_eq_getElem?_getD, List.getD_eq_getElem?_getD,
            List.getElem?_set_ne (by omega)]
        rw [this]
      · rw [if_neg hi, if_neg hi]

theorem lmLoop_spec (b : Board) :
    ∀ (fuel : Nat) (arr : List Move) (i j : Nat),
      (lmLoop b arr i j fuel).1.length = arr.length ∧
      (lmLoop b arr i j fuel).2 = j + countLegalFrom b arr i fuel := by
  intro fuel
  induction fuel with
  | zero => intro arr i j; exact ⟨rfl, rfl⟩
  | succ n ih =>
      intro arr i j
      simp only [lmLoop, countLegalFrom]
      by_cases hi : i < arr.length
      · rw [if_pos hi, if_pos hi]
        by_cases hl : isLegal (arr.getD i NullMove) b = true
        · rw [if_pos hl, if_pos hl]
          have h := ih (arr.set i (arr.getD j NullMove)) (i + 1) (j + 1)
          refine ⟨by rw [h.1, List.length_set], ?_⟩
          rw [h.2, countLegalFrom_set b arr _ n (i + 1) i (by omega)]
          omega
        · rw [if_neg hl, if_neg hl]
          have h := ih arr (i + 1) j
          exact ⟨h.1, by rw [h.2]; omega⟩
      · rw [if_neg hi, if_neg hi]
        exact ⟨rfl, rfl⟩

theorem countLegalFrom_zero_iff (b : Board) :
    ∀ (fuel : Nat) (arr : List Move) (i : Nat), arr.length ≤ i + fuel →
      (countLegalFrom b arr i fuel = 0 ↔
        ∀ (k : Nat) (hk : k < arr.length), i ≤ k → isLegal (arr.get ⟨k, hk⟩) b = false) := by
  intro fuel
  induction fuel with
  | zero =>
      intro arr i h
      constructor
      · intro _ k hk hik
        exact absurd hk (by omega)
      · intro _
        rfl
  | succ n ih =>
      intro arr i h
      simp only [countLegalFrom]
      by_cases hi : i < arr.length
      · rw [if_pos hi]
        constructor
        · intro hsum k hk hik
          have hrest : countLegalFrom b arr (i + 1) n = 0 := by omega
          by_cases hki : k = i
          · subst hki
            have hleg : isLegal (arr.getD k NullMove) b = false := by
              by_contra hc
              simp only [Bool.not_eq_false] at hc
              rw [if_pos hc] at hsum
              omega
            rw [List.getD_eq_getElem?_getD, List.getElem?_eq_getElem hk] at hleg
            simpa using hleg
          · exact (ih arr (i + 1) (by omega)).mp hrest k hk (by omega)
        · intro hall
          have h0 : isLegal (arr.getD i NullMove) b = false := by
            have := hall i hi (le_refl i)
            rw [List.getD_eq_getElem?_getD, List.getElem?_eq_getElem hi]
            simpa using this
          rw [h0]
          have := (ih arr (i + 1) (by omega)).mpr (fun k hk hk1 => hall k hk (by omega))
          simp [this]
      · rw [if_neg hi]
        constructor
        · intro _ k hk hik; omega
        · intro _; rfl

/-- C2: for every board, the mate flag of `IsCheckOrMate` is true exactly
when `LegalMoves` returns the empty list. (The `LegalMoves` compaction bug
corrupts which moves are returned, but not how many, so the equivalence
still holds.) -/
theorem c2_mate_iff_no_legal_move (b : Board) :
    (isCheckOrMate b).2 = true ↔ legalMoves b = [] := by
  have harr := lmLoop_spec b (pseudoLegalMoves b).1.length (pseudoLegalMoves b).1 0 0
  have hcount := countLegalFrom_zero_iff b (pseudoLegalMoves b).1.length
    (pseudoLegalMoves b).1 0 (by omega)
  have hLM : legalMoves b =
      (lmLoop b (pseudoLegalMoves b).1 0 0 (pseudoLegalMoves b).1.length).1.take
        (lmLoop b (pseudoLegalMoves b).1 0 0 (pseudoLegalMoves b).1.length).2 := rfl
  have hmate : (isCheckOrMate b).2 = !((pseudoLegalMoves b).1.any fun m => isLegal m b) := rfl
  rw [hLM, hmate, harr.2, Nat.zero_add, List.take_eq_nil_iff]
  constructor
  · intro hmate0
    left
    rw [hcount]
    intro k hk _
    have hany : (pseudoLegalMoves b).1.any (fun m => isLegal m b) = false := by
      simpa using hmate0
    have := List.any_eq_false.mp hany ((pseudoLegalMoves b).1.get ⟨k, hk⟩) (List.get_mem _ _ hk)
    simpa using this
  · intro hdisj
    have hc0 : countLegalFrom b (pseudoLegalMoves b).1 0 (pseudoLegalMoves b).1.length = 0 := by
      rcases hdisj with h | h
      · exact h
      · have hlen : (pseudoLegalMoves b).1.length = 0 := by
          rw [← harr.1, h]
          rfl
        rw [hlen]
        rfl
    have hany : (pseudoLegalMoves b).1.any (fun m => isLegal m b) = false := by
      rw [List.any_eq_false]
      intro x hx
      obtain ⟨k, hk, rfl⟩ := List.mem_iff_get.mp hx
      exact by simpa using hcount.mp hc0 k.1 k.2 (by omega)
    simp [hany]

end Chess

namespace Chess

/-! Field-preservation helper lemmas for `MakeMove` reasoning. -/

theorem setPieceAt_fields (b : Board) (sq : Int) (p : Piece) :
    (setPieceAt b sq p).sideToMove = b.sideToMove ∧
    (setPieceAt b sq p).moveNr = b.moveNr ∧
    (setPieceAt b sq p).rule50 = b.rule50 ∧
    (setPieceAt b sq p).epSquare = b.epSquare ∧
    (setPieceAt b sq p).castleSq = b.castleSq ∧
    (setPieceAt b sq p).checkFrom = b.checkFrom ∧
    (setPieceAt b sq p).checkTo = b.checkTo := by
  unfold setPieceAt
  split <;> exact ⟨rfl, rfl, rfl, rfl, rfl, rfl, rfl⟩

theorem foldl_castle_clear_fields (m : Move) (l : List Nat) (b : Board) :
    ((l.foldl
        (fun b i =>
          if castleSqAt b i = m.fromSq ∨ castleSqAt b i = m.toSq then setCastleSqAt b i noSquare
          else b)
        b).sideToMove = b.sideToMove ∧
      (l.foldl
        (fun b i =>
          if castleSqAt b i = m.fromSq ∨ castleSqAt b i = m.toSq then setCastleSqAt b i noSquare
          else b)
        b).moveNr = b.moveNr ∧
      (l.foldl
        (fun b i =>
          if castleSqAt b i = m.fromSq ∨ castleSqAt b i = m.toSq then setCastleSqAt b i noSquare
          else b)
        b).rule50 = b.rule50 ∧
      (l.foldl
        (fun b i =>
          if castleSqAt b i = m.fromSq ∨ castleSqAt b i = m.toSq then setCastleSqAt b i noSquare
          else b)
        b).epSquare = b.epSquare ∧
      (l.foldl
        (fun b i =>
          if castleSqAt b i = m.fromSq ∨ castleSqAt b i = m.toSq then setCastleSqAt b i noSquare
          else b)
        b).piece = b.piece ∧
      (l.foldl
        (fun b i =>
          if castleSqAt b i = m.fromSq ∨ castleSqAt b i = m.toSq then setCastleSqAt b i noSquare
          else b)
        b).checkFrom = b.checkFrom ∧
      (l.foldl
        (fun b i =>
          if castleSqAt b i = m.fromSq ∨ castleSqAt b i = m.toSq then setCastleSqAt b i noSquare
          else b)
        b).checkTo = b.checkTo) := by
  induction l generalizing b with
  | nil => exact ⟨rfl, rfl, rfl, rfl, rfl, rfl, rfl⟩
  | cons x xs ih =>
      rw [List.foldl_cons]
      refine ⟨?_, ?_, ?_, ?_, ?_, ?_, ?_⟩
      · rw [(ih _).1]; split <;> rfl
      · rw [(ih _).2.1]; split <;> rfl
      · rw [(ih _).2.2.1]; split <;> rfl
      · rw [(ih _).2.2.2.1]; split <;> rfl
      · rw [(ih _).2.2.2.2.1]; split <;> rfl
      · rw [(ih _).2.2.2.2.2.1]; split <;> rfl
      · rw [(ih _).2.2.2.2.2.2]; split <;> rfl

theorem updateCastleRights_fields (b : Board) (m : Move) :
    (updateCastleRights b m).sideToMove = b.sideToMove ∧
    (updateCastleRights b m).moveNr = b.moveNr ∧
    (updateCastleRights b m).rule50 = b.rule50 ∧
    (updateCastleRights b m).epSquare = b.epSquare ∧
    (updateCastleRights b m).piece = b.piece ∧
    (updateCastleRights b m).checkFrom = b.checkFrom ∧
    (updateCastleRights b m).checkTo = b.checkTo :=
  foldl_castle_clear_fields m (List.range 4) b

theorem pieceAt_piece_eq (b1 b2 : Board) (h : b1.piece = b2.piece) (sq : Int) :
    pieceAt b1 sq = pieceAt b2 sq := by
  unfold pieceAt
  rw [h]

theorem setPieceAt_rule50 (b : Board) (sq : Int) (p : Piece) :
    (setPieceAt b sq p).rule50 = b.rule50 := (setPieceAt_fields b sq p).2.2.1

theorem setCastleSqAt_rule50 (b : Board) (i : Nat) (sq : Int) :
    (setCastleSqAt b i sq).rule50 = b.rule50 := rfl

theorem setCastleSqAt_piece (b : Board) (i : Nat) (sq : Int) :
    (setCastleSqAt b i sq).piece = b.piece := rfl

theorem updateCastleRights_rule50 (b : Board) (m : Move) :
    (updateCastleRights b m).rule50 = b.rule50 := (updateCastleRights_fields b m).2.2.1

theorem updateCastleRights_piece (b : Board) (m : Move) :
    (updateCastleRights b m).piece = b.piece := (updateCastleRights_fields b m).2.2.2.2.1

theorem mmReset_pieceAt (b : Board) (sq : Int) : pieceAt (mmReset b) sq = pieceAt b sq := rfl

theorem mmReset_my (b : Board) (p : Piece) : (mmReset b).my p = b.my p := rfl

theorem mmReset_rule50 (b : Board) : (mmReset b).rule50 = b.rule50 := rfl

theorem mmFinish_rule50 (b : Board) : (mmFinish b).rule50 = b.rule50 := by
  unfold mmFinish
  dsimp only
  split <;> rfl

theorem mmCastle_rule50 (b : Board) (m : Move) : (mmCastle b m).rule50 = b.rule50 + 1 := by
  unfold mmCastle
  dsimp only
  simp only [setCastleSqAt_rule50]
  split <;> split <;> simp only [setPieceAt_rule50]

theorem pieceAt_setCastleSqAt (b : Board) (i : Nat) (sq x : Int) :
    pieceAt (setCastleSqAt b i sq) x = pieceAt b x := rfl

theorem pieceAt_updateCastleRights (b : Board) (m : Move) (x : Int) :
    pieceAt (updateCastleRights b m) x = pieceAt b x :=
  pieceAt_piece_eq _ _ (updateCastleRights_piece b m) x

set_option maxHeartbeats 1600000 in
theorem mmRegular_rule50 (b : Board) (m : Move) (ep : Int) :
    (mmRegular b m ep).rule50 =
      if pieceType (pieceAt b m.fromSq) = Pawn ∨ pieceAt b m.toSq ≠ NoPiece then 0
      else b.rule50 + 1 := by
  unfold mmRegular
  dsimp only
  rw [setPieceAt_rule50, setPieceAt_rule50, apply_ite Board.rule50]
  dsimp only
  by_cases hp : pieceType (pieceAt b m.fromSq) = Pawn
  · rw [if_pos (Or.inl hp), if_pos (Or.inl hp)]
  · simp only [hp, false_or, if_neg hp]
    split <;>
      simp only [if_false, pieceAt_setCastleSqAt, pieceAt_updateCastleRights, setCastleSqAt_rule50,
        updateCastleRights_rule50]

end Chess

namespace Chess

/-- C1: evidence that `LegalMoves` is not the `isLegal` filter of
`pseudoLegalMoves`. In `pinBoard` the knight is pinned, so its three moves
fail `isLegal`; yet the compaction loop's inverted write `moves[i] = moves[j]`
makes `LegalMoves` return the illegal knight move b1-d2 (twice) while
dropping the legal king move d1-c2. -/
theorem c1_legalMoves_breaks_filter :
    legalMoves pinBoard =
      [⟨B1, 11, 0⟩, ⟨B1, 16, 0⟩, ⟨B1, 18, 0⟩, ⟨B1, 11, 0⟩, ⟨B1, 16, 0⟩] ∧
    (⟨B1, 11, 0⟩ : Move) ∈ (pseudoLegalMoves pinBoard).1 ∧
    isLegal ⟨B1, 11, 0⟩ pinBoard = false ∧
    (⟨D1, 10, 0⟩ : Move) ∈ (pseudoLegalMoves pinBoard).1 ∧
    isLegal ⟨D1, 10, 0⟩ pinBoard = true ∧
    (⟨D1, 10, 0⟩ : Move) ∉ legalMoves pinBoard := by
  refine ⟨by decide, by decide, by decide, by decide, by decide, by decide⟩

/-- C3: the SAN round-trip fails on a move returned by `LegalMoves`: in
`pinBoard`, `LegalMoves` contains the illegal pinned-knight move b1-d2
(because of the `LegalMoves` compaction bug), its SAN rendering is `Nd2`,
and `ParseMove` rejects `Nd2` since no legal move matches. -/
theorem c3_san_roundtrip_fails :
    (⟨B1, 11, 0⟩ : Move) ∈ legalMoves pinBoard ∧
    san ⟨B1, 11, 0⟩ pinBoard = ['N', 'd', '2'] ∧
    parseMove pinBoard (san ⟨B1, 11, 0⟩ pinBoard) = none := by
  refine ⟨by decide, by decide, by decide⟩

/-- C5 (counterexample): `MakeMove(NullMove)` does not preserve every other
field: on a board where the opponent has just castled (checkFrom..checkTo
is E1..G1) the null move resets `checkFrom` to A1. -/
theorem c5_nullmove_resets_check_range :
    castledBoard.checkFrom = E1 ∧ castledBoard.checkTo = G1 ∧
    (makeMove castledBoard NullMove).checkFrom ≠ castledBoard.checkFrom := by
  refine ⟨by decide, by decide, by decide⟩

/-- C5 (amended): the null move swaps the side to move, increments the
fullmove counter exactly when Black was the mover, clears the en-passant
square, resets the `checkFrom`/`checkTo` range to A1..A1, and leaves the
piece placement, the rule50 counter and the castling rights unchanged. -/
theorem c5_nullmove_effect (b : Board) :
    makeMove b NullMove =
      { b with
          epSquare := noSquare
          checkFrom := A1
          checkTo := A1
          sideToMove := b.sideToMove ^^^ 1
          moveNr := if b.sideToMove ^^^ 1 = White then b.moveNr + 1 else b.moveNr } := by
  show mmFinish (mmReset b) = _
  unfold mmFinish mmReset
  dsimp only
  split <;> rename_i h <;> simp [h]

/-- C6 (counterexample): the rule50 counter is not confined to 0..=100:
`ParseFen` stores the parsed halfmove field unchecked (here 150), and
`MakeMove` increments past 100 (a quiet king move from a position with
rule50 = 100 yields 101). -/
theorem c6_rule50_exceeds_100 :
    (parseFen "8/8/8/8/8/8/8/8 w - - 150 1".toList).map (fun b => b.rule50) = some 150 ∧
    (parseFen "4k3/8/8/8/8/8/8/4K3 w - - 100 3".toList).map
        (fun b => (makeMove b ⟨E1, D1, NoPiece⟩).rule50) = some 101 := by
  refine ⟨by decide, by decide⟩

/-- C6 (amended): the rule50 update rule of `MakeMove`: unchanged by the
null move, incremented on castling, reset to 0 on any pawn move or capture,
and incremented on every other move; neither `ParseFen` nor `MakeMove`
bounds the counter to 0..=100. -/
theorem c6_rule50_update (b : Board) (m : Move) :
    (makeMove b m).rule50 =
      if m = NullMove then b.rule50
      else if pieceAt b m.fromSq = b.my King ∧ pieceAt b m.toSq = b.my Rook then b.rule50 + 1
      else if pieceType (pieceAt b m.fromSq) = Pawn ∨ pieceAt b m.toSq ≠ NoPiece then 0
      else b.rule50 + 1 := by
  unfold makeMove
  dsimp only
  rw [mmFinish_rule50, apply_ite Board.rule50, apply_ite Board.rule50, mmReset_rule50,
    mmCastle_rule50, mmRegular_rule50]
  simp only [mmReset_pieceAt, mmReset_my, mmReset_rule50]

end Chess

namespace Chess

/-! Membership lemmas for the move generator, leading to the C10 theorem. -/

theorem step_cases (f o : Int) : step f o = noSquare ∨ (0 ≤ step f o ∧ step f o < 64) := by
  unfold step
  dsimp only
  by_cases h1 : f + o < A1 ∨ H8 < f + o
  · rw [if_pos h1]
    exact Or.inl rfl
  · rw [if_neg h1]
    by_cases h2 : sqFile (f + o) - sqFile f < -2 ∨ 2 < sqFile (f + o) - sqFile f
    · rw [if_pos h2]
      exact Or.inl rfl
    · rw [if_neg h2]
      right
      have h3 : ¬(f + o < 0 ∨ 63 < f + o) := h1
      omega

theorem addMove_mem (b : Board) (f t : Int) (promo : Piece) (m : Move)
    (hm : m ∈ (addMove b f t promo).1) :
    m.fromSq = f ∧ m.toSq = t ∧ t ≠ noSquare ∧ nonOwnDest b t := by
  unfold addMove at hm
  split at hm
  · simp at hm
  · rename_i ht
    dsimp only at hm
    split at hm
    · rename_i hguard
      simp only [List.mem_singleton] at hm
      subst hm
      exact ⟨rfl, rfl, ht, hguard⟩
    · simp at hm

theorem addPawnMove_mem (b : Board) (f t : Int) (m : Move)
    (hm : m ∈ (addPawnMove b f t).1) :
    m.fromSq = f ∧ m.toSq = t ∧ t ≠ noSquare ∧ nonOwnDest b t := by
  unfold addPawnMove at hm
  split at hm
  · dsimp only at hm
    simp only [List.mem_append] at hm
    rcases hm with ((h | h) | h) | h <;> exact addMove_mem b f t _ m h
  · exact addMove_mem b f t _ m hm

theorem pawnPush_mem (b : Board) (f t : Int) (m : Move)
    (hm : m ∈ (pawnPush b f t).1) :
    m.fromSq = f ∧ m.toSq = t ∧ t ≠ noSquare ∧ nonOwnDest b t := by
  unfold pawnPush at hm
  split at hm
  · exact addPawnMove_mem b f t m hm
  · simp at hm

theorem pawnCapture_mem (b : Board) (f t : Int) (m : Move)
    (hm : m ∈ pawnCapture b f t) :
    m.fromSq = f ∧ m.toSq = t ∧ t ≠ noSquare ∧ nonOwnDest b t := by
  unfold pawnCapture at hm
  split at hm
  · exact addPawnMove_mem b f t m hm
  · simp at hm

theorem pawnMoves_mem (b : Board) (sq : Int) (m : Move) (hm : m ∈ pawnMoves b sq) :
    m.fromSq = sq ∧ (0 ≤ m.toSq ∧ m.toSq < 64) ∧ nonOwnDest b m.toSq := by
  have resolve : ∀ (t : Int), m.fromSq = sq ∧ m.toSq = t ∧ t ≠ noSquare ∧ nonOwnDest b t →
      t = noSquare ∨ (0 ≤ t ∧ t < 64) →
      m.fromSq = sq ∧ (0 ≤ m.toSq ∧ m.toSq < 64) ∧ nonOwnDest b m.toSq := by
    intro t h hc
    rcases hc with hc | hc
    · exact absurd hc h.2.2.1
    · exact ⟨h.1, h.2.1 ▸ hc, h.2.1 ▸ h.2.2.2⟩
  unfold pawnMoves at hm
  dsimp only at hm
  generalize (if b.sideToMove = White then (8 : Int) else -8) = o at hm
  simp only [List.mem_append] at hm
  rcases hm with ((h | h) | h) | h
  · exact resolve _ (pawnPush_mem _ _ _ _ h) (step_cases _ _)
  · split at h
    · exact resolve _ (pawnPush_mem _ _ _ _ h) (step_cases _ _)
    · simp at h
  · exact resolve _ (pawnCapture_mem _ _ _ _ h) (step_cases _ _)
  · exact resolve _ (pawnCapture_mem _ _ _ _ h) (step_cases _ _)

theorem list_flatten_map_mem {α : Type} (l : List α) (f : α → List Move) (m : Move)
    (hm : m ∈ (l.map f).flatten) : ∃ a ∈ l, m ∈ f a := by
  simp only [List.mem_flatten, List.mem_map] at hm
  obtain ⟨ms, ⟨a, ha, rfl⟩, hmm⟩ := hm
  exact ⟨a, ha, hmm⟩

theorem knightMoves_mem (b : Board) (sq : Int) (m : Move) (hm : m ∈ knightMoves b sq) :
    m.fromSq = sq ∧ (0 ≤ m.toSq ∧ m.toSq < 64) ∧ nonOwnDest b m.toSq := by
  unfold knightMoves at hm
  obtain ⟨o, _, h⟩ := list_flatten_map_mem _ _ _ hm
  have hmove := addMove_mem b sq (step sq o) _ m h
  rcases step_cases sq o with hc | hc
  · exact absurd hc hmove.2.2.1
  · exact ⟨hmove.1, hmove.2.1 ▸ hc, hmove.2.1 ▸ hmove.2.2.2⟩

theorem sliderLoop_mem (b : Board) (f : Int) (o : Int) (m : Move) :
    ∀ (fuel : Nat) (t : Int), (t = noSquare ∨ (0 ≤ t ∧ t < 64)) →
      m ∈ sliderLoop b f o t fuel →
      m.fromSq = f ∧ (0 ≤ m.toSq ∧ m.toSq < 64) ∧ nonOwnDest b m.toSq := by
  intro fuel
  induction fuel with
  | zero => intro t _ hm; simp [sliderLoop] at hm
  | succ n ih =>
      intro t ht hm
      simp only [sliderLoop] at hm
      split at hm
      · simp only [List.mem_append] at hm
        rcases hm with h | h
        · have hmove := addMove_mem b f t _ m h
          rcases ht with hc | hc
          · exact absurd hc hmove.2.2.1
          · exact ⟨hmove.1, hmove.2.1 ▸ hc, hmove.2.1 ▸ hmove.2.2.2⟩
        · exact ih (step t o) (step_cases t o) h
      · have hmove := addMove_mem b f t _ m hm
        rcases ht with hc | hc
        · exact absurd hc hmove.2.2.1
        · exact ⟨hmove.1, hmove.2.1 ▸ hc, hmove.2.1 ▸ hmove.2.2.2⟩

theorem slider_mem (b : Board) (f : Int) (o : Int) (m : Move) (hm : m ∈ slider b f o) :
    m.fromSq = f ∧ (0 ≤ m.toSq ∧ m.toSq < 64) ∧ nonOwnDest b m.toSq :=
  sliderLoop_mem b f o m 8 (step f o) (step_cases f o) hm

theorem bishopMoves_mem (b : Board) (sq : Int) (m : Move) (hm : m ∈ bishopMoves b sq) :
    m.fromSq = sq ∧ (0 ≤ m.toSq ∧ m.toSq < 64) ∧ nonOwnDest b m.toSq := by
  unfold bishopMoves at hm
  obtain ⟨o, _, h⟩ := list_flatten_map_mem _ _ _ hm
  exact slider_mem b sq o m h

theorem rookMoves_mem (b : Board) (sq : Int) (m : Move) (hm : m ∈ rookMoves b sq) :
    m.fromSq = sq ∧ (0 ≤ m.toSq ∧ m.toSq < 64) ∧ nonOwnDest b m.toSq := by
  unfold rookMoves at hm
  obtain ⟨o, _, h⟩ := list_flatten_map_mem _ _ _ hm
  exact slider_mem b sq o m h

theorem canCastle_right (b : Board) (wing : Nat) (h : canCastle b wing = true) :
    castleSqAt b (b.sideToMove ||| wing) ≠ noSquare := by
  unfold canCastle castleSquares at h
  intro hno
  rw [hno] at h
  simp at h

theorem kingMoves_mem (b : Board) (sq : Int) (m : Move)
    (hw : wfCastleSlots b) (hstm : b.sideToMove < 2) (hm : m ∈ kingMoves b sq) :
    m.fromSq = sq ∧ (0 ≤ m.toSq ∧ m.toSq < 64) ∧
      (nonOwnDest b m.toSq ∨
        m.toSq = castleSqAt b (b.sideToMove ||| kingSide) ∨
        m.toSq = castleSqAt b (b.sideToMove ||| queenSide)) := by
  unfold kingMoves at hm
  simp only [List.mem_append] at hm
  have hidx : ∀ w, w = kingSide ∨ w = queenSide → b.sideToMove ||| w < 4 := by
    intro w hwing
    interval_cases h : b.sideToMove <;> rcases hwing with rfl | rfl <;> decide
  rcases hm with (h | h) | h
  · obtain ⟨o, _, hh⟩ := list_flatten_map_mem _ _ _ h
    have hmove := addMove_mem b sq (step sq o) _ m hh
    rcases step_cases sq o with hc | hc
    · exact absurd hc hmove.2.2.1
    · exact ⟨hmove.1, hmove.2.1 ▸ hc, Or.inl (hmove.2.1 ▸ hmove.2.2.2)⟩
  · split at h
    · rename_i hcc
      simp only [List.mem_singleton] at h
      subst h
      refine ⟨rfl, ?_, Or.inr (Or.inl rfl)⟩
      rcases hw (b.sideToMove ||| kingSide) (hidx _ (Or.inl rfl)) with hno | hr
      · exact absurd hno (canCastle_right b kingSide hcc)
      · exact hr
    · simp at h
  · split at h
    · rename_i hcc
      simp only [List.mem_singleton] at h
      subst h
      refine ⟨rfl, ?_, Or.inr (Or.inr rfl)⟩
      rcases hw (b.sideToMove ||| queenSide) (hidx _ (Or.inr rfl)) with hno | hr
      · exact absurd hno (canCastle_right b queenSide hcc)
      · exact hr
    · simp at h

end Chess

namespace Chess

theorem genSquare_mem (b : Board) (sq : Int) (m : Move) (hw : wfCastleSlots b)
    (hm : m ∈ genSquare b sq) :
    m.fromSq = sq ∧ (0 ≤ m.toSq ∧ m.toSq < 64) ∧
      (nonOwnDest b m.toSq ∨
        m.toSq = castleSqAt b (b.sideToMove ||| kingSide) ∨
        m.toSq = castleSqAt b (b.sideToMove ||| queenSide)) := by
  unfold genSquare at hm
  dsimp only at hm
  by_cases hskip : pieceAt b sq = NoPiece ∨ pieceColor (pieceAt b sq) ≠ b.sideToMove
  · rw [if_pos hskip] at hm
    simp at hm
  · rw [if_neg hskip] at hm
    push_neg at hskip
    have hstm : b.sideToMove < 2 := by
      have h2 := hskip.2
      unfold pieceColor at h2
      omega
    split at hm
    · have h := pawnMoves_mem b sq m hm
      exact ⟨h.1, h.2.1, Or.inl h.2.2⟩
    · split at hm
      · have h := knightMoves_mem b sq m hm
        exact ⟨h.1, h.2.1, Or.inl h.2.2⟩
      · split at hm
        · have h := bishopMoves_mem b sq m hm
          exact ⟨h.1, h.2.1, Or.inl h.2.2⟩
        · split at hm
          · have h := rookMoves_mem b sq m hm
            exact ⟨h.1, h.2.1, Or.inl h.2.2⟩
          · split at hm
            · rcases List.mem_append.mp hm with h | h
              · have h1 := bishopMoves_mem b sq m h
                exact ⟨h1.1, h1.2.1, Or.inl h1.2.2⟩
              · have h1 := rookMoves_mem b sq m h
                exact ⟨h1.1, h1.2.1, Or.inl h1.2.2⟩
            · split at hm
              · exact kingMoves_mem b sq m hw hstm hm
              · simp at hm

theorem genMoves_mem (b : Board) (m : Move) (hw : wfCastleSlots b) (hm : m ∈ genMoves b) :
    (0 ≤ m.fromSq ∧ m.fromSq < 64) ∧ (0 ≤ m.toSq ∧ m.toSq < 64) ∧
      (nonOwnDest b m.toSq ∨
        m.toSq = castleSqAt b (b.sideToMove ||| kingSide) ∨
        m.toSq = castleSqAt b (b.sideToMove ||| queenSide)) := by
  unfold genMoves at hm
  obtain ⟨i, hi, h⟩ := list_flatten_map_mem _ _ _ hm
  have hgs := genSquare_mem b (Int.ofNat i) m hw h
  have hi64 : i < 64 := List.mem_range.mp hi
  refine ⟨?_, hgs.2.1, hgs.2.2⟩
  have hcast : Int.ofNat i = (i : Int) := rfl
  rw [hgs.1, hcast]
  omega

/-- C10: every pseudo-legal move has from- and to-squares on the board
(0..63), and its destination is occupied by a piece of the side to move
only for the castling moves, whose destination is the mover's rook square
recorded in `CastleSq`. The hypothesis is the `CastleSq` well-formedness the
Go board carries implicitly (an out-of-range slot would panic). -/
theorem c10_pseudo_move_bounds (b : Board) (m : Move) (hw : wfCastleSlots b)
    (hm : m ∈ (pseudoLegalMoves b).1) :
    (0 ≤ m.fromSq ∧ m.fromSq < 64) ∧ (0 ≤ m.toSq ∧ m.toSq < 64) ∧
      (pieceAt b m.toSq ≠ NoPiece ∧ pieceColor (pieceAt b m.toSq) = b.sideToMove →
        m.toSq = castleSqAt b (b.sideToMove ||| kingSide) ∨
        m.toSq = castleSqAt b (b.sideToMove ||| queenSide)) := by
  have hmm : m ∈ genMoves b := by
    unfold pseudoLegalMoves at hm
    dsimp only at hm
    split at hm <;> split at hm <;> first | exact hm | simp at hm
  have h := genMoves_mem b m hw hmm
  refine ⟨h.1, h.2.1, ?_⟩
  intro hown
  rcases h.2.2 with hn | hc
  · unfold nonOwnDest at hn
    rcases hn with hn | hn
    · exact absurd hn hown.1
    · exact absurd hown.2 hn
  · exact hc

/-- C10 witness: the starting position is well-formed and the pseudo-legal
move e2-e4 satisfies the bounds at a concrete input. -/
theorem c10_pseudo_move_bounds_witness :
    (0 ≤ (⟨12, 28, NoPiece⟩ : Move).fromSq ∧ (⟨12, 28, NoPiece⟩ : Move).fromSq < 64) ∧
      (0 ≤ (⟨12, 28, NoPiece⟩ : Move).toSq ∧ (⟨12, 28, NoPiece⟩ : Move).toSq < 64) ∧
      (pieceAt (fenBoard "") (⟨12, 28, NoPiece⟩ : Move).toSq ≠ NoPiece ∧
          pieceColor (pieceAt (fenBoard "") (⟨12, 28, NoPiece⟩ : Move).toSq) =
            (fenBoard "").sideToMove →
        (⟨12, 28, NoPiece⟩ : Move).toSq =
            castleSqAt (fenBoard "") ((fenBoard "").sideToMove ||| kingSide) ∨
        (⟨12, 28, NoPiece⟩ : Move).toSq =
            castleSqAt (fenBoard "") ((fenBoard "").sideToMove ||| queenSide)) :=
  c10_pseudo_move_bounds (fenBoard "") ⟨12, 28, NoPiece⟩
    (by
      intro i hi
      interval_cases i <;> decide)
    (by decide)

end Chess

namespace Chess

/-! Round-trip lemmas for the scalar FEN fields (numbers, squares). -/

theorem digitChar_facts (d : Nat) (hd : d < 10) :
    ('0' ≤ Char.ofNat ('0'.toNat + d) ∧ Char.ofNat ('0'.toNat + d) ≤ '9') ∧
      (Char.ofNat ('0'.toNat + d)).toNat - '0'.toNat = d ∧
      Char.ofNat ('0'.toNat + d) ≠ '+' ∧ Char.ofNat ('0'.toNat + d) ≠ '-' ∧
      isSpaceFen (Char.ofNat ('0'.toNat + d)) = false := by
  interval_cases d <;> exact ⟨by decide, by decide, by decide, by decide, by decide⟩

theorem natChars_ne_nil (n : Nat) : natChars n ≠ [] := by
  rw [natChars]
  split
  · simp
  · simp

theorem natChars_digits (n : Nat) : ∀ c ∈ natChars n, '0' ≤ c ∧ c ≤ '9' := by
  induction n using Nat.strong_induction_on with
  | _ n ih =>
      rw [natChars]
      split
      · rename_i h
        intro c hc
        simp only [List.mem_singleton] at hc
        subst hc
        exact (digitChar_facts n h).1
      · rename_i h
        intro c hc
        rcases List.mem_append.mp hc with h1 | h1
        · exact ih (n / 10) (Nat.div_lt_self (by omega) (by omega)) c h1
        · simp only [List.mem_singleton] at h1
          subst h1
          exact (digitChar_facts (n % 10) (Nat.mod_lt n (by omega))).1

theorem foldl_digits_natChars (n : Nat) :
    (natChars n).foldl (fun a c => a * 10 + (c.toNat - '0'.toNat)) 0 = n := by
  induction n using Nat.strong_induction_on with
  | _ n ih =>
      rw [natChars]
      split
      · rename_i h
        simp only [List.foldl_cons, List.foldl_nil]
        rw [(digitChar_facts n h).2.1]
        omega
      · rename_i h
        rw [List.foldl_append]
        rw [ih (n / 10) (Nat.div_lt_self (by omega) (by omega))]
        simp only [List.foldl_cons, List.foldl_nil]
        rw [(digitChar_facts (n % 10) (Nat.mod_lt n (by omega))).2.1]
        omega

theorem parseDigits_natChars (n : Nat) : parseDigits (natChars n) = some n := by
  unfold parseDigits
  rw [if_neg (natChars_ne_nil n)]
  rw [if_pos]
  · rw [foldl_digits_natChars]
  · rw [List.all_eq_true]
    intro c hc
    have := natChars_digits n c hc
    simp [this.1, this.2]

theorem natChars_head_digit (n : Nat) :
    ∃ c cs, natChars n = c :: cs ∧ '0' ≤ c ∧ c ≤ '9' := by
  rcases hne : natChars n with _ | ⟨c, cs⟩
  · exact absurd hne (natChars_ne_nil n)
  · refine ⟨c, cs, rfl, ?_⟩
    have := natChars_digits n c (by rw [hne]; exact List.mem_cons_self c cs)
    exact this

theorem atoi_intChars (n : Int) : atoi (intChars n) = some n := by
  unfold intChars
  split
  · rename_i hn
    show atoi ('-' :: natChars (-n).toNat) = some n
    rw [atoi]
    rw [if_neg (by decide), if_pos rfl]
    rw [parseDigits_natChars]
    show some (-Int.ofNat (-n).toNat) = some n
    congr 1
    have hcoe : Int.ofNat ((-n).toNat) = (((-n).toNat : Nat) : Int) := rfl
    rw [hcoe]
    omega
  · rename_i hn
    obtain ⟨c, cs, hcons, hc0, hc9⟩ := natChars_head_digit n.toNat
    rw [hcons]
    rw [atoi]
    rw [if_neg, if_neg]
    · rw [← hcons, parseDigits_natChars]
      show some (Int.ofNat n.toNat) = some n
      congr 1
      have hcoe : Int.ofNat n.toNat = ((n.toNat : Nat) : Int) := rfl
      rw [hcoe]
      omega
    · intro heq
      subst heq
      exact absurd hc0 (by decide)
    · intro heq
      subst heq
      exact absurd hc0 (by decide)

theorem intChars_chars (n : Int) :
    ∀ c ∈ intChars n, isSpaceFen c = false := by
  unfold intChars
  have hdig : ∀ (m : Nat), ∀ c ∈ natChars m, isSpaceFen c = false := by
    intro m c hc
    have := natChars_digits m c hc
    unfold isSpaceFen
    have h1 : '0' ≤ c := this.1
    have h2 : c ≤ '9' := this.2
    simp only [decide_eq_false_iff_not]
    intro hcc
    rcases hcc with hcc | hcc <;> subst hcc <;> revert h1 <;> decide
  split
  · intro c hc
    rcases List.mem_cons.mp hc with rfl | hc
    · decide
    · exact hdig _ c hc
  · exact hdig _

theorem intChars_ne_nil (n : Int) : intChars n ≠ [] := by
  unfold intChars
  split
  · simp
  · exact natChars_ne_nil _

theorem squareFromString_sqName (sq : Int) (h0 : 0 ≤ sq) (h1 : sq < 64) :
    squareFromString (sqName sq) = sq := by
  interval_cases sq <;> decide

theorem sqName_chars (sq : Int) (h : sq = noSquare ∨ (0 ≤ sq ∧ sq < 64)) :
    ∀ c ∈ sqName sq, isSpaceFen c = false := by
  rcases h with h | h
  · subst h
    decide
  · obtain ⟨h0, h1⟩ := h
    interval_cases sq <;> decide

theorem sqName_ne_nil (sq : Int) : sqName sq ≠ [] := by
  unfold sqName
  split <;> simp

end Chess

namespace Chess

/-! Tokenization lemmas: how `nextField` behaves on the emitted FEN. -/

theorem skipCount_all_true (p : Char → Bool) (l : List Char) (h : ∀ c ∈ l, p c = true) :
    skipCount p l = l.length := by
  induction l with
  | nil => rfl
  | cons c cs ih =>
      unfold skipCount
      rw [if_pos (h c (List.mem_cons_self c cs))]
      rw [ih (fun c hc => h c (List.mem_cons_of_mem _ hc))]
      rfl

theorem skipCount_stop (p : Char → Bool) (l : List Char)
    (h : l = [] ∨ ∃ c cs, l = c :: cs ∧ p c = false) : skipCount p l = 0 := by
  rcases h with rfl | ⟨c, cs, rfl, hc⟩
  · rfl
  · unfold skipCount
    rw [if_neg (by simp [hc])]

theorem skipCount_append_all (p : Char → Bool) (l1 l2 : List Char)
    (h1 : ∀ c ∈ l1, p c = true)
    (h2 : l2 = [] ∨ ∃ c cs, l2 = c :: cs ∧ p c = false) :
    skipCount p (l1 ++ l2) = l1.length := by
  induction l1 with
  | nil => simpa using skipCount_stop p l2 h2
  | cons c cs ih =>
      show skipCount p (c :: (cs ++ l2)) = cs.length + 1
      unfold skipCount
      rw [if_pos (h1 c (List.mem_cons_self c cs))]
      rw [ih (fun c hc => h1 c (List.mem_cons_of_mem _ hc))]

theorem nextField_spec (s : List Char) (j : Nat) (sp F rest dflt : List Char)
    (hdrop : s.drop j = sp ++ (F ++ rest))
    (hsp : ∀ c ∈ sp, isSpaceFen c = true)
    (hF : F ≠ []) (hFs : ∀ c ∈ F, isSpaceFen c = false)
    (hrest : rest = [] ∨ ∃ c cs, rest = c :: cs ∧ isSpaceFen c = true) :
    nextField s j dflt = (s, j + sp.length, j + sp.length + F.length) ∧
    slice s (j + sp.length) (j + sp.length + F.length) = F ∧
    s.drop (j + sp.length + F.length) = rest := by
  obtain ⟨cF, csF, hFcons⟩ : ∃ c cs, F = c :: cs := by
    rcases F with _ | ⟨c, cs⟩
    · exact absurd rfl hF
    · exact ⟨c, cs, rfl⟩
  have hdrop2 : s.drop (j + sp.length) = F ++ rest := by
    rw [← List.drop_drop, hdrop, List.drop_left' rfl]
  have hi : scanFrom s j (fun c => isSpaceFen c) = j + sp.length := by
    unfold scanFrom
    rw [hdrop]
    congr 1
    exact skipCount_append_all _ sp (F ++ rest) hsp
      (Or.inr ⟨cF, csF ++ rest, by rw [hFcons]; rfl,
        hFs cF (by rw [hFcons]; exact List.mem_cons_self _ _)⟩)
  have hj2 : scanFrom s (j + sp.length) (fun c => !isSpaceFen c) =
      j + sp.length + F.length := by
    unfold scanFrom
    rw [hdrop2]
    congr 1
    refine skipCount_append_all _ F rest (fun c hc => by rw [hFs c hc]; rfl) ?_
    rcases hrest with rfl | ⟨c, cs, rfl, hc⟩
    · exact Or.inl rfl
    · exact Or.inr ⟨c, cs, rfl, by rw [hc]; rfl⟩
  have hFlen : 0 < F.length := by
    rw [hFcons]
    simp
  refine ⟨?_, ?_, ?_⟩
  · unfold nextField
    rw [hi]
    dsimp only
    rw [hj2]
    rw [if_neg (by omega)]
  · unfold slice
    rw [hdrop2]
    have : j + sp.length + F.length - (j + sp.length) = F.length := by omega
    rw [this, List.take_left' rfl]
  · rw [← List.drop_drop, hdrop2, List.drop_left' rfl]

end Chess

namespace Chess

/-! Piece-placement round-trip: per-square and per-run lemmas. -/

theorem pieceAt_valid (b : Board) (hbp : ∀ p ∈ b.piece, p = NoPiece ∨ (2 ≤ p ∧ p ≤ 13))
    (sq : Int) : pieceAt b sq = NoPiece ∨ (2 ≤ pieceAt b sq ∧ pieceAt b sq ≤ 13) := by
  unfold pieceAt
  split
  · rcases hg : b.piece[sq.toNat]? with _ | p
    · rw [List.getD_eq_getElem?_getD, hg]
      exact Or.inl rfl
    · rw [List.getD_eq_getElem?_getD, hg]
      exact hbp p (List.getElem?_mem hg)
  · exact Or.inl rfl

theorem setPieceAt_length (B : Board) (sq : Int) (v : Nat) :
    (setPieceAt B sq v).piece.length = B.piece.length := by
  unfold setPieceAt
  split
  · exact List.length_set B.piece sq.toNat v
  · rfl

theorem pieceAt_setPieceAt_same (B : Board) (sq : Int) (v : Nat)
    (h0 : 0 ≤ sq) (h1 : sq < 64) (hlen : B.piece.length = 64) :
    pieceAt (setPieceAt B sq v) sq = v := by
  unfold setPieceAt pieceAt
  rw [if_pos ⟨h0, h1⟩, if_pos ⟨h0, h1⟩]
  rw [List.getD_eq_getElem?_getD, List.getElem?_set_self, Option.getD_some]
  omega

theorem pieceAt_setPieceAt_other (B : Board) (sq x : Int) (v : Nat) (hne : x ≠ sq) :
    pieceAt (setPieceAt B sq v) x = pieceAt B x := by
  unfold setPieceAt pieceAt
  by_cases hs : 0 ≤ sq ∧ sq < 64
  · rw [if_pos hs]
    by_cases hx : 0 ≤ x ∧ x < 64
    · rw [if_pos hx, if_pos hx]
      rw [List.getD_eq_getElem?_getD, List.getD_eq_getElem?_getD,
        List.getElem?_set_ne (by omega)]
    · rw [if_neg hx, if_neg hx]
  · rw [if_neg hs]

theorem pieceLetter_facts (p : Nat) (h2 : 2 ≤ p) (h13 : p ≤ 13) :
    pieceFromChar (pieceLetter p) = p ∧
    pieceLetter p ≠ '/' ∧
    ¬('1' ≤ pieceLetter p ∧ pieceLetter p ≤ '8') ∧
    isSpaceFen (pieceLetter p) = false := by
  interval_cases p <;> exact ⟨by decide, by decide, by decide, by decide⟩

theorem digitFenChar_facts (e : Nat) (h1 : 1 ≤ e) (h8 : e ≤ 8) :
    Char.ofNat ('0'.toNat + e) ≠ '/' ∧
    ('1' ≤ Char.ofNat ('0'.toNat + e) ∧ Char.ofNat ('0'.toNat + e) ≤ '8') ∧
    (Char.ofNat ('0'.toNat + e)).toNat = '0'.toNat + e ∧
    isSpaceFen (Char.ofNat ('0'.toNat + e)) = false := by
  interval_cases e <;> exact ⟨by decide, by decide, by decide, by decide⟩

theorem emptyRun_spec (b : Board) (r : Int) :
    ∀ (fuel file : Nat), file + fuel = 8 →
      (∀ k : Nat, file ≤ k → k < file + emptyRun b r file fuel →
        pieceAt b (squareAt (Int.ofNat k) r) = NoPiece) ∧
      file + emptyRun b r file fuel ≤ 8 ∧
      (file + emptyRun b r file fuel < 8 →
        pieceAt b (squareAt (Int.ofNat (file + emptyRun b r file fuel)) r) ≠ NoPiece) := by
  intro fuel
  induction fuel with
  | zero =>
      intro file hf
      refine ⟨?_, ?_, ?_⟩
      · intro k hk1 hk2
        unfold emptyRun at hk2
        omega
      · unfold emptyRun
        omega
      · intro h
        unfold emptyRun at h
        omega
  | succ n ih =>
      intro file hf
      unfold emptyRun
      split
      · rename_i hcond
        obtain ⟨ih1, ih2, ih3⟩ := ih (file + 1) (by omega)
        refine ⟨?_, by omega, ?_⟩
        · intro k hk1 hk2
          by_cases hk : k = file
          · subst hk
            exact hcond.2
          · exact ih1 k (by omega) (by omega)
        · intro h
          have := ih3 (by omega)
          have harith : file + 1 + emptyRun b r (file + 1) n =
              file + (1 + emptyRun b r (file + 1) n) := by omega
          rw [harith] at this
          exact this
      · rename_i hcond
        refine ⟨?_, by omega, ?_⟩
        · intro k hk1 hk2
          omega
        · intro h
          intro hempty
          exact hcond ⟨by omega, hempty⟩

end Chess

namespace Chess

theorem squareAt_div_mod (f : Nat) (r : Int) (hf : f < 8) (hr0 : 0 ≤ r) (hr8 : r < 8) :
    squareAt (Int.ofNat f) r / 8 = r ∧ squareAt (Int.ofNat f) r % 8 = Int.ofNat f ∧
      0 ≤ squareAt (Int.ofNat f) r ∧ squareAt (Int.ofNat f) r < 64 := by
  unfold squareAt
  have hcast : Int.ofNat f = ((f : Nat) : Int) := rfl
  rw [hcast]
  omega

theorem parsePieces_rank (b : Board)
    (hbp : ∀ p ∈ b.piece, p = NoPiece ∨ (2 ≤ p ∧ p ≤ 13))
    (r : Int) (hr0 : 0 ≤ r) (hr8 : r < 8) :
    ∀ (fuel file : Nat) (B : Board) (tail : List Char),
      9 ≤ file + fuel → file ≤ 8 → B.piece.length = 64 →
      (∀ f : Nat, file ≤ f → f < 8 → pieceAt B (squareAt (Int.ofNat f) r) = NoPiece) →
      ∃ B' : Board,
        parsePieces (fenRankGo b r file fuel ++ tail) B (Int.ofNat file) r =
          parsePieces tail B' 8 r ∧
        B'.piece.length = 64 ∧
        (∀ f : Nat, file ≤ f → f < 8 →
          pieceAt B' (squareAt (Int.ofNat f) r) = pieceAt b (squareAt (Int.ofNat f) r)) ∧
        (∀ sq : Int, 0 ≤ sq → sq < 64 → (sq / 8 ≠ r ∨ sq % 8 < Int.ofNat file) →
          pieceAt B' sq = pieceAt B sq) ∧
        B'.sideToMove = B.sideToMove ∧ B'.moveNr = B.moveNr ∧ B'.rule50 = B.rule50 ∧
        B'.epSquare = B.epSquare ∧ B'.castleSq = B.castleSq ∧
        B'.checkFrom = B.checkFrom ∧ B'.checkTo = B.checkTo := by
  intro fuel
  induction fuel with
  | zero =>
      intro file B tail hfuel hfile hlen hB0
      exact absurd hfuel (by omega)
  | succ n ih =>
      intro file B tail hfuel hfile hlen hB0
      rw [fenRankGo]
      rw [if_neg (show ¬(8 < file) by omega)]
      dsimp only
      obtain ⟨he1, he2, he3⟩ := emptyRun_spec b r (8 - file) file (by omega)
      -- handle the piece-or-end continuation from state (B, f2)
      have step2 : ∀ (B2 : Board), B2.piece.length = 64 →
          (∀ f : Nat, file ≤ f → f < 8 → pieceAt B2 (squareAt (Int.ofNat f) r) = NoPiece) →
          B2.sideToMove = B.sideToMove ∧ B2.moveNr = B.moveNr ∧ B2.rule50 = B.rule50 ∧
            B2.epSquare = B.epSquare ∧ B2.castleSq = B.castleSq ∧
            B2.checkFrom = B.checkFrom ∧ B2.checkTo = B.checkTo →
          (∀ sq : Int, 0 ≤ sq → sq < 64 → pieceAt B2 sq = pieceAt B sq) →
          ∃ B' : Board,
            parsePieces
                ((if file + emptyRun b r file (8 - file) < 8 then
                    pieceLetter (pieceAt b
                      (squareAt (Int.ofNat (file + emptyRun b r file (8 - file))) r)) ::
                      fenRankGo b r (file + emptyRun b r file (8 - file) + 1) n
                  else []) ++ tail)
                B2 (Int.ofNat (file + emptyRun b r file (8 - file))) r =
              parsePieces tail B' 8 r ∧
            B'.piece.length = 64 ∧
            (∀ f : Nat, file ≤ f → f < 8 →
              pieceAt B' (squareAt (Int.ofNat f) r) = pieceAt b (squareAt (Int.ofNat f) r)) ∧
            (∀ sq : Int, 0 ≤ sq → sq < 64 → (sq / 8 ≠ r ∨ sq % 8 < Int.ofNat file) →
              pieceAt B' sq = pieceAt B sq) ∧
            B'.sideToMove = B.sideToMove ∧ B'.moveNr = B.moveNr ∧ B'.rule50 = B.rule50 ∧
            B'.epSquare = B.epSquare ∧ B'.castleSq = B.castleSq ∧
            B'.checkFrom = B.checkFrom ∧ B'.checkTo = B.checkTo := by
        intro B2 hlen2 hB20 hfields2 hsame2
        set e := emptyRun b r file (8 - file) with hedef
        by_cases hf2 : file + e < 8
        · rw [if_pos hf2]
          set f2 := file + e with hf2def
          set p := pieceAt b (squareAt (Int.ofNat f2) r) with hpdef
          have hpne : p ≠ NoPiece := he3 hf2
          have hpval : 2 ≤ p ∧ p ≤ 13 := by
            rcases pieceAt_valid b hbp (squareAt (Int.ofNat f2) r) with h | h
            · exact absurd h hpne
            · exact h
          obtain ⟨hpfc, hpslash, hpdigit, hpspace⟩ := pieceLetter_facts p hpval.1 hpval.2
          rw [List.cons_append, parsePieces]
          rw [if_neg hpslash, if_neg hpdigit, if_neg (show ¬(Int.ofNat f2 > 7) by
            have : (f2 : Int) = Int.ofNat f2 := rfl
            omega)]
          dsimp only
          rw [hpfc, if_neg hpne]
          have hsq := squareAt_div_mod f2 r hf2 hr0 hr8
          have hrec := ih (f2 + 1) (setPieceAt B2 (squareAt (Int.ofNat f2) r) p)
            tail (by omega) (by omega)
            (by rw [setPieceAt_length]; exact hlen2)
            (by
              intro f hf1 hf8
              rw [pieceAt_setPieceAt_other]
              · exact hB20 f (by omega) hf8
              · intro heq
                have h1 := squareAt_div_mod f r hf8 hr0 hr8
                have : Int.ofNat f = Int.ofNat f2 := by
                  have e1 := h1.2.1
                  have e2 := hsq.2.1
                  rw [heq] at e1
                  omega
                have : f = f2 := by
                  have : (f : Int) = (f2 : Int) := this
                  omega
                omega)
          obtain ⟨B', hB'eq, hB'len, hB'row, hB'rest, hB'f⟩ := hrec
          refine ⟨B', ?_, hB'len, ?_, ?_, ?_⟩
          · have hcast : (Int.ofNat f2 + 1 : Int) = Int.ofNat (f2 + 1) := by
              have h1 : Int.ofNat f2 = ((f2 : Nat) : Int) := rfl
              have h2 : Int.ofNat (f2 + 1) = ((f2 + 1 : Nat) : Int) := rfl
              omega
            rw [hcast]
            exact hB'eq
          · -- row agreement on [file, 8)
            intro f hf1 hf8
            have hsqf := squareAt_div_mod f r hf8 hr0 hr8
            by_cases hcmp : f2 < f
            · exact hB'row f (by omega) hf8
            · have hff2 : f ≤ f2 := by omega
              have hBstep : pieceAt B' (squareAt (Int.ofNat f) r) =
                  pieceAt (setPieceAt B2 (squareAt (Int.ofNat f2) r) p)
                    (squareAt (Int.ofNat f) r) := by
                apply hB'rest
                · exact hsqf.2.2.1
                · exact hsqf.2.2.2
                · right
                  rw [hsqf.2.1]
                  have c1 : Int.ofNat f = ((f : Nat) : Int) := rfl
                  have c2 : Int.ofNat (f2 + 1) = ((f2 + 1 : Nat) : Int) := rfl
                  omega
              rw [hBstep]
              by_cases hfe : f = f2
              · subst hfe
                rw [pieceAt_setPieceAt_same _ _ _ hsqf.2.2.1 hsqf.2.2.2 hlen2]
              · rw [pieceAt_setPieceAt_other _ _ _ _ (by
                  intro heq
                  have e1 := hsqf.2.1
                  have e2 := hsq.2.1
                  rw [heq] at e1
                  have : (f : Int) = (f2 : Int) := by
                    have c1 : Int.ofNat f = ((f : Nat) : Int) := rfl
                    have c2 : Int.ofNat f2 = ((f2 : Nat) : Int) := rfl
                    omega
                  omega)]
                -- f < f2: both B2 and b are empty here
                rw [hB20 f hf1 hf8]
                have := he1 f hf1 (by omega)
                rw [this]
          · -- outside: squares with other rank or column < file
            intro sq h0 h1 hcond
            have hBstep : pieceAt B' sq =
                pieceAt (setPieceAt B2 (squareAt (Int.ofNat f2) r) p) sq := by
              apply hB'rest sq h0 h1
              rcases hcond with hc | hc
              · exact Or.inl hc
              · right
                have c1 : Int.ofNat file = ((file : Nat) : Int) := rfl
                have c2 : Int.ofNat (f2 + 1) = ((f2 + 1 : Nat) : Int) := rfl
                omega
            rw [hBstep]
            rw [pieceAt_setPieceAt_other _ _ _ _ (by
              intro heq
              subst heq
              rcases hcond with hc | hc
              · exact hc hsq.1
              · rw [hsq.2.1] at hc
                have c1 : Int.ofNat file = ((file : Nat) : Int) := rfl
                have c2 : Int.ofNat f2 = ((f2 : Nat) : Int) := rfl
                omega)]
            exact hsame2 sq h0 h1
          · have hsf := setPieceAt_fields B2 (squareAt (Int.ofNat f2) r) p
            exact ⟨hB'f.1.trans (hsf.1.trans hfields2.1),
              hB'f.2.1.trans (hsf.2.1.trans hfields2.2.1),
              hB'f.2.2.1.trans (hsf.2.2.1.trans hfields2.2.2.1),
              hB'f.2.2.2.1.trans (hsf.2.2.2.1.trans hfields2.2.2.2.1),
              hB'f.2.2.2.2.1.trans (hsf.2.2.2.2.1.trans hfields2.2.2.2.2.1),
              hB'f.2.2.2.2.2.1.trans (hsf.2.2.2.2.2.1.trans hfields2.2.2.2.2.2.1),
              hB'f.2.2.2.2.2.2.trans (hsf.2.2.2.2.2.2.trans hfields2.2.2.2.2.2.2)⟩
        · -- f2 = 8: the rank is done
          rw [if_neg hf2]
          have hf28 : file + e = 8 := by omega
          refine ⟨B2, ?_, hlen2, ?_, ?_, hfields2⟩
          · rw [List.nil_append]
            congr 1
            show Int.ofNat (file + e) = (8 : Int)
            rw [hf28]
            rfl
          · intro f hf1 hf8
            rw [hB20 f hf1 hf8, he1 f hf1 (by omega)]
          · intro sq h0 h1 _
            exact hsame2 sq h0 h1
      -- dispatch on whether a leading empty-run digit is emitted
      by_cases h0e : 0 < emptyRun b r file (8 - file)
      · rw [if_pos h0e]
        obtain ⟨hdc1, hdc2, hdc3, hdc4⟩ :=
          digitFenChar_facts (emptyRun b r file (8 - file)) h0e (by omega)
        rw [List.singleton_append, List.cons_append, parsePieces]
        rw [if_neg hdc1, if_pos hdc2]
        have hval : Int.ofNat file +
            (Int.ofNat (Char.ofNat ('0'.toNat + emptyRun b r file (8 - file))).toNat -
              Int.ofNat '0'.toNat) = Int.ofNat (file + emptyRun b r file (8 - file)) := by
          rw [hdc3]
          have c1 : Int.ofNat file = ((file : Nat) : Int) := rfl
          have c2 : ∀ m : Nat, Int.ofNat m = ((m : Nat) : Int) := fun _ => rfl
          rw [c1, c2, c2, c2]
          push_cast
          omega
        rw [hval]
        exact step2 B hlen hB0 ⟨rfl, rfl, rfl, rfl, rfl, rfl, rfl⟩ (fun _ _ _ => rfl)
      · rw [if_neg h0e]
        have he0 : emptyRun b r file (8 - file) = 0 := by omega
        have := step2 B hlen hB0 ⟨rfl, rfl, rfl, rfl, rfl, rfl, rfl⟩ (fun _ _ _ => rfl)
        rw [he0] at this
        simpa [he0] using this

end Chess

namespace Chess

theorem fenRankGo_chars (b : Board)
    (hbp : ∀ p ∈ b.piece, p = NoPiece ∨ (2 ≤ p ∧ p ≤ 13)) (r : Int) :
    ∀ (fuel file : Nat), file ≤ 8 → ∀ c ∈ fenRankGo b r file fuel, isSpaceFen c = false := by
  intro fuel
  induction fuel with
  | zero =>
      intro file _ c hc
      simp [fenRankGo] at hc
  | succ n ih =>
      intro file hfile c hc
      rw [fenRankGo, if_neg (show ¬(8 < file) by omega)] at hc
      dsimp only at hc
      obtain ⟨he1, he2, he3⟩ := emptyRun_spec b r (8 - file) file (by omega)
      rcases List.mem_append.mp hc with h | h
      · split at h
        · rename_i h0e
          simp only [List.mem_singleton] at h
          subst h
          exact (digitFenChar_facts _ h0e (by omega)).2.2.2
        · simp at h
      · split at h
        · rename_i hf2
          rcases List.mem_cons.mp h with rfl | h
          · have hpne := he3 hf2
            rcases pieceAt_valid b hbp
                (squareAt (Int.ofNat (file + emptyRun b r file (8 - file))) r) with hv | hv
            · exact absurd hv hpne
            · exact (pieceLetter_facts _ hv.1 hv.2).2.2.2
          · exact ih (file + emptyRun b r file (8 - file) + 1) (by omega) c h
        · simp at h

theorem fenRank_ne_nil (b : Board) (r : Int) : fenRank b r ≠ [] := by
  unfold fenRank
  rw [fenRankGo, if_neg (by omega)]
  dsimp only
  by_cases h : 0 < emptyRun b r 0 (8 - 0)
  · rw [if_pos h]
    simp
  · rw [if_neg h]
    rw [if_pos (by omega)]
    simp

theorem fenRanks_chars (b : Board)
    (hbp : ∀ p ∈ b.piece, p = NoPiece ∨ (2 ≤ p ∧ p ≤ 13)) :
    ∀ (rc : Nat), ∀ c ∈ fenRanks b rc, isSpaceFen c = false := by
  intro rc
  induction rc with
  | zero =>
      intro c hc
      exact fenRankGo_chars b hbp 0 9 0 (by omega) c hc
  | succ n ih =>
      intro c hc
      rw [fenRanks] at hc
      rcases List.mem_append.mp hc with h | h
      · exact fenRankGo_chars b hbp (Int.ofNat (n + 1)) 9 0 (by omega) c h
      · rcases List.mem_cons.mp h with rfl | h
        · decide
        · exact ih c h

theorem fenRanks_ne_nil (b : Board) (rc : Nat) : fenRanks b rc ≠ [] := by
  cases rc with
  | zero => exact fenRank_ne_nil b 0
  | succ n =>
      rw [fenRanks]
      intro h
      rcases List.append_eq_nil.mp h with ⟨h1, h2⟩
      exact absurd h1 (fenRank_ne_nil b _)

theorem sq_decompose (sq : Int) (h0 : 0 ≤ sq) (h1 : sq < 64) :
    ∃ f : Nat, f < 8 ∧ sq = squareAt (Int.ofNat f) (sq / 8) := by
  refine ⟨(sq % 8).toNat, by omega, ?_⟩
  unfold squareAt
  have hcast : Int.ofNat (sq % 8).toNat = (((sq % 8).toNat : Nat) : Int) := rfl
  rw [hcast]
  omega

theorem rowwise_to_sqwise (P Q : Board) (r : Int) (hr0 : 0 ≤ r) (hr8 : r < 8)
    (h : ∀ f : Nat, f < 8 →
      pieceAt P (squareAt (Int.ofNat f) r) = pieceAt Q (squareAt (Int.ofNat f) r)) :
    ∀ sq : Int, 0 ≤ sq → sq < 64 → sq / 8 = r → pieceAt P sq = pieceAt Q sq := by
  intro sq h0 h1 hdiv
  obtain ⟨f, hf8, heq⟩ := sq_decompose sq h0 h1
  rw [hdiv] at heq
  rw [heq]
  exact h f hf8

theorem parsePieces_ranks (b : Board)
    (hbp : ∀ p ∈ b.piece, p = NoPiece ∨ (2 ≤ p ∧ p ≤ 13)) :
    ∀ (rc : Nat) (B : Board), rc ≤ 7 → B.piece.length = 64 →
      (∀ sq : Int, 0 ≤ sq → sq < 64 → sq / 8 ≤ Int.ofNat rc → pieceAt B sq = NoPiece) →
      ∃ B', parsePieces (fenRanks b rc) B 0 (Int.ofNat rc) = some B' ∧
        B'.piece.length = 64 ∧
        (∀ sq : Int, 0 ≤ sq → sq < 64 → sq / 8 ≤ Int.ofNat rc →
          pieceAt B' sq = pieceAt b sq) ∧
        (∀ sq : Int, 0 ≤ sq → sq < 64 → Int.ofNat rc < sq / 8 →
          pieceAt B' sq = pieceAt B sq) ∧
        B'.sideToMove = B.sideToMove ∧ B'.moveNr = B.moveNr ∧ B'.rule50 = B.rule50 ∧
        B'.epSquare = B.epSquare ∧ B'.castleSq = B.castleSq ∧
        B'.checkFrom = B.checkFrom ∧ B'.checkTo = B.checkTo := by
  intro rc
  induction rc with
  | zero =>
      intro B hrc hlen hB0
      obtain ⟨B', hEq, hLen, hRow, hRest, hF⟩ :=
        parsePieces_rank b hbp 0 (by omega) (by omega) 9 0 B [] (by omega) (by omega) hlen
          (by
            intro f _ hf8
            have hsq := squareAt_div_mod f 0 hf8 (by omega) (by omega)
            exact hB0 _ hsq.2.2.1 hsq.2.2.2 (by rw [hsq.1]; exact le_refl 0))
      refine ⟨B', ?_, hLen, ?_, ?_, hF⟩
      · show parsePieces (fenRank b 0) B (Int.ofNat 0) 0 = some B'
        rw [← List.append_nil (fenRank b 0)]
        unfold fenRank
        rw [hEq]
        rfl
      · intro sq h0 h1 hdiv
        have hdiv0 : sq / 8 = 0 := by
          have : Int.ofNat 0 = (0 : Int) := rfl
          omega
        refine rowwise_to_sqwise B' b 0 (by omega) (by omega) ?_ sq h0 h1 hdiv0
        intro f hf8
        exact hRow f (by omega) hf8
      · intro sq h0 h1 hdiv
        apply hRest sq h0 h1
        left
        have : Int.ofNat 0 = (0 : Int) := rfl
        omega
  | succ n ih =>
      intro B hrc hlen hB0
      have hcast1 : Int.ofNat (n + 1) = ((n + 1 : Nat) : Int) := rfl
      have hcast0 : Int.ofNat n = ((n : Nat) : Int) := rfl
      obtain ⟨B1, hEq1, hLen1, hRow1, hRest1, hF1⟩ :=
        parsePieces_rank b hbp (Int.ofNat (n + 1)) (by omega) (by omega) 9 0 B
          ('/' :: fenRanks b n) (by omega) (by omega) hlen
          (by
            intro f _ hf8
            have hsq := squareAt_div_mod f (Int.ofNat (n + 1)) hf8 (by omega) (by omega)
            exact hB0 _ hsq.2.2.1 hsq.2.2.2 (by rw [hsq.1]))
      have hstep : parsePieces ('/' :: fenRanks b n) B1 8 (Int.ofNat (n + 1)) =
          parsePieces (fenRanks b n) B1 0 (Int.ofNat n) := by
        rw [parsePieces]
        rw [if_pos rfl]
        rw [if_neg (by omega)]
        congr 1
        omega
      obtain ⟨B', hEq2, hLen2, hIn2, hOut2, hF2⟩ := ih B1 (by omega) hLen1
        (by
          intro sq h0 h1 hdiv
          rw [hRest1 sq h0 h1 (Or.inl (by omega))]
          exact hB0 sq h0 h1 (by omega))
      refine ⟨B', ?_, hLen2, ?_, ?_, ?_⟩
      · show parsePieces (fenRank b (Int.ofNat (n + 1)) ++ '/' :: fenRanks b n) B
            (Int.ofNat 0) (Int.ofNat (n + 1)) = some B'
        unfold fenRank
        rw [hEq1, hstep, hEq2]
      · intro sq h0 h1 hdiv
        by_cases hr : sq / 8 ≤ Int.ofNat n
        · exact hIn2 sq h0 h1 hr
        · have hdivr : sq / 8 = Int.ofNat (n + 1) := by omega
          rw [hOut2 sq h0 h1 (by omega)]
          refine rowwise_to_sqwise B1 b (Int.ofNat (n + 1)) (by omega) (by omega) ?_
            sq h0 h1 hdivr
          intro f hf8
          exact hRow1 f (by omega) hf8
      · intro sq h0 h1 hdiv
        rw [hOut2 sq h0 h1 (by omega)]
        exact hRest1 sq h0 h1 (Or.inl (by omega))
      · exact ⟨hF2.1.trans hF1.1, hF2.2.1.trans hF1.2.1, hF2.2.2.1.trans hF1.2.2.1,
          hF2.2.2.2.1.trans hF1.2.2.2.1, hF2.2.2.2.2.1.trans hF1.2.2.2.2.1,
          hF2.2.2.2.2.2.1.trans hF1.2.2.2.2.2.1, hF2.2.2.2.2.2.2.trans hF1.2.2.2.2.2.2⟩

end Chess

namespace Chess

/-! Castling-field round-trip: `find` lemmas and character classification. -/

theorem findLoop_congr (b1 b2 : Board) (h : b1.piece = b2.piece) (p : Nat) :
    ∀ (fuel : Nat) (sq sq1 dir : Int),
      findLoop b1 p sq sq1 dir fuel = findLoop b2 p sq sq1 dir fuel := by
  intro fuel
  induction fuel with
  | zero => intro sq sq1 dir; rfl
  | succ n ih =>
      intro sq sq1 dir
      rw [findLoop, findLoop]
      rw [pieceAt_piece_eq b1 b2 h]
      split
      · rfl
      · split
        · rfl
        · exact ih (sq + dir) sq1 dir

theorem find_congr (b1 b2 : Board) (h : b1.piece = b2.piece) (p : Nat) (s0 s1 : Int) :
    find b1 p s0 s1 = find b2 p s0 s1 := by
  unfold find
  exact findLoop_congr b1 b2 h p 65 s0 s1 _

theorem findLoop_found (b : Board) (p : Nat) (fuel : Nat) (sq sq1 dir : Int)
    (hne : sq ≠ sq1 + dir) (hp : pieceAt b sq = p) :
    findLoop b p sq sq1 dir (fuel + 1) = sq := by
  rw [findLoop, if_neg hne, if_pos hp]

theorem upperFileChar_facts (f : Nat) (hf : f < 8) :
    (Char.ofNat ('A'.toNat + f) = 'K' ∨ Char.ofNat ('A'.toNat + f) = 'Q' ∨
      ('A' ≤ Char.ofNat ('A'.toNat + f) ∧ Char.ofNat ('A'.toNat + f) ≤ 'H')) ∧
    ¬(Char.ofNat ('A'.toNat + f) = 'Q' ∨ Char.ofNat ('A'.toNat + f) = 'q') ∧
    ¬(Char.ofNat ('A'.toNat + f) = 'K' ∨ Char.ofNat ('A'.toNat + f) = 'k') ∧
    ('A' ≤ Char.ofNat ('A'.toNat + f) ∧ Char.ofNat ('A'.toNat + f) ≤ 'H') ∧
    (Char.ofNat ('A'.toNat + f)).toNat - 'A'.toNat = f := by
  interval_cases f <;> exact ⟨by decide, by decide, by decide, by decide, by decide⟩

theorem lowerFileChar_facts (f : Nat) (hf : f < 8) :
    (¬(Char.ofNat ('a'.toNat + f) = 'K' ∨ Char.ofNat ('a'.toNat + f) = 'Q' ∨
      ('A' ≤ Char.ofNat ('a'.toNat + f) ∧ Char.ofNat ('a'.toNat + f) ≤ 'H'))) ∧
    (Char.ofNat ('a'.toNat + f) = 'k' ∨ Char.ofNat ('a'.toNat + f) = 'q' ∨
      ('a' ≤ Char.ofNat ('a'.toNat + f) ∧ Char.ofNat ('a'.toNat + f) ≤ 'h')) ∧
    ¬(Char.ofNat ('a'.toNat + f) = 'Q' ∨ Char.ofNat ('a'.toNat + f) = 'q') ∧
    ¬(Char.ofNat ('a'.toNat + f) = 'K' ∨ Char.ofNat ('a'.toNat + f) = 'k') ∧
    ¬('A' ≤ Char.ofNat ('a'.toNat + f) ∧ Char.ofNat ('a'.toNat + f) ≤ 'H') ∧
    (Char.ofNat ('a'.toNat + f)).toNat - 'a'.toNat = f := by
  interval_cases f <;> exact ⟨by decide, by decide, by decide, by decide, by decide, by decide⟩

end Chess

namespace Chess
theorem find_found (b : Board) (p : Piece) (sq0 sq1 : Int)
    (hne : sq0 ≠ sq1 + (if sq0 > sq1 then -1 else 1))
    (hp : pieceAt b sq0 = p) : find b p sq0 sq1 = sq0 := by
  unfold find
  exact findLoop_found b p 64 sq0 sq1 _ hne hp

theorem setCanCastle_WOO (b Bc : Board) (hpiece : Bc.piece = b.piece)
    (hwf : WfCastleRight b White kingSide)
    (hpres : castleSqAt b (White ||| kingSide) ≠ noSquare) :
    setCanCastle Bc
      (if castleSqAt b (White ||| kingSide) = H1 then 'K'
       else Char.ofNat ('A'.toNat + (sqFile (castleSqAt b (White ||| kingSide))).toNat)) true =
    setCastleSqAt Bc (White ||| kingSide) (castleSqAt b (White ||| kingSide)) := by
  rcases hwf with hno | ⟨h0, h64, hrook, hkne, hkrank, hsrank, hking, _⟩
  · exact absurd hno hpres
  have hkc : find Bc (White ||| King) A1 H8 = find b (White ||| King) A1 H8 :=
    find_congr Bc b hpiece _ _ _
  obtain ⟨k, hk⟩ : ∃ x, find b (White ||| King) A1 H8 = x := ⟨_, rfl⟩
  obtain ⟨sq, hsq⟩ : ∃ x, castleSqAt b (White ||| kingSide) = x := ⟨_, rfl⟩
  rw [hk] at hkc hkne hkrank hking
  rw [hsq] at hpres hrook h0 h64 hsrank hking ⊢
  have hkne2 : k ≠ -1 := hkne
  have hkr : k / 8 = 0 := by
    have h := hkrank
    unfold sqRank backRank at h
    simpa using h
  have hsr : sq / 8 = 0 := by
    have h := hsrank
    unfold sqRank backRank at h
    simpa using h
  have hklt : k < sq := hking rfl
  have hkguard : ¬(k = noSquare ∨ relativeRank k White ≠ 0) := by
    unfold relativeRank sqRank noSquare
    rw [if_pos rfl]
    omega
  by_cases hcorner : sq = H1
  · have hsq7 : sq = 7 := hcorner
    rw [if_pos hcorner]
    unfold setCanCastle
    dsimp only
    rw [if_pos (show ('K' : Char) = 'K' ∨ ('K' : Char) = 'Q' ∨
      ('A' ≤ ('K' : Char) ∧ ('K' : Char) ≤ 'H') from by decide)]
    rw [if_neg (show ¬(White = 2) from by decide)]
    rw [hkc]
    rw [if_neg hkguard]
    rw [if_neg (show ¬(('K' : Char) = 'Q' ∨ ('K' : Char) = 'q') from by decide)]
    rw [if_pos (show ('K' : Char) = 'K' ∨ ('K' : Char) = 'k' from by decide)]
    dsimp only
    have h7 : squareAt 7 (sqRank k) = 7 := by
      unfold squareAt sqRank
      omega
    rw [h7]
    rw [find_congr Bc b hpiece]
    rw [hsq7] at hrook
    have hrfind : find b (White ||| Rook) 7 k = 7 := by
      apply find_found
      · rw [if_pos (show (7 : Int) > k from by omega)]
        omega
      · exact hrook
    rw [hrfind]
    rw [if_neg (show ¬((7 : Int) = noSquare) from by decide)]
    rw [if_neg (show ¬((7 : Int) < k) from by omega)]
    rw [hsq7]
    rfl
  · rw [if_neg hcorner]
    have hsqlt : sq < 8 := by omega
    have hfile : (sqFile sq).toNat < 8 := by
      unfold sqFile
      omega
    obtain ⟨hclass, hnQ, hnK, hAH, htoNat⟩ := upperFileChar_facts _ hfile
    unfold setCanCastle
    dsimp only
    rw [if_pos hclass]
    rw [if_neg (show ¬(White = 2) from by decide)]
    rw [hkc]
    rw [if_neg hkguard]
    rw [if_neg hnQ, if_neg hnK, if_pos hAH]
    dsimp only
    have hsqeq : squareAt (Int.ofNat ((Char.ofNat ('A'.toNat +
        (sqFile sq).toNat)).toNat - 'A'.toNat)) (sqRank k) = sq := by
      rw [htoNat]
      unfold squareAt sqRank sqFile
      have hcast : Int.ofNat ((sq % 8).toNat) = (((sq % 8).toNat : Nat) : Int) := rfl
      rw [hcast]
      omega
    rw [hsqeq]
    rw [find_congr Bc b hpiece]
    have hrfind : find b (White ||| Rook) sq sq = sq := by
      apply find_found
      · rw [if_neg (show ¬(sq > sq) from by omega)]
        omega
      · exact hrook
    rw [hrfind]
    rw [if_neg hpres]
    rw [if_neg (show ¬(sq < k) from by omega)]
    rfl

theorem setCanCastle_WOOO (b Bc : Board) (hpiece : Bc.piece = b.piece)
    (hwf : WfCastleRight b White queenSide)
    (hpres : castleSqAt b (White ||| queenSide) ≠ noSquare) :
    setCanCastle Bc
      (if castleSqAt b (White ||| queenSide) = A1 then 'Q'
       else Char.ofNat ('A'.toNat + (sqFile (castleSqAt b (White ||| queenSide))).toNat)) true =
    setCastleSqAt Bc (White ||| queenSide) (castleSqAt b (White ||| queenSide)) := by
  rcases hwf with hno | ⟨h0, h64, hrook, hkne, hkrank, hsrank, _, hqing⟩
  · exact absurd hno hpres
  have hkc : find Bc (White ||| King) A1 H8 = find b (White ||| King) A1 H8 :=
    find_congr Bc b hpiece _ _ _
  obtain ⟨k, hk⟩ : ∃ x, find b (White ||| King) A1 H8 = x := ⟨_, rfl⟩
  obtain ⟨sq, hsq⟩ : ∃ x, castleSqAt b (White ||| queenSide) = x := ⟨_, rfl⟩
  rw [hk] at hkc hkne hkrank hqing
  rw [hsq] at hpres hrook h0 h64 hsrank hqing ⊢
  have hkne2 : k ≠ -1 := hkne
  have hkr : k / 8 = 0 := by
    have h := hkrank
    unfold sqRank backRank at h
    simpa using h
  have hsr : sq / 8 = 0 := by
    have h := hsrank
    unfold sqRank backRank at h
    simpa using h
  have hklt : sq < k := hqing rfl
  have hkguard : ¬(k = noSquare ∨ relativeRank k White ≠ 0) := by
    unfold relativeRank sqRank noSquare
    rw [if_pos rfl]
    omega
  by_cases hcorner : sq = A1
  · have hsq0 : sq = 0 := hcorner
    rw [if_pos hcorner]
    unfold setCanCastle
    dsimp only
    rw [if_pos (show ('Q' : Char) = 'K' ∨ ('Q' : Char) = 'Q' ∨
      ('A' ≤ ('Q' : Char) ∧ ('Q' : Char) ≤ 'H') from by decide)]
    rw [if_neg (show ¬(White = 2) from by decide)]
    rw [hkc]
    rw [if_neg hkguard]
    rw [if_pos (show ('Q' : Char) = 'Q' ∨ ('Q' : Char) = 'q' from by decide)]
    dsimp only
    have h0sq : squareAt 0 (sqRank k) = 0 := by
      unfold squareAt sqRank
      omega
    rw [h0sq]
    rw [find_congr Bc b hpiece]
    rw [hsq0] at hrook
    have hrfind : find b (White ||| Rook) 0 k = 0 := by
      apply find_found
      · rw [if_neg (show ¬((0 : Int) > k) from by omega)]
        omega
      · exact hrook
    rw [hrfind]
    rw [if_neg (show ¬((0 : Int) = noSquare) from by decide)]
    rw [if_pos (show (0 : Int) < k from by omega)]
    rw [hsq0]
    rfl
  · rw [if_neg hcorner]
    have hsqlt : sq < 8 := by omega
    have hfile : (sqFile sq).toNat < 8 := by
      unfold sqFile
      omega
    obtain ⟨hclass, hnQ, hnK, hAH, htoNat⟩ := upperFileChar_facts _ hfile
    unfold setCanCastle
    dsimp only
    rw [if_pos hclass]
    rw [if_neg (show ¬(White = 2) from by decide)]
    rw [hkc]
    rw [if_neg hkguard]
    rw [if_neg hnQ, if_neg hnK, if_pos hAH]
    dsimp only
    have hsqeq : squareAt (Int.ofNat ((Char.ofNat ('A'.toNat +
        (sqFile sq).toNat)).toNat - 'A'.toNat)) (sqRank k) = sq := by
      rw [htoNat]
      unfold squareAt sqRank sqFile
      have hcast : Int.ofNat ((sq % 8).toNat) = (((sq % 8).toNat : Nat) : Int) := rfl
      rw [hcast]
      omega
    rw [hsqeq]
    rw [find_congr Bc b hpiece]
    have hrfind : find b (White ||| Rook) sq sq = sq := by
      apply find_found
      · rw [if_neg (show ¬(sq > sq) from by omega)]
        omega
      · exact hrook
    rw [hrfind]
    rw [if_neg hpres]
    rw [if_pos (show sq < k from hklt)]
    rfl

theorem setCanCastle_BOO (b Bc : Board) (hpiece : Bc.piece = b.piece)
    (hwf : WfCastleRight b Black kingSide)
    (hpres : castleSqAt b (Black ||| kingSide) ≠ noSquare) :
    setCanCastle Bc
      (if castleSqAt b (Black ||| kingSide) = H8 then 'k'
       else Char.ofNat ('a'.toNat + (sqFile (castleSqAt b (Black ||| kingSide))).toNat)) true =
    setCastleSqAt Bc (Black ||| kingSide) (castleSqAt b (Black ||| kingSide)) := by
  rcases hwf with hno | ⟨h0, h64, hrook, hkne, hkrank, hsrank, hking, _⟩
  · exact absurd hno hpres
  have hkc : find Bc (Black ||| King) A1 H8 = find b (Black ||| King) A1 H8 :=
    find_congr Bc b hpiece _ _ _
  obtain ⟨k, hk⟩ : ∃ x, find b (Black ||| King) A1 H8 = x := ⟨_, rfl⟩
  obtain ⟨sq, hsq⟩ : ∃ x, castleSqAt b (Black ||| kingSide) = x := ⟨_, rfl⟩
  rw [hk] at hkc hkne hkrank hking
  rw [hsq] at hpres hrook h0 h64 hsrank hking ⊢
  have hkne2 : k ≠ -1 := hkne
  have hkr : k / 8 = 7 := by
    have h := hkrank
    unfold sqRank backRank at h
    simpa using h
  have hsr : sq / 8 = 7 := by
    have h := hsrank
    unfold sqRank backRank at h
    simpa using h
  have hklt : k < sq := hking rfl
  have hkguard : ¬(k = noSquare ∨ relativeRank k Black ≠ 0) := by
    unfold relativeRank sqRank noSquare
    rw [if_neg (show ¬(Black = White) from by decide)]
    omega
  by_cases hcorner : sq = H8
  · have hsq63 : sq = 63 := hcorner
    rw [if_pos hcorner]
    unfold setCanCastle
    dsimp only
    rw [if_neg (show ¬(('k' : Char) = 'K' ∨ ('k' : Char) = 'Q' ∨
      ('A' ≤ ('k' : Char) ∧ ('k' : Char) ≤ 'H')) from by decide)]
    rw [if_pos (show ('k' : Char) = 'k' ∨ ('k' : Char) = 'q' ∨
      ('a' ≤ ('k' : Char) ∧ ('k' : Char) ≤ 'h') from by decide)]
    rw [if_neg (show ¬(Black = 2) from by decide)]
    rw [hkc]
    rw [if_neg hkguard]
    rw [if_neg (show ¬(('k' : Char) = 'Q' ∨ ('k' : Char) = 'q') from by decide)]
    rw [if_pos (show ('k' : Char) = 'K' ∨ ('k' : Char) = 'k' from by decide)]
    dsimp only
    have h63 : squareAt 7 (sqRank k) = 63 := by
      unfold squareAt sqRank
      omega
    rw [h63]
    rw [find_congr Bc b hpiece]
    rw [hsq63] at hrook
    have hrfind : find b (Black ||| Rook) 63 k = 63 := by
      apply find_found
      · rw [if_pos (show (63 : Int) > k from by omega)]
        omega
      · exact hrook
    rw [hrfind]
    rw [if_neg (show ¬((63 : Int) = noSquare) from by decide)]
    rw [if_neg (show ¬((63 : Int) < k) from by omega)]
    rw [hsq63]
    rfl
  · rw [if_neg hcorner]
    have hsqlt : 56 ≤ sq ∧ sq < 64 := by omega
    have hfile : (sqFile sq).toNat < 8 := by
      unfold sqFile
      omega
    obtain ⟨hnW, hclass, hnQ, hnK, hnAH, htoNat⟩ := lowerFileChar_facts _ hfile
    unfold setCanCastle
    dsimp only
    rw [if_neg hnW]
    rw [if_pos hclass]
    rw [if_neg (show ¬(Black = 2) from by decide)]
    rw [hkc]
    rw [if_neg hkguard]
    rw [if_neg hnQ, if_neg hnK, if_neg hnAH]
    dsimp only
    have hsqeq : squareAt (Int.ofNat ((Char.ofNat ('a'.toNat +
        (sqFile sq).toNat)).toNat - 'a'.toNat)) (sqRank k) = sq := by
      rw [htoNat]
      unfold squareAt sqRank sqFile
      have hcast : Int.ofNat ((sq % 8).toNat) = (((sq % 8).toNat : Nat) : Int) := rfl
      rw [hcast]
      omega
    rw [hsqeq]
    rw [find_congr Bc b hpiece]
    have hrfind : find b (Black ||| Rook) sq sq = sq := by
      apply find_found
      · rw [if_neg (show ¬(sq > sq) from by omega)]
        omega
      · exact hrook
    rw [hrfind]
    rw [if_neg hpres]
    rw [if_neg (show ¬(sq < k) from by omega)]
    rfl

theorem setCanCastle_BOOO (b Bc : Board) (hpiece : Bc.piece = b.piece)
    (hwf : WfCastleRight b Black queenSide)
    (hpres : castleSqAt b (Black ||| queenSide) ≠ noSquare) :
    setCanCastle Bc
      (if castleSqAt b (Black ||| queenSide) = A8 then 'q'
       else Char.ofNat ('a'.toNat + (sqFile (castleSqAt b (Black ||| queenSide))).toNat)) true =
    setCastleSqAt Bc (Black ||| queenSide) (castleSqAt b (Black ||| queenSide)) := by
  rcases hwf with hno | ⟨h0, h64, hrook, hkne, hkrank, hsrank, _, hqing⟩
  · exact absurd hno hpres
  have hkc : find Bc (Black ||| King) A1 H8 = find b (Black ||| King) A1 H8 :=
    find_congr Bc b hpiece _ _ _
  obtain ⟨k, hk⟩ : ∃ x, find b (Black ||| King) A1 H8 = x := ⟨_, rfl⟩
  obtain ⟨sq, hsq⟩ : ∃ x, castleSqAt b (Black ||| queenSide) = x := ⟨_, rfl⟩
  rw [hk] at hkc hkne hkrank hqing
  rw [hsq] at hpres hrook h0 h64 hsrank hqing ⊢
  have hkne2 : k ≠ -1 := hkne
  have hkr : k / 8 = 7 := by
    have h := hkrank
    unfold sqRank backRank at h
    simpa using h
  have hsr : sq / 8 = 7 := by
    have h := hsrank
    unfold sqRank backRank at h
    simpa using h
  have hklt : sq < k := hqing rfl
  have hkguard : ¬(k = noSquare ∨ relativeRank k Black ≠ 0) := by
    unfold relativeRank sqRank noSquare
    rw [if_neg (show ¬(Black = White) from by decide)]
    omega
  by_cases hcorner : sq = A8
  · have hsq56 : sq = 56 := hcorner
    rw [if_pos hcorner]
    unfold setCanCastle
    dsimp only
    rw [if_neg (show ¬(('q' : Char) = 'K' ∨ ('q' : Char) = 'Q' ∨
      ('A' ≤ ('q' : Char) ∧ ('q' : Char) ≤ 'H')) from by decide)]
    rw [if_pos (show ('q' : Char) = 'k' ∨ ('q' : Char) = 'q' ∨
      ('a' ≤ ('q' : Char) ∧ ('q' : Char) ≤ 'h') from by decide)]
    rw [if_neg (show ¬(Black = 2) from by decide)]
    rw [hkc]
    rw [if_neg hkguard]
    rw [if_pos (show ('q' : Char) = 'Q' ∨ ('q' : Char) = 'q' from by decide)]
    dsimp only
    have h56 : squareAt 0 (sqRank k) = 56 := by
      unfold squareAt sqRank
      omega
    rw [h56]
    rw [find_congr Bc b hpiece]
    rw [hsq56] at hrook
    have hrfind : find b (Black ||| Rook) 56 k = 56 := by
      apply find_found
      · rw [if_neg (show ¬((56 : Int) > k) from by omega)]
        omega
      · exact hrook
    rw [hrfind]
    rw [if_neg (show ¬((56 : Int) = noSquare) from by decide)]
    rw [if_pos (show (56 : Int) < k from by omega)]
    rw [hsq56]
    rfl
  · rw [if_neg hcorner]
    have hsqlt : 56 ≤ sq ∧ sq < 64 := by omega
    have hfile : (sqFile sq).toNat < 8 := by
      unfold sqFile
      omega
    obtain ⟨hnW, hclass, hnQ, hnK, hnAH, htoNat⟩ := lowerFileChar_facts _ hfile
    unfold setCanCastle
    dsimp only
    rw [if_neg hnW]
    rw [if_pos hclass]
    rw [if_neg (show ¬(Black = 2) from by decide)]
    rw [hkc]
    rw [if_neg hkguard]
    rw [if_neg hnQ, if_neg hnK, if_neg hnAH]
    dsimp only
    have hsqeq : squareAt (Int.ofNat ((Char.ofNat ('a'.toNat +
        (sqFile sq).toNat)).toNat - 'a'.toNat)) (sqRank k) = sq := by
      rw [htoNat]
      unfold squareAt sqRank sqFile
      have hcast : Int.ofNat ((sq % 8).toNat) = (((sq % 8).toNat : Nat) : Int) := rfl
      rw [hcast]
      omega
    rw [hsqeq]
    rw [find_congr Bc b hpiece]
    have hrfind : find b (Black ||| Rook) sq sq = sq := by
      apply find_found
      · rw [if_neg (show ¬(sq > sq) from by omega)]
        omega
      · exact hrook
    rw [hrfind]
    rw [if_neg hpres]
    rw [if_pos (show sq < k from hklt)]
    rfl

theorem upperFileChar_ne_dash (f : Nat) (hf : f < 8) :
    Char.ofNat ('A'.toNat + f) ≠ '-' := by
  have h := (upperFileChar_facts f hf).2.2.2.1
  intro hc
  rw [hc] at h
  exact absurd h.1 (by decide)

theorem lowerFileChar_ne_dash (f : Nat) (hf : f < 8) :
    Char.ofNat ('a'.toNat + f) ≠ '-' := by
  have h := (lowerFileChar_facts f hf).2.1
  intro hc
  rw [hc] at h
  rcases h with h | h | h
  · exact absurd h (by decide)
  · exact absurd h (by decide)
  · exact absurd h.1 (by decide)

theorem castleStep_w1 (b B : Board) (hpiece : B.piece = b.piece)
    (hwf : WfCastleRight b White kingSide) :
    List.foldl (fun B c => setCanCastle B c true) B
      (if castleSqAt b (White ||| kingSide) ≠ noSquare then
        (if castleSqAt b (White ||| kingSide) = H1 then ['K']
         else [Char.ofNat ('A'.toNat + (sqFile (castleSqAt b (White ||| kingSide))).toNat)])
       else []) =
    { B with castleSq :=
        if castleSqAt b (White ||| kingSide) ≠ noSquare then
          B.castleSq.set (White ||| kingSide) (castleSqAt b (White ||| kingSide))
        else B.castleSq } := by
  by_cases hp : castleSqAt b (White ||| kingSide) = noSquare
  · simp [hp]
  · rw [if_pos hp, if_pos hp]
    rw [← apply_ite (fun c => [c]) (castleSqAt b (White ||| kingSide) = H1) 'K'
      (Char.ofNat ('A'.toNat + (sqFile (castleSqAt b (White ||| kingSide))).toNat))]
    rw [List.foldl_cons, List.foldl_nil]
    rw [setCanCastle_WOO b B hpiece hwf hp]
    rfl

theorem castleStep_w2 (b B : Board) (hpiece : B.piece = b.piece)
    (hwf : WfCastleRight b White queenSide) :
    List.foldl (fun B c => setCanCastle B c true) B
      (if castleSqAt b (White ||| queenSide) ≠ noSquare then
        (if castleSqAt b (White ||| queenSide) = A1 then ['Q']
         else [Char.ofNat ('A'.toNat + (sqFile (castleSqAt b (White ||| queenSide))).toNat)])
       else []) =
    { B with castleSq :=
        if castleSqAt b (White ||| queenSide) ≠ noSquare then
          B.castleSq.set (White ||| queenSide) (castleSqAt b (White ||| queenSide))
        else B.castleSq } := by
  by_cases hp : castleSqAt b (White ||| queenSide) = noSquare
  · simp [hp]
  · rw [if_pos hp, if_pos hp]
    rw [← apply_ite (fun c => [c]) (castleSqAt b (White ||| queenSide) = A1) 'Q'
      (Char.ofNat ('A'.toNat + (sqFile (castleSqAt b (White ||| queenSide))).toNat))]
    rw [List.foldl_cons, List.foldl_nil]
    rw [setCanCastle_WOOO b B hpiece hwf hp]
    rfl

theorem castleStep_b1 (b B : Board) (hpiece : B.piece = b.piece)
    (hwf : WfCastleRight b Black kingSide) :
    List.foldl (fun B c => setCanCastle B c true) B
      (if castleSqAt b (Black ||| kingSide) ≠ noSquare then
        (if castleSqAt b (Black ||| kingSide) = H8 then ['k']
         else [Char.ofNat ('a'.toNat + (sqFile (castleSqAt b (Black ||| kingSide))).toNat)])
       else []) =
    { B with castleSq :=
        if castleSqAt b (Black ||| kingSide) ≠ noSquare then
          B.castleSq.set (Black ||| kingSide) (castleSqAt b (Black ||| kingSide))
        else B.castleSq } := by
  by_cases hp : castleSqAt b (Black ||| kingSide) = noSquare
  · simp [hp]
  · rw [if_pos hp, if_pos hp]
    rw [← apply_ite (fun c => [c]) (castleSqAt b (Black ||| kingSide) = H8) 'k'
      (Char.ofNat ('a'.toNat + (sqFile (castleSqAt b (Black ||| kingSide))).toNat))]
    rw [List.foldl_cons, List.foldl_nil]
    rw [setCanCastle_BOO b B hpiece hwf hp]
    rfl

theorem castleStep_b2 (b B : Board) (hpiece : B.piece = b.piece)
    (hwf : WfCastleRight b Black queenSide) :
    List.foldl (fun B c => setCanCastle B c true) B
      (if castleSqAt b (Black ||| queenSide) ≠ noSquare then
        (if castleSqAt b (Black ||| queenSide) = A8 then ['q']
         else [Char.ofNat ('a'.toNat + (sqFile (castleSqAt b (Black ||| queenSide))).toNat)])
       else []) =
    { B with castleSq :=
        if castleSqAt b (Black ||| queenSide) ≠ noSquare then
          B.castleSq.set (Black ||| queenSide) (castleSqAt b (Black ||| queenSide))
        else B.castleSq } := by
  by_cases hp : castleSqAt b (Black ||| queenSide) = noSquare
  · simp [hp]
  · rw [if_pos hp, if_pos hp]
    rw [← apply_ite (fun c => [c]) (castleSqAt b (Black ||| queenSide) = A8) 'q'
      (Char.ofNat ('a'.toNat + (sqFile (castleSqAt b (Black ||| queenSide))).toNat))]
    rw [List.foldl_cons, List.foldl_nil]
    rw [setCanCastle_BOOO b B hpiece hwf hp]
    rfl

theorem dash_not_mem_w1 (b : Board) (hwf : WfCastleRight b White kingSide) :
    '-' ∉ (if castleSqAt b (White ||| kingSide) ≠ noSquare then
      (if castleSqAt b (White ||| kingSide) = H1 then ['K']
       else [Char.ofNat ('A'.toNat + (sqFile (castleSqAt b (White ||| kingSide))).toNat)])
     else []) := by
  intro hm
  by_cases hp : castleSqAt b (White ||| kingSide) = noSquare
  · rw [if_neg (not_not_intro hp)] at hm
    exact List.not_mem_nil _ hm
  · rw [if_pos hp] at hm
    rcases hwf with hno | ⟨h0, h64, _⟩
    · exact hp hno
    by_cases hc : castleSqAt b (White ||| kingSide) = H1
    · rw [if_pos hc] at hm
      exact absurd (List.mem_singleton.mp hm) (by decide)
    · rw [if_neg hc] at hm
      have hf : (sqFile (castleSqAt b (White ||| kingSide))).toNat < 8 := by
        unfold sqFile
        omega
      exact upperFileChar_ne_dash _ hf (List.mem_singleton.mp hm).symm

theorem dash_not_mem_w2 (b : Board) (hwf : WfCastleRight b White queenSide) :
    '-' ∉ (if castleSqAt b (White ||| queenSide) ≠ noSquare then
      (if castleSqAt b (White ||| queenSide) = A1 then ['Q']
       else [Char.ofNat ('A'.toNat + (sqFile (castleSqAt b (White ||| queenSide))).toNat)])
     else []) := by
  intro hm
  by_cases hp : castleSqAt b (White ||| queenSide) = noSquare
  · rw [if_neg (not_not_intro hp)] at hm
    exact List.not_mem_nil _ hm
  · rw [if_pos hp] at hm
    rcases hwf with hno | ⟨h0, h64, _⟩
    · exact hp hno
    by_cases hc : castleSqAt b (White ||| queenSide) = A1
    · rw [if_pos hc] at hm
      exact absurd (List.mem_singleton.mp hm) (by decide)
    · rw [if_neg hc] at hm
      have hf : (sqFile (castleSqAt b (White ||| queenSide))).toNat < 8 := by
        unfold sqFile
        omega
      exact upperFileChar_ne_dash _ hf (List.mem_singleton.mp hm).symm

theorem dash_not_mem_b1 (b : Board) (hwf : WfCastleRight b Black kingSide) :
    '-' ∉ (if castleSqAt b (Black ||| kingSide) ≠ noSquare then
      (if castleSqAt b (Black ||| kingSide) = H8 then ['k']
       else [Char.ofNat ('a'.toNat + (sqFile (castleSqAt b (Black ||| kingSide))).toNat)])
     else []) := by
  intro hm
  by_cases hp : castleSqAt b (Black ||| kingSide) = noSquare
  · rw [if_neg (not_not_intro hp)] at hm
    exact List.not_mem_nil _ hm
  · rw [if_pos hp] at hm
    rcases hwf with hno | ⟨h0, h64, _⟩
    · exact hp hno
    by_cases hc : castleSqAt b (Black ||| kingSide) = H8
    · rw [if_pos hc] at hm
      exact absurd (List.mem_singleton.mp hm) (by decide)
    · rw [if_neg hc] at hm
      have hf : (sqFile (castleSqAt b (Black ||| kingSide))).toNat < 8 := by
        unfold sqFile
        omega
      exact lowerFileChar_ne_dash _ hf (List.mem_singleton.mp hm).symm

theorem dash_not_mem_b2 (b : Board) (hwf : WfCastleRight b Black queenSide) :
    '-' ∉ (if castleSqAt b (Black ||| queenSide) ≠ noSquare then
      (if castleSqAt b (Black ||| queenSide) = A8 then ['q']
       else [Char.ofNat ('a'.toNat + (sqFile (castleSqAt b (Black ||| queenSide))).toNat)])
     else []) := by
  intro hm
  by_cases hp : castleSqAt b (Black ||| queenSide) = noSquare
  · rw [if_neg (not_not_intro hp)] at hm
    exact List.not_mem_nil _ hm
  · rw [if_pos hp] at hm
    rcases hwf with hno | ⟨h0, h64, _⟩
    · exact hp hno
    by_cases hc : castleSqAt b (Black ||| queenSide) = A8
    · rw [if_pos hc] at hm
      exact absurd (List.mem_singleton.mp hm) (by decide)
    · rw [if_neg hc] at hm
      have hf : (sqFile (castleSqAt b (Black ||| queenSide))).toNat < 8 := by
        unfold sqFile
        omega
      exact lowerFileChar_ne_dash _ hf (List.mem_singleton.mp hm).symm

theorem fenCastles_reparse (b Bc : Board) (hpiece : Bc.piece = b.piece)
    (hcs : Bc.castleSq = [noSquare, noSquare, noSquare, noSquare])
    (hlen : b.castleSq.length = 4)
    (hw1 : WfCastleRight b White kingSide) (hw2 : WfCastleRight b White queenSide)
    (hb1 : WfCastleRight b Black kingSide) (hb2 : WfCastleRight b Black queenSide) :
    (if fenCastles b = ['-'] then Bc
     else List.foldl (fun B c => setCanCastle B c true) Bc (fenCastles b)) =
    { Bc with castleSq := b.castleSq } := by
  obtain ⟨x0, x1, x2, x3, hb⟩ : ∃ p q r s, b.castleSq = [p, q, r, s] := by
    rcases hx : b.castleSq with _ | ⟨p, _ | ⟨q, _ | ⟨r, _ | ⟨s, _ | ⟨t, u⟩⟩⟩⟩⟩ <;>
      first
        | exact ⟨p, q, r, s, rfl⟩
        | (rw [hx] at hlen; simp at hlen)
  have e1 : castleSqAt b (White ||| kingSide) = x2 := by
    unfold castleSqAt
    rw [hb]
    rfl
  have e2 : castleSqAt b (White ||| queenSide) = x0 := by
    unfold castleSqAt
    rw [hb]
    rfl
  have e3 : castleSqAt b (Black ||| kingSide) = x3 := by
    unfold castleSqAt
    rw [hb]
    rfl
  have e4 : castleSqAt b (Black ||| queenSide) = x1 := by
    unfold castleSqAt
    rw [hb]
    rfl
  unfold fenCastles
  dsimp only
  by_cases hall :
      ((if castleSqAt b (White ||| kingSide) ≠ noSquare then
          (if castleSqAt b (White ||| kingSide) = H1 then ['K']
           else [Char.ofNat ('A'.toNat + (sqFile (castleSqAt b (White ||| kingSide))).toNat)])
         else []) ++
        (if castleSqAt b (White ||| queenSide) ≠ noSquare then
          (if castleSqAt b (White ||| queenSide) = A1 then ['Q']
           else [Char.ofNat ('A'.toNat + (sqFile (castleSqAt b (White ||| queenSide))).toNat)])
         else []) ++
        (if castleSqAt b (Black ||| kingSide) ≠ noSquare then
          (if castleSqAt b (Black ||| kingSide) = H8 then ['k']
           else [Char.ofNat ('a'.toNat + (sqFile (castleSqAt b (Black ||| kingSide))).toNat)])
         else []) ++
        (if castleSqAt b (Black ||| queenSide) ≠ noSquare then
          (if castleSqAt b (Black ||| queenSide) = A8 then ['q']
           else [Char.ofNat ('a'.toNat + (sqFile (castleSqAt b (Black ||| queenSide))).toNat)])
         else [])) = []
  · rw [if_pos hall]
    rw [if_pos rfl]
    simp only [List.append_eq_nil] at hall
    obtain ⟨⟨⟨hW1, hW2⟩, hB1⟩, hB2⟩ := hall
    have p1 : castleSqAt b (White ||| kingSide) = noSquare := by
      by_contra h
      rw [if_pos h] at hW1
      revert hW1
      split <;> simp
    have p2 : castleSqAt b (White ||| queenSide) = noSquare := by
      by_contra h
      rw [if_pos h] at hW2
      revert hW2
      split <;> simp
    have p3 : castleSqAt b (Black ||| kingSide) = noSquare := by
      by_contra h
      rw [if_pos h] at hB1
      revert hB1
      split <;> simp
    have p4 : castleSqAt b (Black ||| kingSide+0) = noSquare := p3
    have p5 : castleSqAt b (Black ||| queenSide) = noSquare := by
      by_contra h
      rw [if_pos h] at hB2
      revert hB2
      split <;> simp
    rw [e1] at p1
    rw [e2] at p2
    rw [e3] at p3
    rw [e4] at p5
    have hbn : b.castleSq = [noSquare, noSquare, noSquare, noSquare] := by
      rw [hb, p1, p2, p3, p5]
    rw [hbn, ← hcs]
  · rw [if_neg hall]
    have hdash : ¬((if castleSqAt b (White ||| kingSide) ≠ noSquare then
          (if castleSqAt b (White ||| kingSide) = H1 then ['K']
           else [Char.ofNat ('A'.toNat + (sqFile (castleSqAt b (White ||| kingSide))).toNat)])
         else []) ++
        (if castleSqAt b (White ||| queenSide) ≠ noSquare then
          (if castleSqAt b (White ||| queenSide) = A1 then ['Q']
           else [Char.ofNat ('A'.toNat + (sqFile (castleSqAt b (White ||| queenSide))).toNat)])
         else []) ++
        (if castleSqAt b (Black ||| kingSide) ≠ noSquare then
          (if castleSqAt b (Black ||| kingSide) = H8 then ['k']
           else [Char.ofNat ('a'.toNat + (sqFile (castleSqAt b (Black ||| kingSide))).toNat)])
         else []) ++
        (if castleSqAt b (Black ||| queenSide) ≠ noSquare then
          (if castleSqAt b (Black ||| queenSide) = A8 then ['q']
           else [Char.ofNat ('a'.toNat + (sqFile (castleSqAt b (Black ||| queenSide))).toNat)])
         else []) = ['-']) := by
      intro h
      have hmem : ('-' : Char) ∈ _ := h ▸ List.mem_singleton.mpr rfl
      rcases List.mem_append.mp hmem with hmem | hmem
      rotate_left
      · exact dash_not_mem_b2 b hb2 hmem
      rcases List.mem_append.mp hmem with hmem | hmem
      rotate_left
      · exact dash_not_mem_b1 b hb1 hmem
      rcases List.mem_append.mp hmem with hmem | hmem
      · exact dash_not_mem_w1 b hw1 hmem
      · exact dash_not_mem_w2 b hw2 hmem
    rw [if_neg hdash]
    rw [List.foldl_append, List.foldl_append, List.foldl_append]
    rw [castleStep_w1 b Bc hpiece hw1]
    rw [castleStep_w2 b
      { Bc with castleSq :=
          if castleSqAt b (White ||| kingSide) ≠ noSquare then
            Bc.castleSq.set (White ||| kingSide) (castleSqAt b (White ||| kingSide))
          else Bc.castleSq } hpiece hw2]
    rw [castleStep_b1 b
      { Bc with castleSq :=
          if castleSqAt b (White ||| queenSide) ≠ noSquare then
            (if castleSqAt b (White ||| kingSide) ≠ noSquare then
              Bc.castleSq.set (White ||| kingSide) (castleSqAt b (White ||| kingSide))
            else Bc.castleSq).set (White ||| queenSide) (castleSqAt b (White ||| queenSide))
          else
            (if castleSqAt b (White ||| kingSide) ≠ noSquare then
              Bc.castleSq.set (White ||| kingSide) (castleSqAt b (White ||| kingSide))
            else Bc.castleSq) } hpiece hb1]
    rw [castleStep_b2 b
      { Bc with castleSq :=
          if castleSqAt b (Black ||| kingSide) ≠ noSquare then
            (if castleSqAt b (White ||| queenSide) ≠ noSquare then
              (if castleSqAt b (White ||| kingSide) ≠ noSquare then
                Bc.castleSq.set (White ||| kingSide) (castleSqAt b (White ||| kingSide))
              else Bc.castleSq).set (White ||| queenSide) (castleSqAt b (White ||| queenSide))
            else
              (if castleSqAt b (White ||| kingSide) ≠ noSquare then
                Bc.castleSq.set (White ||| kingSide) (castleSqAt b (White ||| kingSide))
              else Bc.castleSq)).set (Black ||| kingSide) (castleSqAt b (Black ||| kingSide))
          else
            (if castleSqAt b (White ||| queenSide) ≠ noSquare then
              (if castleSqAt b (White ||| kingSide) ≠ noSquare then
                Bc.castleSq.set (White ||| kingSide) (castleSqAt b (White ||| kingSide))
              else Bc.castleSq).set (White ||| queenSide) (castleSqAt b (White ||| queenSide))
            else
              (if castleSqAt b (White ||| kingSide) ≠ noSquare then
                Bc.castleSq.set (White ||| kingSide) (castleSqAt b (White ||| kingSide))
              else Bc.castleSq)) } hpiece hb2]
    rw [e1, e2, e3, e4, hcs, hb]
    by_cases q1 : x2 = noSquare <;> by_cases q2 : x0 = noSquare <;>
      by_cases q3 : x3 = noSquare <;> by_cases q4 : x1 = noSquare <;>
      simp [q1, q2, q3, q4] <;> try rfl

theorem piece_list_eq (P Q : Board) (hP : P.piece.length = 64) (hQ : Q.piece.length = 64)
    (h : ∀ sq : Int, 0 ≤ sq → sq < 64 → pieceAt P sq = pieceAt Q sq) :
    P.piece = Q.piece := by
  apply List.ext_getElem (by omega)
  intro i h1 h2
  have hi64 : i < 64 := by omega
  have hcast : Int.ofNat i = ((i : Nat) : Int) := rfl
  have hx := h (Int.ofNat i) (by rw [hcast]; omega) (by rw [hcast]; omega)
  unfold pieceAt at hx
  have hcond : (0 : Int) ≤ Int.ofNat i ∧ Int.ofNat i < 64 := by
    rw [hcast]
    exact ⟨by omega, by omega⟩
  rw [if_pos hcond, if_pos hcond] at hx
  rw [show (Int.ofNat i).toNat = i from rfl] at hx
  rw [List.getD_eq_getElem P.piece NoPiece (by omega),
      List.getD_eq_getElem Q.piece NoPiece (by omega)] at hx
  exact hx

theorem upperFileChar_not_space (f : Nat) (hf : f < 8) :
    isSpaceFen (Char.ofNat ('A'.toNat + f)) = false := by
  interval_cases f <;> decide

theorem lowerFileChar_not_space (f : Nat) (hf : f < 8) :
    isSpaceFen (Char.ofNat ('a'.toNat + f)) = false := by
  interval_cases f <;> decide

theorem space_not_mem_w1 (b : Board) (hwf : WfCastleRight b White kingSide) :
    ∀ c ∈ (if castleSqAt b (White ||| kingSide) ≠ noSquare then
      (if castleSqAt b (White ||| kingSide) = H1 then ['K']
       else [Char.ofNat ('A'.toNat + (sqFile (castleSqAt b (White ||| kingSide))).toNat)])
     else []), isSpaceFen c = false := by
  intro c hm
  by_cases hp : castleSqAt b (White ||| kingSide) = noSquare
  · rw [if_neg (not_not_intro hp)] at hm
    exact absurd hm (List.not_mem_nil _)
  · rw [if_pos hp] at hm
    rcases hwf with hno | ⟨h0, h64, _⟩
    · exact absurd hno hp
    by_cases hc : castleSqAt b (White ||| kingSide) = H1
    · rw [if_pos hc] at hm
      rw [List.mem_singleton.mp hm]
      decide
    · rw [if_neg hc] at hm
      rw [List.mem_singleton.mp hm]
      exact upperFileChar_not_space _ (by unfold sqFile; omega)

theorem space_not_mem_w2 (b : Board) (hwf : WfCastleRight b White queenSide) :
    ∀ c ∈ (if castleSqAt b (White ||| queenSide) ≠ noSquare then
      (if castleSqAt b (White ||| queenSide) = A1 then ['Q']
       else [Char.ofNat ('A'.toNat + (sqFile (castleSqAt b (White ||| queenSide))).toNat)])
     else []), isSpaceFen c = false := by
  intro c hm
  by_cases hp : castleSqAt b (White ||| queenSide) = noSquare
  · rw [if_neg (not_not_intro hp)] at hm
    exact absurd hm (List.not_mem_nil _)
  · rw [if_pos hp] at hm
    rcases hwf with hno | ⟨h0, h64, _⟩
    · exact absurd hno hp
    by_cases hc : castleSqAt b (White ||| queenSide) = A1
    · rw [if_pos hc] at hm
      rw [List.mem_singleton.mp hm]
      decide
    · rw [if_neg hc] at hm
      rw [List.mem_singleton.mp hm]
      exact upperFileChar_not_space _ (by unfold sqFile; omega)

theorem space_not_mem_b1 (b : Board) (hwf : WfCastleRight b Black kingSide) :
    ∀ c ∈ (if castleSqAt b (Black ||| kingSide) ≠ noSquare then
      (if castleSqAt b (Black ||| kingSide) = H8 then ['k']
       else [Char.ofNat ('a'.toNat + (sqFile (castleSqAt b (Black ||| kingSide))).toNat)])
     else []), isSpaceFen c = false := by
  intro c hm
  by_cases hp : castleSqAt b (Black ||| kingSide) = noSquare
  · rw [if_neg (not_not_intro hp)] at hm
    exact absurd hm (List.not_mem_nil _)
  · rw [if_pos hp] at hm
    rcases hwf with hno | ⟨h0, h64, _⟩
    · exact absurd hno hp
    by_cases hc : castleSqAt b (Black ||| kingSide) = H8
    · rw [if_pos hc] at hm
      rw [List.mem_singleton.mp hm]
      decide
    · rw [if_neg hc] at hm
      rw [List.mem_singleton.mp hm]
      exact lowerFileChar_not_space _ (by unfold sqFile; omega)

theorem space_not_mem_b2 (b : Board) (hwf : WfCastleRight b Black queenSide) :
    ∀ c ∈ (if castleSqAt b (Black ||| queenSide) ≠ noSquare then
      (if castleSqAt b (Black ||| queenSide) = A8 then ['q']
       else [Char.ofNat ('a'.toNat + (sqFile (castleSqAt b (Black ||| queenSide))).toNat)])
     else []), isSpaceFen c = false := by
  intro c hm
  by_cases hp : castleSqAt b (Black ||| queenSide) = noSquare
  · rw [if_neg (not_not_intro hp)] at hm
    exact absurd hm (List.not_mem_nil _)
  · rw [if_pos hp] at hm
    rcases hwf with hno | ⟨h0, h64, _⟩
    · exact absurd hno hp
    by_cases hc : castleSqAt b (Black ||| queenSide) = A8
    · rw [if_pos hc] at hm
      rw [List.mem_singleton.mp hm]
      decide
    · rw [if_neg hc] at hm
      rw [List.mem_singleton.mp hm]
      exact lowerFileChar_not_space _ (by unfold sqFile; omega)

theorem ite_nil_dash (l : List Char) : (if l = [] then ['-'] else l) ≠ [] := by
  split
  · simp
  · rename_i h
    exact h

theorem mem_ite_nil_dash (l : List Char) (c : Char)
    (hc : c ∈ (if l = [] then ['-'] else l)) : c = '-' ∨ c ∈ l := by
  revert hc
  split
  · intro hc
    exact Or.inl (List.mem_singleton.mp hc)
  · intro hc
    exact Or.inr hc

theorem fenCastles_ne_nil (b : Board) : fenCastles b ≠ [] := by
  unfold fenCastles
  dsimp only
  exact ite_nil_dash _

theorem fenCastles_chars (b : Board)
    (hw1 : WfCastleRight b White kingSide) (hw2 : WfCastleRight b White queenSide)
    (hb1 : WfCastleRight b Black kingSide) (hb2 : WfCastleRight b Black queenSide) :
    ∀ c ∈ fenCastles b, isSpaceFen c = false := by
  intro c hc
  unfold fenCastles at hc
  dsimp only at hc
  rcases mem_ite_nil_dash _ c hc with rfl | hm
  · decide
  · rcases List.mem_append.mp hm with hm | hm
    rotate_left
    · exact space_not_mem_b2 b hb2 c hm
    rcases List.mem_append.mp hm with hm | hm
    rotate_left
    · exact space_not_mem_b1 b hb1 c hm
    rcases List.mem_append.mp hm with hm | hm
    · exact space_not_mem_w1 b hw1 c hm
    · exact space_not_mem_w2 b hw2 c hm

theorem sqName_ne_dash (sq : Int) (h0 : 0 ≤ sq) (h1 : sq < 64) :
    sqName sq ≠ ['-'] := by
  unfold sqName
  rw [if_neg (show ¬(sq = noSquare) from by unfold noSquare; omega)]
  intro h
  have := congrArg List.length h
  simp at this

theorem parseFen_fen_wf (b : Board) (hwf : WfBoard b) :
    parseFen (fen b) = some { b with checkFrom := A1, checkTo := A1 } := by
  obtain ⟨hplen, hcslen, hpvalid, hstm, hep, hw1, hw2, hbk1, hbk2⟩ := hwf
  have spec1 := nextField_spec (fen b) 0 [] (fenRanks b 7)
    ([' '] ++ ([if b.sideToMove = White then 'w' else 'b'] ++ ([' '] ++ (fenCastles b ++
      ([' '] ++ (sqName b.epSquare ++ ([' '] ++ (intChars b.rule50 ++
      ([' '] ++ (intChars b.moveNr ++ []))))))))))
    startFenPieces
    (by
      rw [List.drop_zero]
      unfold fen
      simp only [List.append_assoc, List.nil_append, List.append_nil])
    (by simp)
    (fenRanks_ne_nil b 7)
    (fun c hc => fenRanks_chars b hpvalid 7 c hc)
    (Or.inr ⟨' ', _, rfl, by decide⟩)
  have spec2 := nextField_spec (fen b) _ [' ']
    [if b.sideToMove = White then 'w' else 'b']
    ([' '] ++ (fenCastles b ++ ([' '] ++ (sqName b.epSquare ++ ([' '] ++ (intChars b.rule50 ++
      ([' '] ++ (intChars b.moveNr ++ []))))))))
    ['w'] spec1.2.2
    (by decide)
    (by simp)
    (by
      intro c hc
      rw [List.mem_singleton.mp hc]
      rcases hstm with h | h <;> rw [h] <;> decide)
    (Or.inr ⟨' ', _, rfl, by decide⟩)
  have spec3 := nextField_spec (fen b) _ [' '] (fenCastles b)
    ([' '] ++ (sqName b.epSquare ++ ([' '] ++ (intChars b.rule50 ++
      ([' '] ++ (intChars b.moveNr ++ []))))))
    ['K', 'Q', 'k', 'q'] spec2.2.2
    (by decide)
    (fenCastles_ne_nil b)
    (fenCastles_chars b hw1 hw2 hbk1 hbk2)
    (Or.inr ⟨' ', _, rfl, by decide⟩)
  have spec4 := nextField_spec (fen b) _ [' '] (sqName b.epSquare)
    ([' '] ++ (intChars b.rule50 ++ ([' '] ++ (intChars b.moveNr ++ []))))
    ['-'] spec3.2.2
    (by decide)
    (sqName_ne_nil b.epSquare)
    (sqName_chars b.epSquare hep)
    (Or.inr ⟨' ', _, rfl, by decide⟩)
  have spec5 := nextField_spec (fen b) _ [' '] (intChars b.rule50)
    ([' '] ++ (intChars b.moveNr ++ []))
    ['0'] spec4.2.2
    (by decide)
    (intChars_ne_nil b.rule50)
    (intChars_chars b.rule50)
    (Or.inr ⟨' ', _, rfl, by decide⟩)
  have spec6 := nextField_spec (fen b) _ [' '] (intChars b.moveNr) []
    ['1'] spec5.2.2
    (by decide)
    (intChars_ne_nil b.moveNr)
    (intChars_chars b.moveNr)
    (Or.inl rfl)
  obtain ⟨B1, hB1eq, hB1len, hB1in, hB1out, hB1stm, hB1mn, hB1r50, hB1ep, hB1cs,
      hB1cf, hB1ct⟩ :=
    parsePieces_ranks b hpvalid 7
      { piece := List.replicate 64 NoPiece, sideToMove := White, moveNr := 0, rule50 := 0,
        epSquare := 0, castleSq := [0, 0, 0, 0], checkFrom := 0, checkTo := 0 }
      (by omega) (by simp)
      (by
        intro sq h0 h1 _
        unfold pieceAt
        rw [if_pos ⟨h0, h1⟩]
        rw [List.getD_eq_getElem?_getD, List.getElem?_replicate]
        split <;> rfl)
  have hB1eq7 : parsePieces (fenRanks b 7)
      { piece := List.replicate 64 NoPiece, sideToMove := White, moveNr := 0, rule50 := 0,
        epSquare := 0, castleSq := [0, 0, 0, 0], checkFrom := 0, checkTo := 0 }
      0 7 = some B1 := hB1eq
  have hpe : B1.piece = b.piece :=
    piece_list_eq B1 b hB1len hplen
      (fun sq h0 h1 => hB1in sq h0 h1
        (by
          have hc7 : Int.ofNat 7 = (7 : Int) := rfl
          omega))
  unfold parseFen
  dsimp only
  rw [spec1.1]
  dsimp only
  rw [spec1.2.1]
  rw [hB1eq7]
  dsimp only
  rw [spec2.1]
  dsimp only
  rw [spec2.2.1]
  have hcond2 : ([if b.sideToMove = White then 'w' else 'b'] : List Char) = ['w'] ∨
      ([if b.sideToMove = White then 'w' else 'b'] : List Char) = ['b'] := by
    rcases hstm with h | h <;> rw [h]
    · left
      rfl
    · right
      rfl
  rw [if_pos hcond2]
  have hsval : (if ([if b.sideToMove = White then 'w' else 'b'] : List Char) = ['w']
      then White else Black) = b.sideToMove := by
    rcases hstm with h | h <;> rw [h] <;> decide
  rw [hsval]
  rw [spec3.1]
  dsimp only
  rw [spec3.2.1]
  rw [fenCastles_reparse b]
  rotate_left
  · exact hpe
  · rfl
  · exact hcslen
  · exact hw1
  · exact hw2
  · exact hbk1
  · exact hbk2
  rw [spec4.1]
  dsimp only
  rw [spec4.2.1]
  rcases hep with hepn | ⟨hep0, hep1⟩
  · rw [if_pos (show sqName b.epSquare = ['-'] from by rw [hepn]; decide)]
    dsimp only
    rw [spec5.1]
    dsimp only
    rw [spec5.2.1]
    rw [atoi_intChars b.rule50]
    dsimp only
    rw [spec6.1]
    dsimp only
    rw [spec6.2.1]
    rw [atoi_intChars b.moveNr]
    dsimp only
    rw [hpe]
    rw [show B1.checkFrom = A1 from hB1cf, show B1.checkTo = A1 from hB1ct]
    rw [hepn]
  · rw [if_neg (sqName_ne_dash b.epSquare hep0 hep1)]
    rw [squareFromString_sqName b.epSquare hep0 hep1]
    rw [if_neg (show ¬(b.epSquare = noSquare) from by unfold noSquare; omega)]
    dsimp only
    rw [spec5.1]
    dsimp only
    rw [spec5.2.1]
    rw [atoi_intChars b.rule50]
    dsimp only
    rw [spec6.1]
    dsimp only
    rw [spec6.2.1]
    rw [atoi_intChars b.moveNr]
    dsimp only
    rw [hpe]
    rw [show B1.checkFrom = A1 from hB1cf, show B1.checkTo = A1 from hB1ct]

/-- C4 (amended): for every board satisfying the data-model invariants of a
legal position (`WfBoard`), `ParseFen(b.Fen())` succeeds and returns `b` with
every field preserved except `checkFrom`/`checkTo`, which come back as the
parser's fixed initial values (`A1`, `A1`). The original claim (equal in
every field) fails exactly on those two fields. -/
theorem c4_fen_roundtrip (b : Board) (hwf : WfBoard b) :
    parseFen (fen b) = some { b with checkFrom := A1, checkTo := A1 } :=
  parseFen_fen_wf b hwf

/-- C4 counterexample to the literal claim: the position after White castles
kingside from `4k3/8/8/8/8/8/8/4K2R w K - 0 1` is a legal (well-formed)
board whose `checkFrom`/`checkTo` record the rook-king sweep `F1..G1`;
`ParseFen(Fen(b))` returns the board with those fields reset, so the
round-trip is not the identity on every field. -/
theorem c4_fen_roundtrip_loses_check :
    WfBoard castledBoard ∧ parseFen (fen castledBoard) ≠ some castledBoard := by
  have hwf : WfBoard castledBoard := by
    unfold WfBoard WfCastleRight
    decide
  refine ⟨hwf, ?_⟩
  rw [parseFen_fen_wf castledBoard hwf]
  intro h
  have h2 := congrArg Board.checkFrom (Option.some.inj h)
  revert h2
  decide

/-- C4 witness: the amended round-trip at a concrete well-formed board. -/
theorem c4_fen_roundtrip_witness :
    WfBoard (fenBoard "8/8/8/8/8/8/8/8 w - - 0 1") ∧
    parseFen (fen (fenBoard "8/8/8/8/8/8/8/8 w - - 0 1")) =
      some { fenBoard "8/8/8/8/8/8/8/8 w - - 0 1" with checkFrom := A1, checkTo := A1 } :=
  ⟨by unfold WfBoard WfCastleRight; decide,
   c4_fen_roundtrip _ (by unfold WfBoard WfCastleRight; decide)⟩

end Chess

namespace Pgn

theorem filter_specEscape :
    ∀ (n : Nat) (u : List Char), u.length ≤ n → escOk u = true →
      u.filter (fun c => ¬(c = '\\')) = specEscape u := by
  intro n
  induction n with
  | zero =>
      intro u hl h
      rw [Nat.le_zero, List.length_eq_zero] at hl
      subst hl
      rfl
  | succ n ih =>
      intro u hl h
      match u with
      | [] => rfl
      | c :: rest =>
          by_cases hc : c = '\\'
          · subst hc
            match rest with
            | [] => exact absurd h (by decide)
            | x :: rest2 =>
                rw [escOk] at h
                rw [if_pos rfl] at h
                obtain ⟨hx, hr⟩ := Bool.and_eq_true_iff.mp h
                rw [specEscape, if_pos rfl]
                rw [List.filter_cons, List.filter_cons]
                rw [if_neg (by simp)]
                rw [if_pos (by simpa using hx)]
                congr 1
                exact ih rest2 (by simp at hl ⊢; omega) hr
          · unfold escOk at h
            rw [if_neg hc] at h
            unfold specEscape
            rw [if_neg hc]
            rw [List.filter_cons]
            rw [if_pos (by simpa using hc)]
            congr 1
            exact ih rest (by simp at hl ⊢; omega) h

/-- C7 (amended): the stored tag value is the STRING token with its first
and last characters removed, the result trimmed of surrounding white space,
and every backslash deleted. When every backslash in the unquoted interior
starts a simple two-character escape `\x` with `x` not a backslash, this
agrees with the spec's escape semantics (each `\x` becomes `x`, so `\"`
yields `"`); but `\\` collapses to nothing rather than to one backslash. -/
theorem c7_tag_value_escapes (cs : List Char) (h : escOk (unquote cs) = true) :
    unescape cs = specEscape (unquote cs) :=
  filter_specEscape (unquote cs).length (unquote cs) (Nat.le_refl _) h

/-- C7 counterexample to the literal claim: the four-character STRING token
for a quoted lone escaped backslash stores the empty value (both
backslashes are deleted), while the spec's escape replacement gives one
backslash; and surrounding spaces inside the quotes are trimmed away,
while the spec only removes the quotes. -/
theorem c7_backslash_collapses :
    unescape ['"', '\\', '\\', '"'] = [] ∧
    specUnescape ['"', '\\', '\\', '"'] = ['\\'] ∧
    unescape ['"', ' ', 'a', ' ', '"'] = ['a'] ∧
    specUnescape ['"', ' ', 'a', ' ', '"'] = [' ', 'a', ' '] := by
  refine ⟨?_, ?_, ?_, ?_⟩ <;> decide

/-- C7 witness: the amended escape law at the concrete token for `"a\"b"`. -/
theorem c7_tag_value_escapes_witness :
    escOk (unquote ['"', 'a', '\\', '"', 'b', '"']) = true ∧
    unescape ['"', 'a', '\\', '"', 'b', '"'] =
      specEscape (unquote ['"', 'a', '\\', '"', 'b', '"']) :=
  ⟨by decide, c7_tag_value_escapes _ (by decide)⟩

theorem getD_set_ne (h : List NodeRec) (n i : Nat) (x : NodeRec) (hne : i ≠ n) :
    (h.set n x).getD i dfltNode = h.getD i dfltNode := by
  rw [List.getD_eq_getElem?_getD, List.getD_eq_getElem?_getD,
    List.getElem?_set_ne (by omega)]

theorem getD_set_self (h : List NodeRec) (n : Nat) (x : NodeRec) (hn : n < h.length) :
    (h.set n x).getD n dfltNode = x := by
  rw [List.getD_eq_getElem?_getD, List.getElem?_set_self hn]
  rfl

theorem getD_set_oob (h : List NodeRec) (n : Nat) (x : NodeRec) (hn : ¬(n < h.length)) :
    h.set n x = h := by
  apply List.set_eq_of_length_le
  omega

theorem getD_append_left_node (h tail : List NodeRec) (i : Nat) (hi : i < h.length) :
    (h ++ tail).getD i dfltNode = h.getD i dfltNode := by
  rw [List.getD_eq_getElem?_getD, List.getD_eq_getElem?_getD,
    List.getElem?_append_left hi]

theorem getD_append_len_node (h : List NodeRec) (x : NodeRec) :
    (h ++ [x]).getD h.length dfltNode = x := by
  rw [List.getD_eq_getElem?_getD, List.getElem?_append_right (Nat.le_refl _)]
  simp

theorem getD_oob_node (h : List NodeRec) (i : Nat) (hi : ¬(i < h.length)) :
    h.getD i dfltNode = dfltNode := by
  rw [List.getD_eq_getElem?_getD, List.getElem?_eq_none (by omega)]
  rfl

theorem varWalk_ge (h : List NodeRec) (n0 : Nat) (hfc : FreshClosed n0 h) :
    ∀ (fuel v : Nat), n0 ≤ v → n0 ≤ varWalk h v fuel := by
  intro fuel
  induction fuel with
  | zero => intro v hv; exact hv
  | succ fuel ih =>
      intro v hv
      rw [varWalk]
      by_cases hvlen : v < h.length
      · rcases (hfc v hv hvlen).2 with hnone | ⟨w, hw, hwge⟩
        · rw [hnone]
          exact hv
        · rw [hw]
          dsimp only
          by_cases hwlen : w < h.length
          · rcases (hfc w hwge hwlen).1 with hn2 | ⟨v2, hv2, hv2ge⟩
            · rw [hn2]
              exact hv
            · rw [hv2]
              exact ih v2 hv2ge
          · rw [getD_oob_node h w hwlen]
            exact hv
      · rw [getD_oob_node h v hvlen]
        exact hv

theorem getD_append_at (h : List NodeRec) (x : NodeRec) (j : Nat) (hj : j = h.length) :
    (h ++ [x]).getD j dfltNode = x := by
  subst hj
  exact getD_append_len_node h x

theorem insertH_len (h : List NodeRec) (n : Nat) (m : Chess.Move) :
    (insertH h n m).1.length = h.length + 1 := by
  unfold insertH
  simp

theorem insertH_getD (h : List NodeRec) (n : Nat) (m : Chess.Move) (i : Nat)
    (hne : i ≠ n) (hi : i < h.length) :
    (insertH h n m).1.getD i dfltNode = h.getD i dfltNode := by
  unfold insertH
  dsimp only
  rw [getD_append_left_node _ _ _ (by simp [hi]), getD_set_ne _ _ _ _ hne]

theorem insertH_fresh (n0 : Nat) (h : List NodeRec) (n : Nat) (m : Chess.Move)
    (hlen : n0 ≤ h.length) (hfc : FreshClosed n0 h) :
    FreshClosed n0 (insertH h n m).1 := by
  intro j hj1 hj2
  rw [insertH_len] at hj2
  unfold insertH
  dsimp only
  by_cases hjl : j < h.length
  · rw [getD_append_left_node _ _ _ (by simp [hjl])]
    by_cases hjn : j = n
    · subst hjn
      rw [getD_set_self _ _ _ hjl]
      refine ⟨Or.inr ⟨h.length, rfl, hlen⟩, ?_⟩
      have := (hfc j hj1 hjl).2
      simpa using this
    · rw [getD_set_ne _ _ _ _ hjn]
      exact hfc j hj1 hjl
  · rw [getD_append_at _ _ _ (by simp; omega)]
    exact ⟨Or.inl rfl, Or.inl rfl⟩

theorem FreshClosed_set_preserve (n0 : Nat) (h : List NodeRec) (n : Nat) (r : NodeRec)
    (hfc : FreshClosed n0 h)
    (hnext : r.next = (h.getD n dfltNode).next)
    (hvar : r.variation = (h.getD n dfltNode).variation) :
    FreshClosed n0 (h.set n r) := by
  intro j hj1 hj2
  rw [List.length_set] at hj2
  by_cases hjn : j = n
  · subst hjn
    rw [getD_set_self _ _ _ hj2, hnext, hvar]
    exact hfc j hj1 hj2
  · rw [getD_set_ne _ _ _ _ hjn]
    exact hfc j hj1 hj2

theorem addCommentH_len (h : List NodeRec) (n : Nat) (c : List Char) :
    (addCommentH h n c).length = h.length := by
  unfold addCommentH
  simp

theorem addCommentH_getD (h : List NodeRec) (n : Nat) (c : List Char) (i : Nat)
    (hne : i ≠ n) :
    (addCommentH h n c).getD i dfltNode = h.getD i dfltNode := by
  unfold addCommentH
  exact getD_set_ne _ _ _ _ hne

theorem addCommentH_fresh (n0 : Nat) (h : List NodeRec) (n : Nat) (c : List Char)
    (hfc : FreshClosed n0 h) :
    FreshClosed n0 (addCommentH h n c) := by
  unfold addCommentH
  exact FreshClosed_set_preserve n0 h n _ hfc rfl rfl

theorem addNagH_len (h : List NodeRec) (n : Nat) (g : Int) :
    (addNagH h n g).length = h.length := by
  unfold addNagH
  dsimp only
  split
  · rfl
  · simp

theorem addNagH_getD (h : List NodeRec) (n : Nat) (g : Int) (i : Nat) (hne : i ≠ n) :
    (addNagH h n g).getD i dfltNode = h.getD i dfltNode := by
  unfold addNagH
  dsimp only
  split
  · rfl
  · exact getD_set_ne _ _ _ _ hne

theorem addNagH_fresh (n0 : Nat) (h : List NodeRec) (n : Nat) (g : Int)
    (hfc : FreshClosed n0 h) :
    FreshClosed n0 (addNagH h n g) := by
  unfold addNagH
  dsimp only
  split
  · exact hfc
  · exact FreshClosed_set_preserve n0 h n _ hfc rfl rfl

theorem newVariationH_len (h : List NodeRec) (n : Nat) :
    (newVariationH h n).1.length = h.length + 1 := by
  unfold newVariationH
  simp

theorem newVariationH_getD (n0 : Nat) (h : List NodeRec) (n : Nat) (i : Nat)
    (hfc : FreshClosed n0 h) (hn : n0 ≤ n) (hi0 : i < n0) (hi : i < h.length) :
    (newVariationH h n).1.getD i dfltNode = h.getD i dfltNode := by
  unfold newVariationH
  dsimp only
  have hv := varWalk_ge h n0 hfc (h.length + 1) n hn
  rw [getD_append_left_node _ _ _ (by simp [hi]), getD_set_ne _ _ _ _ (by omega)]

theorem newVariationH_fresh (n0 : Nat) (h : List NodeRec) (n : Nat)
    (hlen : n0 ≤ h.length) (hfc : FreshClosed n0 h) (hn : n0 ≤ n) :
    FreshClosed n0 (newVariationH h n).1 := by
  intro j hj1 hj2
  rw [newVariationH_len] at hj2
  unfold newVariationH
  dsimp only
  have hv := varWalk_ge h n0 hfc (h.length + 1) n hn
  by_cases hjl : j < h.length
  · rw [getD_append_left_node _ _ _ (by simp [hjl])]
    by_cases hjv : j = varWalk h n (h.length + 1)
    · subst hjv
      rw [getD_set_self _ _ _ hjl]
      refine ⟨?_, Or.inr ⟨h.length, rfl, hlen⟩⟩
      have hx := (hfc _ hj1 hjl).1
      simpa using hx
    · rw [getD_set_ne _ _ _ _ hjv]
      exact hfc j hj1 hjl
  · rw [getD_append_at _ _ _ (by simp; omega)]
    exact ⟨Or.inl rfl, Or.inl rfl⟩

theorem isRootH_congr (h h2 : List NodeRec) (n : Nat)
    (hsame : ∀ j, ((h2.getD j dfltNode).parent = (h.getD j dfltNode).parent ∧
      (h2.getD j dfltNode).next = (h.getD j dfltNode).next)) :
    isRootH h2 n = isRootH h n := by
  unfold isRootH
  rw [(hsame n).1]
  cases hp : (h.getD n dfltNode).parent
  · rfl
  · dsimp only
    rw [(hsame _).2]

theorem addCommentH_ptr (h : List NodeRec) (n : Nat) (c : List Char) :
    ∀ j, ((addCommentH h n c).getD j dfltNode).parent = (h.getD j dfltNode).parent ∧
      ((addCommentH h n c).getD j dfltNode).next = (h.getD j dfltNode).next := by
  intro j
  unfold addCommentH
  by_cases hn : n < h.length
  · by_cases hj : j = n
    · subst hj
      rw [getD_set_self _ _ _ hn]
      exact ⟨rfl, rfl⟩
    · rw [getD_set_ne _ _ _ _ hj]
      exact ⟨rfl, rfl⟩
  · rw [getD_set_oob _ _ _ hn]
    exact ⟨rfl, rfl⟩

theorem addNagH_ptr (h : List NodeRec) (n : Nat) (g : Int) :
    ∀ j, ((addNagH h n g).getD j dfltNode).parent = (h.getD j dfltNode).parent ∧
      ((addNagH h n g).getD j dfltNode).next = (h.getD j dfltNode).next := by
  intro j
  unfold addNagH
  dsimp only
  split
  · exact ⟨rfl, rfl⟩
  · by_cases hn : n < h.length
    · by_cases hj : j = n
      · subst hj
        rw [getD_set_self _ _ _ hn]
        exact ⟨rfl, rfl⟩
      · rw [getD_set_ne _ _ _ _ hj]
        exact ⟨rfl, rfl⟩
    · rw [getD_set_oob _ _ _ hn]
      exact ⟨rfl, rfl⟩

theorem isRootH_addCommentH (h : List NodeRec) (n : Nat) (c : List Char) (m : Nat) :
    isRootH (addCommentH h n c) m = isRootH h m :=
  isRootH_congr h (addCommentH h n c) m (addCommentH_ptr h n c)

theorem isRootH_addNagH (h : List NodeRec) (n : Nat) (g : Int) (m : Nat) :
    isRootH (addNagH h n g) m = isRootH h m :=
  isRootH_congr h (addNagH h n g) m (addNagH_ptr h n g)

theorem variationH_stable (n0 : Nat) :
    ∀ (fuel : Nat) (h : List NodeRec) (items : List Item) (lf : Option PErr)
      (node level : Nat),
      n0 ≤ h.length →
      FreshClosed n0 h →
      (isRootH h node = true ∨ n0 ≤ node) →
      h.length ≤ (variationH fuel h items lf node level).1.length ∧
      (∀ i, i < n0 → i ≠ node →
        (variationH fuel h items lf node level).1.getD i dfltNode = h.getD i dfltNode) ∧
      FreshClosed n0 (variationH fuel h items lf node level).1 := by
  intro fuel
  induction fuel with
  | zero =>
      intro h items lf node level hlen hfc hnode
      exact ⟨Nat.le_refl _, fun i _ _ => rfl, hfc⟩
  | succ fuel ih =>
      intro h items lf node level hlen hfc hnode
      match items with
      | [] =>
          rcases lf with _ | e
          · exact ⟨Nat.le_refl _, fun i _ _ => rfl, hfc⟩
          · exact ⟨Nat.le_refl _, fun i _ _ => rfl, hfc⟩
      | it :: rest =>
          obtain ⟨typ, val, iline, icol, ipos⟩ := it
          cases typ with
          | none => exact ⟨Nat.le_refl _, fun i _ _ => rfl, hfc⟩
          | rbracket => exact ⟨Nat.le_refl _, fun i _ _ => rfl, hfc⟩
          | str => exact ⟨Nat.le_refl _, fun i _ _ => rfl, hfc⟩
          | eof =>
              have heq : (variationH (fuel + 1) h
                  (⟨ItemType.eof, val, iline, icol, ipos⟩ :: rest) lf node level).1 = h := by
                rw [variationH]
                dsimp only
                split <;> rfl
              rw [heq]
              exact ⟨Nat.le_refl _, fun i _ _ => rfl, hfc⟩
          | lbracket =>
              have heq : (variationH (fuel + 1) h
                  (⟨ItemType.lbracket, val, iline, icol, ipos⟩ :: rest) lf node level).1 = h := by
                rw [variationH]
                dsimp only
                split <;> rfl
              rw [heq]
              exact ⟨Nat.le_refl _, fun i _ _ => rfl, hfc⟩
          | rparen =>
              have heq : (variationH (fuel + 1) h
                  (⟨ItemType.rparen, val, iline, icol, ipos⟩ :: rest) lf node level).1 = h := by
                rw [variationH]
                dsimp only
                split <;> rfl
              rw [heq]
              exact ⟨Nat.le_refl _, fun i _ _ => rfl, hfc⟩
          | movenumber => exact ih h rest lf node level hlen hfc hnode
          | dots => exact ih h rest lf node level hlen hfc hnode
          | result => exact ih h rest lf node level hlen hfc hnode
          | comment =>
              have heq : variationH (fuel + 1) h
                  (⟨ItemType.comment, val, iline, icol, ipos⟩ :: rest) lf node level =
                  variationH fuel (addCommentH h node (unquote val)) rest lf node level := rfl
              rw [heq]
              have hnode2 : isRootH (addCommentH h node (unquote val)) node = true ∨
                  n0 ≤ node := by
                rcases hnode with hr | hge
                · exact Or.inl (by rw [isRootH_addCommentH]; exact hr)
                · exact Or.inr hge
              obtain ⟨s1, s2, s3⟩ := ih (addCommentH h node (unquote val)) rest lf node level
                (by rw [addCommentH_len]; omega) (addCommentH_fresh n0 h node _ hfc) hnode2
              refine ⟨?_, ?_, s3⟩
              · rw [addCommentH_len] at s1
                exact s1
              · intro i hi0 hin
                rw [s2 i hi0 hin, addCommentH_getD h node _ i hin]
          | nag =>
              rcases hpn : parseNag val with _ | g
              · have heq : (variationH (fuel + 1) h
                    (⟨ItemType.nag, val, iline, icol, ipos⟩ :: rest) lf node level).1 = h := by
                  rw [variationH]
                  dsimp only
                  rw [hpn]
                rw [heq]
                exact ⟨Nat.le_refl _, fun i _ _ => rfl, hfc⟩
              · have heq : variationH (fuel + 1) h
                    (⟨ItemType.nag, val, iline, icol, ipos⟩ :: rest) lf node level =
                    variationH fuel (addNagH h node g) rest lf node level := by
                  rw [variationH]
                  dsimp only
                  rw [hpn]
                rw [heq]
                have hnode2 : isRootH (addNagH h node g) node = true ∨ n0 ≤ node := by
                  rcases hnode with hr | hge
                  · exact Or.inl (by rw [isRootH_addNagH]; exact hr)
                  · exact Or.inr hge
                obtain ⟨s1, s2, s3⟩ := ih (addNagH h node g) rest lf node level
                  (by rw [addNagH_len]; omega) (addNagH_fresh n0 h node g hfc) hnode2
                refine ⟨?_, ?_, s3⟩
                · rw [addNagH_len] at s1
                  exact s1
                · intro i hi0 hin
                  rw [s2 i hi0 hin, addNagH_getD h node g i hin]
          | symbol =>
              rcases hpm : Chess.parseMove (h.getD node dfltNode).board val with _ | m
              · have heq : (variationH (fuel + 1) h
                    (⟨ItemType.symbol, val, iline, icol, ipos⟩ :: rest) lf node level).1 = h := by
                  rw [variationH]
                  dsimp only
                  rw [hpm]
                rw [heq]
                exact ⟨Nat.le_refl _, fun i _ _ => rfl, hfc⟩
              · have heq : variationH (fuel + 1) h
                    (⟨ItemType.symbol, val, iline, icol, ipos⟩ :: rest) lf node level =
                    variationH fuel (insertH h node m).1 rest lf (insertH h node m).2
                      level := by
                  rw [variationH]
                  dsimp only
                  rw [hpm]
                rw [heq]
                have hidx : (insertH h node m).2 = h.length := rfl
                obtain ⟨s1, s2, s3⟩ := ih (insertH h node m).1 rest lf (insertH h node m).2
                  level (by rw [insertH_len]; omega) (insertH_fresh n0 h node m hlen hfc)
                  (Or.inr (by rw [hidx]; exact hlen))
                refine ⟨?_, ?_, s3⟩
                · rw [insertH_len] at s1
                  omega
                · intro i hi0 hin
                  rw [s2 i hi0 (by rw [hidx]; omega),
                    insertH_getD h node m i hin (by omega)]
          | lparen =>
              by_cases hroot : isRootH h node = true
              · have heq : (variationH (fuel + 1) h
                    (⟨ItemType.lparen, val, iline, icol, ipos⟩ :: rest) lf node level).1 = h := by
                  rw [variationH]
                  dsimp only
                  rw [if_pos hroot]
                rw [heq]
                exact ⟨Nat.le_refl _, fun i _ _ => rfl, hfc⟩
              · have hge : n0 ≤ node := by
                  rcases hnode with hr | hge
                  · exact absurd hr hroot
                  · exact hge
                have hvlen : n0 ≤ (newVariationH h node).1.length := by
                  rw [newVariationH_len]
                  omega
                have hvfc := newVariationH_fresh n0 h node hlen hfc hge
                have hvidx : (newVariationH h node).2 = h.length := rfl
                obtain ⟨t1, t2, t3⟩ := ih (newVariationH h node).1 rest lf
                  (newVariationH h node).2 (level + 1) hvlen hvfc
                  (Or.inr (by rw [hvidx]; exact hlen))
                rcases hsub : variationH fuel (newVariationH h node).1 rest lf
                    (newVariationH h node).2 (level + 1) with ⟨h2, items2, oe⟩
                rw [hsub] at t1 t2 t3
                dsimp only at t1 t2 t3
                have hpre : ∀ i, i < n0 → i ≠ node →
                    h2.getD i dfltNode = h.getD i dfltNode := by
                  intro i hi0 hin
                  rw [t2 i hi0 (by rw [hvidx]; omega),
                    newVariationH_getD n0 h node i hfc hge hi0 (by omega)]
                have hlen2 : h.length ≤ h2.length := by
                  rw [newVariationH_len] at t1
                  omega
                rcases oe with _ | e
                · match items2 with
                  | [] =>
                      have heq : (variationH (fuel + 1) h
                          (⟨ItemType.lparen, val, iline, icol, ipos⟩ :: rest) lf node
                          level).1 = h2 := by
                        rw [variationH]
                        dsimp only
                        rw [if_neg hroot]
                        rw [hsub]
                      rw [heq]
                      exact ⟨hlen2, hpre, t3⟩
                  | it2 :: rest2 =>
                      have heq : variationH (fuel + 1) h
                          (⟨ItemType.lparen, val, iline, icol, ipos⟩ :: rest) lf node level =
                          variationH fuel h2 rest2 lf node level := by
                        rw [variationH]
                        dsimp only
                        rw [if_neg hroot]
                        rw [hsub]
                      rw [heq]
                      obtain ⟨u1, u2, u3⟩ := ih h2 rest2 lf node level (by omega) t3
                        (Or.inr hge)
                      refine ⟨by omega, ?_, u3⟩
                      intro i hi0 hin
                      rw [u2 i hi0 hin, hpre i hi0 hin]
                · have heq : (variationH (fuel + 1) h
                      (⟨ItemType.lparen, val, iline, icol, ipos⟩ :: rest) lf node
                      level).1 = h2 := by
                    rw [variationH]
                    dsimp only
                    rw [if_neg hroot]
                    rw [hsub]
                  rw [heq]
                  exact ⟨hlen2, hpre, t3⟩

/-- C8: when `ParseMoves` fails, the game is rolled back: the root index
of the returned game holds exactly the pre-parse root record (no moves,
comments or NAGs attached to it), every other pre-existing arena node is
untouched, the prepared movetext lexer is kept, and the reported error is
a `ParseError` carrying line and column coordinates. -/
theorem c8_parse_moves_rollback (g g2 : Game1) (items : List Item)
    (lf : Option PErr) (e : PErr)
    (hlex : g.movelex = some (items, lf))
    (hroot : isRootH g.heap g.root = true)
    (hrun : dbParseMoves g = (g2, some e)) :
    g2.heap.getD g2.root dfltNode = g.heap.getD g.root dfltNode ∧
    (∀ i, i < g.heap.length → i ≠ g.root →
      g2.heap.getD i dfltNode = g.heap.getD i dfltNode) ∧
    g2.movelex = g.movelex := by
  have hfc0 : FreshClosed g.heap.length g.heap := by
    intro j hj1 hj2
    omega
  obtain ⟨s1, s2, s3⟩ := variationH_stable g.heap.length (2 * items.length + 2) g.heap
    items lf g.root 0 (Nat.le_refl _) hfc0 (Or.inl hroot)
  unfold dbParseMoves at hrun
  rw [hlex] at hrun
  dsimp only at hrun
  rcases hres : variationH (2 * items.length + 2) g.heap items lf g.root 0 with
    ⟨h2, its2, oe⟩
  rw [hres] at hrun s1 s2
  dsimp only at s1 s2
  rcases oe with _ | e2
  · dsimp only at hrun
    exact absurd (congrArg Prod.snd hrun) (by simp)
  · dsimp only at hrun
    have hg2 : g2 = ⟨h2 ++ [g.heap.getD g.root dfltNode], h2.length, some (items, lf)⟩ :=
      (congrArg Prod.fst hrun).symm
    subst hg2
    refine ⟨?_, ?_, hlex.symm⟩
    · dsimp only
      exact getD_append_at h2 _ h2.length rfl
    · intro i hi hir
      dsimp only
      rw [getD_append_left_node _ _ _ (by omega)]
      exact s2 i hi hir

/-- C8 witness: the rollback law at a concrete one-node game whose
movetext fails on its first move. -/
theorem c8_parse_moves_rollback_witness :
    dbParseMoves exGame =
      (⟨[dfltNode, dfltNode], 1, some (exGameItems, Option.none)⟩,
        some ⟨3, 5, ['e', '4']⟩) ∧
    ((⟨[dfltNode, dfltNode], 1, some (exGameItems, Option.none)⟩ : Game1).heap.getD
        (⟨[dfltNode, dfltNode], 1, some (exGameItems, Option.none)⟩ : Game1).root
        dfltNode =
      exGame.heap.getD exGame.root dfltNode ∧
    (∀ i, i < exGame.heap.length → i ≠ exGame.root →
      (⟨[dfltNode, dfltNode], 1, some (exGameItems, Option.none)⟩ : Game1).heap.getD i
          dfltNode =
        exGame.heap.getD i dfltNode) ∧
    (⟨[dfltNode, dfltNode], 1, some (exGameItems, Option.none)⟩ : Game1).movelex =
      exGame.movelex) :=
  ⟨by decide,
   c8_parse_moves_rollback exGame _ exGameItems Option.none ⟨3, 5, ['e', '4']⟩ rfl
     (by decide) (by decide)⟩

theorem getD_char_eq (xs : List Char) (m : Nat) (hm : m < xs.length) (d1 d2 : Char) :
    xs.getD m d1 = xs.getD m d2 := by
  rw [List.getD_eq_getElem _ _ hm, List.getD_eq_getElem _ _ hm]

theorem lnext_spec (l : LexState) :
    (l.input.length ≤ l.pos ∧ lnext l = (Option.none, l)) ∨
    (l.pos < l.input.length ∧
      (lnext l).1 = some (l.input.getD l.pos '\x00') ∧
      (lnext l).2.input = l.input ∧ (lnext l).2.pos = l.pos + 1) := by
  by_cases hp : l.pos < l.input.length
  · right
    refine ⟨hp, ?_, ?_, ?_⟩ <;>
      · unfold lnext
        rw [show decide (l.pos < l.input.length) = true from by simpa using hp]
  · left
    refine ⟨by omega, ?_⟩
    unfold lnext
    rw [show decide (l.pos < l.input.length) = false from by simpa using hp]

theorem acceptRunL_facts (rs : List Char) : ∀ (fuel : Nat) (l : LexState),
    (acceptRunL l rs fuel).input = l.input ∧
    l.pos ≤ (acceptRunL l rs fuel).pos ∧
    (l.pos ≤ l.input.length → (acceptRunL l rs fuel).pos ≤ l.input.length) ∧
    (∀ m, l.pos ≤ m → m < (acceptRunL l rs fuel).pos →
      m < l.input.length ∧ l.input.getD m ' ' ∈ rs) := by
  intro fuel
  induction fuel with
  | zero =>
      intro l
      rw [acceptRunL]
      exact ⟨rfl, Nat.le_refl _, fun hl => hl, fun m h1 h2 => absurd h2 (by omega)⟩
  | succ fuel ih =>
      intro l
      rw [acceptRunL]
      rcases lnext_spec l with ⟨hlen, heq⟩ | ⟨hlt, hfst, hin, hpos⟩
      · rw [show lpeek l = Option.none from by unfold lpeek; rw [heq]]
        dsimp only
        exact ⟨rfl, Nat.le_refl _, fun hl => hl, fun m h1 h2 => absurd h2 (by omega)⟩
      · rw [show lpeek l = some (l.input.getD l.pos '\x00') from hfst]
        dsimp only
        by_cases hc : l.input.getD l.pos '\x00' ∈ rs
        · rw [if_pos hc]
          obtain ⟨i1, i2, i3, i4⟩ := ih (lnext l).2
          rw [hin] at i1 i3 i4
          rw [hpos] at i2 i3 i4
          refine ⟨i1, by omega, fun hl => i3 (by omega), ?_⟩
          intro m h1 h2
          by_cases hm : m = l.pos
          · subst hm
            refine ⟨hlt, ?_⟩
            rw [getD_char_eq _ _ hlt ' ' '\x00']
            exact hc
          · exact i4 m (by omega) h2
        · rw [if_neg hc]
          exact ⟨rfl, Nat.le_refl _, fun hl => hl, fun m h1 h2 => absurd h2 (by omega)⟩

theorem recoverLoop_spec : ∀ (fuel : Nat) (l : LexState),
    l.pos ≤ l.input.length → l.input.length - l.pos < fuel →
    (recoverLoop l fuel).input = l.input ∧
    l.pos ≤ (recoverLoop l fuel).pos ∧
    ((recoverLoop l fuel).pos = l.input.length ∨
      ∃ j k, l.pos ≤ j ∧ j < k ∧ k < l.input.length ∧
        (recoverLoop l fuel).pos = k + 1 ∧
        l.input.getD j ' ' = '\n' ∧ l.input.getD k ' ' = '\n' ∧
        ∀ m, j < m → m < k →
          (l.input.getD m ' ' = ' ' ∨ l.input.getD m ' ' = '\t' ∨
            l.input.getD m ' ' = '\r')) := by
  intro fuel
  induction fuel with
  | zero =>
      intro l hpos hfuel
      omega
  | succ fuel ih =>
      intro l hpos hfuel
      rw [recoverLoop]
      rcases lnext_spec l with ⟨hlen, heq⟩ | ⟨hlt, hfst, hin, hps⟩
      · rw [heq]
        dsimp only
        exact ⟨rfl, Nat.le_refl _, Or.inl (by omega)⟩
      · split
        · rename_i x1 l1x heqx
          rw [heqx] at hfst
          dsimp only at hfst
          exact Option.noConfusion hfst
        · rename_i x1 cx l1x heqx
          rw [heqx] at hfst hin hps
          dsimp only at hfst hin hps
          have hcx : cx = l.input.getD l.pos '\x00' := Option.some.inj hfst
          subst hcx
          by_cases hcn : l.input.getD l.pos '\x00' = '\n'
          · rw [if_pos hcn]
            dsimp only
            obtain ⟨r1, r2, r3, r4⟩ := acceptRunL_facts [' ', '\t', '\r'] fuel l1x
            rw [hin] at r1 r3 r4
            rw [hps] at r2 r3
            split
            · rename_i x2 c2x l3x heq2x
              rcases lnext_spec (acceptRunL l1x [' ', '\t', '\r'] fuel) with
                ⟨hlen2, heq2b⟩ | ⟨hlt2, hfst2, hin2, hps2⟩
              · rw [heq2b] at heq2x
                have hcontra := congrArg Prod.fst heq2x
                dsimp only at hcontra
                exact Option.noConfusion hcontra
              · rw [heq2x] at hfst2 hin2 hps2
                dsimp only at hfst2 hin2 hps2
                have hc2x : c2x = (acceptRunL l1x [' ', '\t', '\r'] fuel).input.getD
                    (acceptRunL l1x [' ', '\t', '\r'] fuel).pos '\x00' :=
                  Option.some.inj hfst2
                subst hc2x
                rw [r1] at hlt2
                by_cases hc2 : (acceptRunL l1x [' ', '\t', '\r'] fuel).input.getD
                    (acceptRunL l1x [' ', '\t', '\r'] fuel).pos '\x00' = '\n'
                · rw [if_pos hc2]
                  refine ⟨by rw [hin2, r1], by omega, ?_⟩
                  right
                  rw [r1] at hc2
                  refine ⟨l.pos, (acceptRunL l1x [' ', '\t', '\r'] fuel).pos,
                    Nat.le_refl _, by omega, hlt2, by omega, ?_, ?_, ?_⟩
                  · rw [getD_char_eq _ _ hlt ' ' '\x00']
                    exact hcn
                  · rw [getD_char_eq _ _ hlt2 ' ' '\x00']
                    exact hc2
                  · intro m hm1 hm2
                    have hmem := (r4 m (by omega) (by omega)).2
                    simpa using hmem
                · rw [if_neg hc2]
                  have hl3in : l3x.input = l.input := by rw [hin2, r1]
                  obtain ⟨q1, q2, q3⟩ := ih l3x (by rw [hl3in]; omega)
                    (by rw [hl3in]; omega)
                  rw [hl3in] at q1 q3
                  refine ⟨q1, by omega, ?_⟩
                  rcases q3 with hq | ⟨j, k, hj, hjk, hk, hp, hgj, hgk, hrun⟩
                  · exact Or.inl hq
                  · exact Or.inr ⟨j, k, by omega, hjk, hk, hp, hgj, hgk, hrun⟩
            · rename_i x2 l3x heq2x
              rcases lnext_spec (acceptRunL l1x [' ', '\t', '\r'] fuel) with
                ⟨hlen2, heq2b⟩ | ⟨hlt2, hfst2, hin2, hps2⟩
              · have hl3 : l3x = acceptRunL l1x [' ', '\t', '\r'] fuel := by
                  rw [heq2b] at heq2x
                  have := congrArg Prod.snd heq2x
                  dsimp only at this
                  exact this.symm
                subst hl3
                have hl2pos : (acceptRunL l1x [' ', '\t', '\r'] fuel).pos =
                    l.input.length := by
                  rw [r1] at hlen2
                  have := r3 (by omega)
                  omega
                obtain ⟨q1, q2, q3⟩ := ih (acceptRunL l1x [' ', '\t', '\r'] fuel)
                  (by rw [r1]; omega) (by rw [r1, hl2pos]; omega)
                rw [r1] at q1 q3
                refine ⟨q1, by omega, ?_⟩
                rcases q3 with hq | ⟨j, k, hj, hjk, hk, hp, hgj, hgk, hrun⟩
                · exact Or.inl hq
                · exact Or.inr ⟨j, k, by omega, hjk, hk, hp, hgj, hgk, hrun⟩
              · rw [heq2x] at hfst2
                dsimp only at hfst2
                exact Option.noConfusion hfst2
          · rw [if_neg hcn]
            obtain ⟨q1, q2, q3⟩ := ih l1x (by rw [hin, hps]; omega)
              (by rw [hin, hps]; omega)
            rw [hin] at q1 q3
            rw [hps] at q2
            refine ⟨q1, by omega, ?_⟩
            rcases q3 with hq | ⟨j, k, hj, hjk, hk, hp, hgj, hgk, hrun⟩
            · exact Or.inl hq
            · rw [hps] at hj
              exact Or.inr ⟨j, k, by omega, hjk, hk, hp, hgj, hgk, hrun⟩

theorem recoverH_spec (l : LexState) (hpos : l.pos ≤ l.input.length) :
    (recoverH l).input = l.input ∧ l.pos ≤ (recoverH l).pos ∧
    ((recoverH l).pos = l.input.length ∨
      ∃ j k, l.pos ≤ j ∧ j < k ∧ k < l.input.length ∧ (recoverH l).pos = k + 1 ∧
        l.input.getD j ' ' = '\n' ∧ l.input.getD k ' ' = '\n' ∧
        ∀ m, j < m → m < k →
          (l.input.getD m ' ' = ' ' ∨ l.input.getD m ' ' = '\t' ∨
            l.input.getD m ' ' = '\r')) := by
  unfold recoverH
  dsimp only
  exact recoverLoop_spec (l.input.length + 2) l hpos (by omega)

theorem parseLoopH_err (fuel : Nat) (ps ps2 : PS) (e : PErr) (gs : List GameFull)
    (es : List PErr) (h : readGameH ps = (ps2, Except.error e)) :
    parseLoopH (fuel + 1) ps gs es = parseLoopH fuel ps2 gs (es ++ [e]) := by
  rw [parseLoopH, h]

theorem parseLoopH_ok (fuel : Nat) (ps ps2 : PS) (g : GameFull) (gs : List GameFull)
    (es : List PErr) (h : readGameH ps = (ps2, Except.ok (some g))) :
    parseLoopH (fuel + 1) ps gs es = parseLoopH fuel ps2 (gs ++ [g]) es := by
  rw [parseLoopH, h]

/-- C9: the error-recovery contract of `DB.Parse`. A failing `readGame`
call contributes exactly one `ParseError` (carrying line and column
coordinates) to the error list and parsing continues from the recovered
state; a successful call contributes exactly its game to the database and
no error; and recovery itself moves the lexer forward either to the end
of input or to just past a blank line (a newline, optional spaces, tabs
or carriage returns, and a second newline), where the next game starts. -/
theorem c9_parse_recovery :
    (∀ (fuel : Nat) (ps ps2 : PS) (e : PErr) (gs : List GameFull) (es : List PErr),
        readGameH ps = (ps2, Except.error e) →
        parseLoopH (fuel + 1) ps gs es = parseLoopH fuel ps2 gs (es ++ [e])) ∧
    (∀ (fuel : Nat) (ps ps2 : PS) (g : GameFull) (gs : List GameFull) (es : List PErr),
        readGameH ps = (ps2, Except.ok (some g)) →
        parseLoopH (fuel + 1) ps gs es = parseLoopH fuel ps2 (gs ++ [g]) es) ∧
    (∀ l : LexState, l.pos ≤ l.input.length →
        (recoverH l).input = l.input ∧
        l.pos ≤ (recoverH l).pos ∧
        ((recoverH l).pos = l.input.length ∨
          ∃ j k, l.pos ≤ j ∧ j < k ∧ k < l.input.length ∧ (recoverH l).pos = k + 1 ∧
            l.input.getD j ' ' = '\n' ∧ l.input.getD k ' ' = '\n' ∧
            ∀ m, j < m → m < k →
              (l.input.getD m ' ' = ' ' ∨ l.input.getD m ' ' = '\t' ∨
                l.input.getD m ' ' = '\r'))) :=
  ⟨fun fuel ps ps2 e gs es h => parseLoopH_err fuel ps ps2 e gs es h,
   fun fuel ps ps2 g gs es h => parseLoopH_ok fuel ps ps2 g gs es h,
   fun l hl => recoverH_spec l hl⟩

/-- C9 witness: the contract at the concrete two-game input `c9Input`
(broken first game, well-formed second game): the failing first
`readGame` records exactly the one error at line 1, the successful second
one appends exactly its game, and recovery from inside the first game
stops just past the blank line. -/
theorem c9_parse_recovery_witness :
    (readGameH c9psA = (c9psA2, Except.error ⟨1, 5, ['e', 'x']⟩) ∧
      parseLoopH 1 c9psA [] [] =
        parseLoopH 0 c9psA2 [] ([] ++ [⟨1, 5, ['e', 'x']⟩])) ∧
    (readGameH c9psA2 =
        ((readGameH c9psA2).1, Except.ok (some (someGameOf (readGameH c9psA2)))) ∧
      parseLoopH 1 c9psA2 [] [] =
        parseLoopH 0 (readGameH c9psA2).1 ([] ++ [someGameOf (readGameH c9psA2)]) []) ∧
    ((6 : Nat) ≤ c9Input.length ∧
      (recoverH ⟨c9Input, 6, 1, 6⟩).input = c9Input ∧
      (6 : Nat) ≤ (recoverH ⟨c9Input, 6, 1, 6⟩).pos ∧
      ((recoverH ⟨c9Input, 6, 1, 6⟩).pos = c9Input.length ∨
        ∃ j k, 6 ≤ j ∧ j < k ∧ k < c9Input.length ∧
          (recoverH ⟨c9Input, 6, 1, 6⟩).pos = k + 1 ∧
          c9Input.getD j ' ' = '\n' ∧ c9Input.getD k ' ' = '\n' ∧
          ∀ m, j < m → m < k →
            (c9Input.getD m ' ' = ' ' ∨ c9Input.getD m ' ' = '\t' ∨
              c9Input.getD m ' ' = '\r'))) :=
  ⟨⟨by decide, c9_parse_recovery.1 0 c9psA c9psA2 ⟨1, 5, ['e', 'x']⟩ [] [] (by decide)⟩,
   ⟨by decide,
    c9_parse_recovery.2.1 0 c9psA2 (readGameH c9psA2).1 (someGameOf (readGameH c9psA2))
      [] [] (by decide)⟩,
   ⟨by decide, c9_parse_recovery.2.2 ⟨c9Input, 6, 1, 6⟩ (by decide)⟩⟩

end Pgn
